import Mathlib

/-!
# The managed hash map of the Emojicode runtime (`EmojicodeDictionary.c`)

A shallow embedding of the dictionary of the runtime.

* A chain of nodes linked through `next` is a `List` of nodes: the empty list
  is the `NULL` reference, the head of the list is the node a bucket (or a
  predecessor's `next`) points to.
* The bucket array is a `List` of chains; `buckets = none` is the `NULL` array.
* Hashes are 64-bit: every arithmetic step on them is reduced modulo `2^64`.
* `size`, `nextThreshold` and `bucketsCounter` are `size_t` counters. They are
  natural numbers here; the only wrap-around that is kept is the one of
  `dict->size--` at zero and of `oldThr << 1`, the increments cannot wrap with
  fewer than `2^64` calls.
* The collector (`stackPush`, `stackPop`, `mark`) moves objects without
  changing their contents and has no counterpart.
-/

namespace Emojicode

/-! ## Handles, strings and the hash -/

/-- The handle `Something`: a primitive or a reference to a heap object. -/
inductive Something where
  | NOTHINGNESS
  | integer (v : Int)
  | boolean (b : Bool)
  | object (address : Nat)
  deriving DecidableEq

/-- A code point, the 32-bit `EmojicodeChar`. -/
abbrev EmojicodeChar := Nat

/-- Modelled from the spec: the `String` object a key handle refers to
(`EmojicodeString.h` is not part of the sources): its characters in order. -/
abbrev EmojicodeString := List EmojicodeChar

/-- Modelled from the spec: `stringEqual` of `EmojicodeString.h`, which is not
part of the sources: two strings are equal when they are character-wise
equal. -/
def stringEqual (a b : EmojicodeString) : Bool := a == b

def FNV_PRIME_64 : Nat := 1099511628211

def FNV_OFFSET_64 : Nat := 14695981039346656037

/-- The value of the C expression `k[i]` of type `char` for the byte `b`
(`0 ≤ b < 256`) stored at `k + i`: where `char` is a signed type the bytes
from 128 on are the negative numbers `b - 256`. -/
def charValue (charIsSigned : Bool) (b : Nat) : Int :=
  if charIsSigned ∧ 128 ≤ b then (b : Int) - 256 else (b : Int)

/-- The conversion of a promoted `char` to the unsigned 64-bit type
`EmojicodeDictionaryHash`, as `hash ^ k[i]` performs it. -/
def toHash (c : Int) : Nat := (c % (2 ^ 64 : Int)).toNat

/-- One round of the loop of `fnv64`: `hash = hash ^ k[i]; hash = hash * FNV_PRIME_64`. -/
def fnv64Step (hash : Nat) (c : Int) : Nat :=
  ((hash ^^^ toHash c) * FNV_PRIME_64) % 2 ^ 64

/-- The function `fnv64(k, length)`; `k` lists the `length` values `k[0]`, …,
`k[length - 1]` of type `char`. -/
def fnv64 (k : List Int) : Nat :=
  k.foldl fnv64Step FNV_OFFSET_64

/-- The 64-bit FNV-1a hash of a sequence of octets, as the specification
writes it: each byte enters with its unsigned value. -/
def fnv1a64 (bytes : List Nat) : Nat :=
  bytes.foldl (fun h b => ((h ^^^ b) * 1099511628211) % 2 ^ 64) 14695981039346656037

/-- Modelled from the spec: `characters(keyString)` seen through `(char*)`
(`EmojicodeString.h` is not part of the sources): the `length *
sizeof(EmojicodeChar)` bytes of the 32-bit code points, least significant
byte first, each read as a signed `char` (the x86-64 ABI). -/
def characters (keyString : EmojicodeString) : List Int :=
  keyString.flatMap fun c =>
    [charValue true (c % 256), charValue true (c / 256 % 256),
     charValue true (c / 65536 % 256), charValue true (c / 16777216 % 256)]

/-- The function `dictionaryHash`: the macro `hashString` applied to the key. -/
def dictionaryHash (key : EmojicodeString) : Nat :=
  fnv64 (characters key)

def dictionaryKeyEqual (key1 key2 : EmojicodeString) : Bool :=
  stringEqual key1 key2

def dictionaryKeyHashEqual (hash1 hash2 : Nat) (key1 key2 : EmojicodeString) : Bool :=
  (hash1 == hash2) && dictionaryKeyEqual key1 key2

/-! ## The dictionary -/

/-- A node `EmojicodeDictionaryNode`; its `next` field is the rest of the list
the node stands in. -/
structure EmojicodeDictionaryNode where
  hash : Nat
  key : EmojicodeString
  value : Something
  deriving DecidableEq

/-- The structure `EmojicodeDictionary`. The field `loadFactor` only ever
holds `DICTIONARY_DEFAULT_LOAD_FACTOR` and is not stored. -/
structure EmojicodeDictionary where
  buckets : Option (List (List EmojicodeDictionaryNode))
  bucketsCounter : Nat
  size : Nat
  nextThreshold : Nat
  deriving DecidableEq

/-- Modelled from the spec: the default initial capacity of
`EmojicodeDictionary.h`, which is not part of the sources: 16. -/
def DICTIONARY_DEFAULT_INITIAL_CAPACITY : Nat := 16

/-- Modelled from the spec: the maximum capacity of `EmojicodeDictionary.h`,
which is not part of the sources: `2^30`. -/
def DICTIONARY_MAXIMUM_CAPACTIY : Nat := 2 ^ 30

/-- The loop `while ((eo = e->next))` of `dictionaryGetNode` over the
successors of the node `e`. -/
def getNodeLoop (hash : Nat) (key : EmojicodeString) :
    List EmojicodeDictionaryNode → Option EmojicodeDictionaryNode
  | [] => none
  | e :: next =>
    if dictionaryKeyHashEqual hash e.hash key e.key then some e
    else getNodeLoop hash key next

/-- The function `dictionaryGetNode`; `none` is the `NULL` result. -/
def dictionaryGetNode (dict : EmojicodeDictionary) (hash : Nat) (key : EmojicodeString) :
    Option EmojicodeDictionaryNode :=
  match dict.buckets with
  | none => none
  | some bucko =>
    let n := dict.bucketsCounter
    if n > 0 then
      match bucko.getD (hash &&& (n - 1)) [] with
      | [] => none
      | e :: next =>
        if dictionaryKeyHashEqual hash e.hash key e.key then some e
        else getNodeLoop hash key next
    else none

/-- The function `dictionaryNewNode` with `next = NULL`. -/
def dictionaryNewNode (hash : Nat) (key : EmojicodeString) (value : Something) :
    EmojicodeDictionaryNode :=
  { hash := hash, key := key, value := value }

/-- The `do … while` loop of `dictionaryResize` that splits one chain: `lo` and
`hi` are the lists built so far (`loHeado … loTailo`, `hiHeado … hiTailo`), a
node is linked behind the tail of its list. -/
def resizeSplit (oldCap : Nat) :
    List EmojicodeDictionaryNode → List EmojicodeDictionaryNode → List EmojicodeDictionaryNode →
    List EmojicodeDictionaryNode × List EmojicodeDictionaryNode
  | [], lo, hi => (lo, hi)
  | e :: nexto, lo, hi =>
    if e.hash &&& oldCap = 0 then resizeSplit oldCap nexto (lo ++ [e]) hi
    else resizeSplit oldCap nexto lo (hi ++ [e])

/-- The body of the loop `for (j = 0; j < oldCap; ++j)` of `dictionaryResize`. -/
def resizeBucket (oldCap newCap : Nat) (oldBucko : List (List EmojicodeDictionaryNode))
    (newBucko : List (List EmojicodeDictionaryNode)) (j : Nat) :
    List (List EmojicodeDictionaryNode) :=
  match oldBucko.getD j [] with
  | [] => newBucko
  | [e] => newBucko.set (e.hash &&& (newCap - 1)) [e]
  | e :: e2 :: rest =>
    let lohi := resizeSplit oldCap (e :: e2 :: rest) [] []
    let newBucko1 := if lohi.1 ≠ [] then newBucko.set j lohi.1 else newBucko
    if lohi.2 ≠ [] then newBucko1.set (j + oldCap) lohi.2 else newBucko1

/-- The function `dictionaryResize`. `maxThreshold` is the constant
`DICTIONARY_MAXIMUM_CAPACTIY_THRESHOLD` of `EmojicodeDictionary.h`, which is
not part of the sources. The single-precision product `(float) newCap *
dict->loadFactor` is the exact product with 0.75, truncated. -/
def dictionaryResize (maxThreshold : Nat) (dict : EmojicodeDictionary) : EmojicodeDictionary :=
  let oldBuckoo := dict.buckets
  let oldCap := match oldBuckoo with
    | none => 0
    | some _ => dict.bucketsCounter
  let oldThr := dict.nextThreshold
  if 0 < oldCap ∧ DICTIONARY_MAXIMUM_CAPACTIY ≤ oldCap then
    { dict with nextThreshold := maxThreshold }
  else
    let capThr : Nat × Nat :=
      if 0 < oldCap then
        if oldCap <<< 1 < DICTIONARY_MAXIMUM_CAPACTIY ∧ DICTIONARY_DEFAULT_INITIAL_CAPACITY ≤ oldCap then
          (oldCap <<< 1, (oldThr <<< 1) % 2 ^ 64)
        else (oldCap <<< 1, 0)
      else if 0 < oldThr then (oldThr, 0)
      else (DICTIONARY_DEFAULT_INITIAL_CAPACITY, 12)
    let newCap := capThr.1
    let newThr :=
      if capThr.2 = 0 then
        if newCap < DICTIONARY_MAXIMUM_CAPACTIY ∧ 3 * newCap < 4 * DICTIONARY_MAXIMUM_CAPACTIY then
          3 * newCap / 4
        else maxThreshold
      else capThr.2
    let newBucko0 : List (List EmojicodeDictionaryNode) := List.replicate newCap []
    let newBucko := match oldBuckoo with
      | none => newBucko0
      | some oldBucko => (List.range oldCap).foldl (resizeBucket oldCap newCap oldBucko) newBucko0
    { dict with buckets := some newBucko, nextThreshold := newThr, bucketsCounter := newCap }

/-- The loop `for (int binCount = 0; ; ++binCount)` of `dictionaryPutVal` over
the successors of the node `p`: the new list of successors. At the end of the
chain a new node is linked; at a node with the key the loop is left and
nothing is linked (`eo` stays `NULL`). -/
def putValLoop (hash : Nat) (key : EmojicodeString) (value : Something) :
    List EmojicodeDictionaryNode → List EmojicodeDictionaryNode
  | [] => [dictionaryNewNode hash key value]
  | e :: next =>
    if dictionaryKeyHashEqual hash e.hash key e.key then e :: next
    else e :: putValLoop hash key value next

/-- The last statement of `dictionaryPutVal`:
`if (++(dict->size) > dict->nextThreshold) dictionaryResize(dicto, thread)`. -/
def putValGrow (maxThreshold : Nat) (dict : EmojicodeDictionary) : EmojicodeDictionary :=
  let dict1 := { dict with size := dict.size + 1 }
  if dict1.size > dict1.nextThreshold then dictionaryResize maxThreshold dict1 else dict1

/-- The function `dictionaryPutVal` up to its last statement: the dictionary
reached there, and `true` when the function has returned before it (`eo !=
NULL`, the existing mapping of the key was overwritten). -/
def putValInsert (maxThreshold : Nat) (dict0 : EmojicodeDictionary) (key : EmojicodeString)
    (value : Something) : EmojicodeDictionary × Bool :=
  let hash := dictionaryHash key
  let dict :=
    if dict0.buckets = none ∨ dict0.bucketsCounter = 0 then dictionaryResize maxThreshold dict0
    else dict0
  match dict.buckets with
  | none => (dict, true) -- not reached: the array is allocated by now
  | some bucko =>
    let n := dict.bucketsCounter
    let i := hash &&& (n - 1)
    match bucko.getD i [] with
    | [] => ({ dict with buckets := some (bucko.set i [dictionaryNewNode hash key value]) }, false)
    | p :: next =>
      if dictionaryKeyHashEqual hash p.hash key p.key then
        ({ dict with buckets := some (bucko.set i ({ p with value := value } :: next)) }, true)
      else
        ({ dict with buckets := some (bucko.set i (p :: putValLoop hash key value next)) }, false)

/-- The function `dictionaryPutVal`. -/
def dictionaryPutVal (maxThreshold : Nat) (dict0 : EmojicodeDictionary) (key : EmojicodeString)
    (value : Something) : EmojicodeDictionary :=
  let reached := putValInsert maxThreshold dict0 key value
  if reached.2 then reached.1 else putValGrow maxThreshold reached.1

/-- The loop `while (nexto)` of `dictionaryRemoveNode` over the successors of
the node `p`: the node found and the successors that are left when it is
spliced out, `none` when no node has the key. -/
def removeNodeLoop (hash : Nat) (key : EmojicodeString) :
    List EmojicodeDictionaryNode → Option (EmojicodeDictionaryNode × List EmojicodeDictionaryNode)
  | [] => none
  | e :: next =>
    if dictionaryKeyHashEqual hash e.hash key e.key then some (e, next)
    else
      match removeNodeLoop hash key next with
      | none => none
      | some (node, rest) => some (node, e :: rest)

/-- The statement `dict->size--` on a `size_t`. -/
def sizeDecrement (size : Nat) : Nat :=
  if size = 0 then 2 ^ 64 - 1 else size - 1

/-- The function `dictionaryRemoveNode`: the node removed (`none` for `NULL`)
and the dictionary afterwards. -/
def dictionaryRemoveNode (dict : EmojicodeDictionary) (hash : Nat) (key : EmojicodeString) :
    Option EmojicodeDictionaryNode × EmojicodeDictionary :=
  match dict.buckets with
  | none => (none, dict)
  | some bucko =>
    let n := dict.bucketsCounter
    if n > 0 then
      let index := hash &&& (n - 1)
      match bucko.getD index [] with
      | [] => (none, dict)
      | p :: next =>
        if dictionaryKeyHashEqual hash p.hash key p.key then
          (some p, { dict with buckets := some (bucko.set index next),
                               size := sizeDecrement dict.size })
        else
          match removeNodeLoop hash key next with
          | none => (none, dict)
          | some (node, rest) =>
            (some node, { dict with buckets := some (bucko.set index (p :: rest)),
                                    size := sizeDecrement dict.size })
    else (none, dict)

def dictionaryRemove (dict : EmojicodeDictionary) (key : EmojicodeString) : EmojicodeDictionary :=
  (dictionaryRemoveNode dict (dictionaryHash key) key).2

def dictionaryContainsKey (dict : EmojicodeDictionary) (key : EmojicodeString) : Bool :=
  (dictionaryGetNode dict (dictionaryHash key) key).isSome

/-- The function `dictionaryClear`. -/
def dictionaryClear (dict : EmojicodeDictionary) : EmojicodeDictionary :=
  match dict.buckets with
  | none => dict
  | some buck =>
    if dict.size > 0 then
      { dict with
        size := 0
        buckets := some ((List.range dict.bucketsCounter).foldl (fun b i => b.set i []) buck) }
    else dict

/-- The function `dictionaryInit`, run on the memory `dict` of a new object:
`bucketsCounter` is not written. -/
def dictionaryInit (dict : EmojicodeDictionary) : EmojicodeDictionary :=
  { dict with size := 0, buckets := none, nextThreshold := 0 }

def dictionarySet (maxThreshold : Nat) (dict : EmojicodeDictionary) (key : EmojicodeString)
    (value : Something) : EmojicodeDictionary :=
  dictionaryPutVal maxThreshold dict key value

/-- The bridge `bridgeDictionaryGet` on the receiver `dict`. -/
def bridgeDictionaryGet (dict : EmojicodeDictionary) (key : EmojicodeString) : Something :=
  match dictionaryGetNode dict (dictionaryHash key) key with
  | none => Something.NOTHINGNESS
  | some node => node.value

/-- The dictionaries a program can hold: `dictionaryInit` on a new object,
then any number of calls of set, remove and clear. -/
inductive Reachable (maxThreshold : Nat) : EmojicodeDictionary → Prop
  | init (memory : EmojicodeDictionary) : Reachable maxThreshold (dictionaryInit memory)
  | set {dict : EmojicodeDictionary} (key : EmojicodeString) (value : Something) :
      Reachable maxThreshold dict → Reachable maxThreshold (dictionarySet maxThreshold dict key value)
  | remove {dict : EmojicodeDictionary} (key : EmojicodeString) :
      Reachable maxThreshold dict → Reachable maxThreshold (dictionaryRemove dict key)
  | clear {dict : EmojicodeDictionary} :
      Reachable maxThreshold dict → Reachable maxThreshold (dictionaryClear dict)

/-- The number of nodes in all chains of a bucket array. -/
def nodeCount (bucko : List (List EmojicodeDictionaryNode)) : Nat :=
  (bucko.map List.length).sum

/-- The chain of a bucket after the insertion of `dictionaryPutVal`: what the
function stores for the bucket whose chain was `chain`. -/
def putValChain (hash : Nat) (key : EmojicodeString) (value : Something) :
    List EmojicodeDictionaryNode → List EmojicodeDictionaryNode
  | [] => [dictionaryNewNode hash key value]
  | p :: next =>
    if dictionaryKeyHashEqual hash p.hash key p.key then { p with value := value } :: next
    else p :: putValLoop hash key value next

/-- The check of `dictionaryPutVal` on the head of a chain: `eo = po`. -/
def headMatches (hash : Nat) (key : EmojicodeString) : List EmojicodeDictionaryNode → Bool
  | [] => false
  | p :: _ => dictionaryKeyHashEqual hash p.hash key p.key

/-- The dictionary `dictionaryPutVal` works on after its first statement. -/
def putValPrepare (maxThreshold : Nat) (dict0 : EmojicodeDictionary) : EmojicodeDictionary :=
  if dict0.buckets = none ∨ dict0.bucketsCounter = 0 then dictionaryResize maxThreshold dict0
  else dict0

/-- The state of a bucket array the operations keep: the array has
`bucketsCounter` entries, a power of two between `2^4` and `2^30`; every node
stands in the bucket its hash selects and carries the hash of its key; the
keys of a chain are pairwise distinct; `size` is at least the number of
nodes. -/
structure WellFormed (bucko : List (List EmojicodeDictionaryNode)) (cap size : Nat) : Prop where
  length_eq : bucko.length = cap
  pow : ∃ m, 4 ≤ m ∧ m ≤ 30 ∧ cap = 2 ^ m
  placed : ∀ i, ∀ e ∈ bucko.getD i [], e.hash = dictionaryHash e.key ∧ e.hash &&& (cap - 1) = i
  nodup : ∀ i, ((bucko.getD i []).map (fun e => e.key)).Nodup
  count_le : nodeCount bucko ≤ size

/-- The invariant of the dictionary. -/
def Inv (dict : EmojicodeDictionary) : Prop :=
  match dict.buckets with
  | none => dict.size = 0 ∧ dict.nextThreshold = 0
  | some bucko => WellFormed bucko dict.bucketsCounter dict.size

/-- The nodes of a chain that stay at their index when the array doubles. -/
def loPart (oldCap : Nat) (chain : List EmojicodeDictionaryNode) : List EmojicodeDictionaryNode :=
  chain.filter (fun e => decide (e.hash &&& oldCap = 0))

/-- The nodes of a chain that move up by `oldCap` when the array doubles. -/
def hiPart (oldCap : Nat) (chain : List EmojicodeDictionaryNode) : List EmojicodeDictionaryNode :=
  chain.filter (fun e => !decide (e.hash &&& oldCap = 0))

/-- The new array of `dictionaryResize` when the buckets below `j` of the old
array have been moved. -/
def Rehashed (oldCap : Nat) (oldBucko : List (List EmojicodeDictionaryNode)) (j : Nat)
    (newBucko : List (List EmojicodeDictionaryNode)) : Prop :=
  newBucko.length = 2 * oldCap ∧
  ∀ i, newBucko.getD i [] =
    if i < j then loPart oldCap (oldBucko.getD i [])
    else if oldCap ≤ i ∧ i < oldCap + j then hiPart oldCap (oldBucko.getD (i - oldCap) [])
    else []

/-- The calls `set(k1, v1)`, …, `set(kn, vn)` in this order. -/
def setAll (maxThreshold : Nat) (dict : EmojicodeDictionary)
    (entries : List (EmojicodeString × Something)) : EmojicodeDictionary :=
  entries.foldl (fun d kv => dictionarySet maxThreshold d kv.1 kv.2) dict

/-- The call `dictionaryPutVal(dict, key, value)` reaches its last statement
and the comparison `++(dict->size) > dict->nextThreshold` there holds. -/
def putValExceeds (maxThreshold : Nat) (dict : EmojicodeDictionary) (key : EmojicodeString)
    (value : Something) : Bool :=
  let reached := putValInsert maxThreshold dict key value
  !reached.2 && decide (reached.1.size + 1 > reached.1.nextThreshold)

/-- The memory of a new object, all zero. -/
def zeroMemory : EmojicodeDictionary :=
  { buckets := none, bucketsCounter := 0, size := 0, nextThreshold := 0 }

/-- The dictionary after `set("a", 1); set("q", 2)` on a new dictionary: the
two keys share bucket 4 of 16. -/
def twoCollidingKeys : EmojicodeDictionary :=
  dictionarySet 2147483647
    (dictionarySet 2147483647 (dictionaryInit zeroMemory) [97] (Something.integer 1))
    [113] (Something.integer 2)

/-- The entries `"a" ↦ 1`, `"b" ↦ 2`, …: the first `n` small letters. -/
def letterEntries (n : Nat) : List (EmojicodeString × Something) :=
  (List.range n).map fun i => ([97 + i], Something.integer (i + 1))

/-- The nodes of all chains of the dictionary, bucket by bucket. -/
def dictionaryNodes (dict : EmojicodeDictionary) : List EmojicodeDictionaryNode :=
  match dict.buckets with
  | none => []
  | some bucko => bucko.flatten

/-- The number of buckets in use: the `oldCap` of `dictionaryResize`, zero
while `buckets` is `NULL`, else `bucketsCounter`. -/
def effectiveBuckets (dict : EmojicodeDictionary) : Nat :=
  match dict.buckets with
  | none => 0
  | some _ => dict.bucketsCounter

end Emojicode

/-!
# The compiler: scoper, semantic analyser, method lowering

Objects of the compiler are values here. A call that the C++ code leaves
undefined (a failed `assert`, a read behind the end of a vector) makes the
function return `none`.
-/

namespace EmojicodeCompiler

/-- A `std::u32string`, the code points of an identifier. -/
abbrev Identifier := List Nat

/-! ## `SemanticScoper` -/

/-- A declared variable with the id it received. -/
structure Variable where
  name : Identifier
  id : Nat
  frozen : Bool
  deriving DecidableEq

/-- Modelled from the spec: the class `Scope` (`Scope.hpp` is not part of the
sources): the variables declared in the scope and `maxVariableId`, the id the
next variable of the scope receives. -/
structure Scope where
  map_ : List Variable
  maxVariableId_ : Nat
  deriving DecidableEq

/-- Modelled from the spec: the constructor `Scope(maxVariableId)`: an empty
scope seeded with the id. -/
def Scope.seeded (maxVariableId : Nat) : Scope :=
  { map_ := [], maxVariableId_ := maxVariableId }

/-- Modelled from the spec: `Scope::declareVariable`: the variable receives the
id `maxVariableId` of the scope, which is then incremented ("tracks
`maxVariableId` so nested scopes assign ids densely"). -/
def Scope.declareVariable (scope : Scope) (name : Identifier) (frozen : Bool) : Scope :=
  { map_ := scope.map_ ++ [{ name := name, id := scope.maxVariableId_, frozen := frozen }],
    maxVariableId_ := scope.maxVariableId_ + 1 }

/-- The class `SemanticScoper`: the list `scopes_` with the current scope in
front, and `maxVariableId_`. -/
structure SemanticScoper where
  scopes_ : List Scope
  maxVariableId_ : Nat
  deriving DecidableEq

/-- The default constructor `SemanticScoper()`. -/
def SemanticScoper.create : SemanticScoper :=
  { scopes_ := [], maxVariableId_ := 0 }

/-- The method `pushScopeInternal`. -/
def SemanticScoper.pushScopeInternal (scoper : SemanticScoper) : SemanticScoper :=
  { scoper with
    scopes_ :=
      Scope.seeded
        (match scoper.scopes_ with
          | [] => scoper.maxVariableId_
          | front :: _ => front.maxVariableId_)
      :: scoper.scopes_ }

/-- The method `updateMaxVariableIdForPopping`; `currentScope()` asserts that
there is a scope. -/
def SemanticScoper.updateMaxVariableIdForPopping (scoper : SemanticScoper) :
    Option SemanticScoper :=
  match scoper.scopes_ with
  | [] => none
  | scope :: _ =>
    if scope.maxVariableId_ > scoper.maxVariableId_ then
      some { scoper with maxVariableId_ := scope.maxVariableId_ }
    else some scoper

/-- Modelled from the spec: `pushScope()` (`SemanticScoper.cpp` is not part of
the sources): "creates a new scope seeded with the current front's
`maxVariableId` (or the scoper's `maxVariableId_` if the stack is empty)". -/
def SemanticScoper.pushScope (scoper : SemanticScoper) : SemanticScoper :=
  scoper.pushScopeInternal

/-- A declaration `currentScope().declareVariable(…)` in the current scope;
`currentScope()` asserts that there is a scope. -/
def SemanticScoper.declareVariable (scoper : SemanticScoper) (name : Identifier)
    (frozen : Bool) : Option SemanticScoper :=
  match scoper.scopes_ with
  | [] => none
  | scope :: rest => some { scoper with scopes_ := scope.declareVariable name frozen :: rest }

/-- The declarations of the arguments, one after the other, in the scope
`scope`. -/
def declareArguments (scope : Scope) : List Identifier → Scope
  | [] => scope
  | name :: rest => declareArguments (scope.declareVariable name true) rest

/-- Modelled from the spec: `pushArgumentsScope(args, pos)`
(`SemanticScoper.cpp` is not part of the sources): "pushes a scope and
installs each argument as a declared, frozen variable at that scope". -/
def SemanticScoper.pushArgumentsScope (scoper : SemanticScoper) (arguments : List Identifier) :
    SemanticScoper :=
  match scoper.pushScopeInternal.scopes_ with
  | [] => scoper.pushScopeInternal
  | scope :: rest =>
    { scoper.pushScopeInternal with scopes_ := declareArguments scope arguments :: rest }

/-- Modelled from the spec: `popScope(compiler)` (`SemanticScoper.cpp` is not
part of the sources): "before popping, lifts `maxVariableId_` to the popped
scope's `maxVariableId()`", then removes the front scope. The diagnostics on
frozen variables are left out. -/
def SemanticScoper.popScope (scoper : SemanticScoper) : Option SemanticScoper :=
  match scoper.updateMaxVariableIdForPopping with
  | none => none
  | some lifted => some { lifted with scopes_ := lifted.scopes_.tail }

/-- The calls a function analysis makes on its scoper. -/
inductive ScoperOperation where
  | pushScope
  | pushArgumentsScope (arguments : List Identifier)
  | declareVariable (name : Identifier)
  | popScope
  deriving DecidableEq

/-- The variables of the scopes on the stack, the outermost scope last. -/
def liveVariables (scoper : SemanticScoper) : List Variable :=
  scoper.scopes_.flatMap fun scope => scope.map_

/-- The variables of the current scope. -/
def currentVariables (scoper : SemanticScoper) : List Variable :=
  match scoper.scopes_ with
  | [] => []
  | scope :: _ => scope.map_

/-- One call on the scoper; `declared` lists every variable declared so far,
in the order of declaration. -/
def applyOperation (state : SemanticScoper × List Variable) :
    ScoperOperation → Option (SemanticScoper × List Variable)
  | ScoperOperation.pushScope => some (state.1.pushScope, state.2)
  | ScoperOperation.pushArgumentsScope arguments =>
    some (state.1.pushArgumentsScope arguments,
      state.2 ++ currentVariables (state.1.pushArgumentsScope arguments))
  | ScoperOperation.declareVariable name =>
    match state.1.declareVariable name false with
    | none => none
    | some scoper => some (scoper, state.2 ++ (currentVariables scoper).getLast?.toList)
  | ScoperOperation.popScope =>
    match state.1.popScope with
    | none => none
    | some scoper => some (scoper, state.2)

/-- A sequence of calls on the scoper. -/
def applyOperations :
    List ScoperOperation → SemanticScoper × List Variable →
    Option (SemanticScoper × List Variable)
  | [], state => some state
  | operation :: rest, state =>
    match applyOperation state operation with
    | none => none
    | some next => applyOperations rest next

/-- The id below which the ids of the scopes of a stack lie. -/
def scopeBase : List Scope → Nat
  | [] => 0
  | scope :: _ => scope.maxVariableId_

/-- The ids of a stack of scopes: each scope holds distinct ids between the
`maxVariableId` of the scope below it and its own. -/
def Stacked : List Scope → Prop
  | [] => True
  | scope :: rest =>
    (scope.map_.map fun v => v.id).Nodup
      ∧ (∀ v ∈ scope.map_, scopeBase rest ≤ v.id ∧ v.id < scope.maxVariableId_)
      ∧ scopeBase rest ≤ scope.maxVariableId_
      ∧ Stacked rest

/-! ## `ASTMethod::generate` -/

/-- The members of `BuiltInType` that `ASTMethod::generate` names; `other`
stands for any further member of the enumeration (`ASTMethod.hpp` is not part
of the sources), which the `switch` sends to `default`. -/
inductive BuiltInType where
  | None
  | IntegerNot
  | IntegerToDouble
  | BooleanNegate
  | Store
  | Load
  | Release
  | Multiprotocol
  | other (tag : Nat)
  deriving DecidableEq

/-- The calls `ASTMethod::generate` makes on its collaborators, which emit the
instructions. -/
inductive GenerationStep where
  | calleeGenerate
  | parameterGenerate (index : Nat)
  | createNot
  | createSIToFP
  | createICmpEQ
  | buildMemoryAddress
  | createStore
  | createLoad
  | retain (address : Bool)
  | release (address : Bool)
  | multiprotocolCall
  | call
  | handleResult
  deriving DecidableEq

/-- What `ASTMethod::generate` reads of the node: the tag `builtIn_`, and of
the type `args_.genericArguments().front()->type()` whether it is managed and
whether it is managed by reference. -/
structure ASTMethod where
  builtIn_ : BuiltInType
  typeIsManaged : Bool
  managedByReference : Bool
  deriving DecidableEq

/-- The general path of `ASTMethod::generate` behind the `if`:
`handleResult(fg, CallCodeGenerator(fg, callType_).generate(callee_->generate(fg), …))`. -/
def generateCall : List GenerationStep :=
  [GenerationStep.calleeGenerate, GenerationStep.call, GenerationStep.handleResult]

/-- The method `ASTMethod::generate`: the calls it makes, in order. -/
def ASTMethod.generate (node : ASTMethod) : List GenerationStep :=
  match node.builtIn_ with
  | BuiltInType.None => generateCall
  | BuiltInType.IntegerNot => [GenerationStep.calleeGenerate, GenerationStep.createNot]
  | BuiltInType.IntegerToDouble => [GenerationStep.calleeGenerate, GenerationStep.createSIToFP]
  | BuiltInType.BooleanNegate => [GenerationStep.calleeGenerate, GenerationStep.createICmpEQ]
  | BuiltInType.Store =>
    [GenerationStep.calleeGenerate, GenerationStep.parameterGenerate 1,
      GenerationStep.buildMemoryAddress, GenerationStep.parameterGenerate 0,
      GenerationStep.createStore]
      ++ (if node.typeIsManaged then [GenerationStep.retain node.managedByReference] else [])
  | BuiltInType.Load =>
    [GenerationStep.calleeGenerate, GenerationStep.parameterGenerate 0,
      GenerationStep.buildMemoryAddress, GenerationStep.createLoad]
      ++ (if node.typeIsManaged then [GenerationStep.retain node.managedByReference] else [])
  | BuiltInType.Release =>
    [GenerationStep.calleeGenerate]
      ++ (if node.typeIsManaged then
            [GenerationStep.parameterGenerate 0, GenerationStep.buildMemoryAddress]
              ++ (if node.managedByReference then [] else [GenerationStep.createLoad])
              ++ [GenerationStep.release node.managedByReference]
          else [])
  | BuiltInType.Multiprotocol =>
    [GenerationStep.calleeGenerate, GenerationStep.calleeGenerate,
      GenerationStep.multiprotocolCall]
  | BuiltInType.other _ => GenerationStep.calleeGenerate :: generateCall

/-- The number of evaluations `callee_->generate(fg)` in a run. -/
def calleeEvaluations (steps : List GenerationStep) : Nat :=
  steps.count GenerationStep.calleeGenerate

/-! ## `SemanticAnalyser` -/

/-- Modelled from the spec: the storage type of a type ("unboxed primitive,
unboxed composite, or boxed via a uniform slot"; `StorageType.hpp` is not part
of the sources). -/
inductive StorageType where
  | unboxedPrimitive
  | unboxedComposite
  | boxed
  deriving DecidableEq

/-- A value of the class `Type`, which is not part of the sources: its
operations are in `Collaborators`. -/
abbrev TypeId := Nat

/-- A `TypeContext`: `TypeContext()` is `none`, `TypeContext(type)` is
`some type`. -/
abbrev TypeContext := Option TypeId

structure SourcePosition where
  line : Nat
  character : Nat
  deriving DecidableEq

inductive AccessLevel where
  | Public
  | Private
  | Protected
  deriving DecidableEq

structure Argument where
  variableName : Identifier
  type : TypeId
  deriving DecidableEq

/-- What the analyser reads of a `Function`. For a boxing layer
`boxingLayerFor` holds the name of the function it forwards to and the name of
the protocol. -/
structure Function where
  name : Identifier
  imperative : Bool
  arguments : List Argument
  returnType : TypeId
  accessLevel : AccessLevel
  final : Bool
  external : Bool
  position : SourcePosition
  boxingLayerFor : Option (Identifier × Identifier)
  deriving DecidableEq

/-- The texts of the errors; the types that a text shows are kept as types. -/
inductive ErrorMessage where
  | markedFinal (superSource : TypeId) (name : Identifier)
  | accessLevelMismatch (superSource : TypeId) (name : Identifier)
  | returnTypeIncompatible (returnType : TypeId) (name : Identifier) (superSource : TypeId)
  | argumentCountMismatch
  | argumentTypeIncompatible (thisname : TypeId) (number : Nat) (supertype : TypeId)
  | doesNotConform (type : TypeId) (protocol : TypeId) (method : Identifier)
  | noStartFlagBlock
  | raised (text : Identifier)
  deriving DecidableEq

structure CompilerError where
  position : SourcePosition
  message : ErrorMessage
  deriving DecidableEq

/-- What an analysis `FunctionAnalyser(function, this).analyse()` does to the
diagnostics: the errors it reports and the `CompilerError` it raises, if
any. -/
structure AnalysisOutcome where
  reported : List CompilerError
  raised : Option CompilerError

/-- A protocol as `finalizeProtocol` reads it: the `Type` of the protocol, its
name and its methods. -/
structure Protocol where
  type : TypeId
  name : Identifier
  methodList : List Function
  deriving DecidableEq

structure InstanceVariableDeclaration where
  name : Identifier
  type : TypeId
  position : SourcePosition
  deriving DecidableEq

/-- What the analyser reads and writes of a `TypeDefinition`; `type` is the
`Type(typeDefinition, false)` of the definition. -/
structure TypeDefinition where
  type : TypeId
  position : SourcePosition
  methodList : List Function
  typeMethodList : List Function
  initializerList : List Function
  protocols : List Protocol
  instanceVariables : List InstanceVariableDeclaration
  instanceScope : Scope
  deriving DecidableEq

/-- The state the analyser works on: the diagnostics of the compiler, the
queue, and logs of the calls `appointHeir(heir)` on a method,
`createUnspecificReification()` and `FunctionAnalyser(…).analyse()`. The
argument of `appointHeir` is a pointer: `none` is the null pointer. -/
structure SemanticAnalyser where
  errors : List CompilerError
  warnings : List (SourcePosition × Nat)
  queue_ : List Function
  appointments : List (Function × Option Function)
  reifications : List Function
  analysed : List Function
  deriving DecidableEq

/-- The parts of the compiler that the analyser calls and that are not part of
the sources: the operations of `Type`, the fields the constructor of
`BoxingLayer` derives from the destination function and the protocol name (its
name, access level and flags), the analysis of a function, `extend()` of an
extension and `inherit(this)` of a class. -/
structure Collaborators where
  resolveOn : TypeId → TypeContext → TypeId
  storageType : TypeId → StorageType
  compatibleTo : TypeId → TypeId → TypeContext → Bool
  boxingLayerBase : Function → Identifier → Function
  analyseFunction : Function → AnalysisOutcome
  extend : Nat → List TypeDefinition × List TypeDefinition →
    List TypeDefinition × List TypeDefinition
  inherit : TypeDefinition → SemanticAnalyser → TypeDefinition × SemanticAnalyser

structure Package where
  extensions : List Nat
  valueTypes : List TypeDefinition
  classes : List TypeDefinition
  functions : List Function
  position : SourcePosition
  hasStartFlagFunction : Bool

/-- The call `compiler()->error(error)`. -/
def SemanticAnalyser.error (analyser : SemanticAnalyser) (error : CompilerError) :
    SemanticAnalyser :=
  { analyser with errors := analyser.errors ++ [error] }

/-- The call `method->appointHeir(heir)`. -/
def SemanticAnalyser.appointHeir (analyser : SemanticAnalyser) (method : Function)
    (heir : Option Function) : SemanticAnalyser :=
  { analyser with appointments := analyser.appointments ++ [(method, heir)] }

/-- The heir of a method: the pointer appointed last (`some none` is the null
pointer), `none` when no call of `appointHeir` was made on the method. -/
def SemanticAnalyser.heir (analyser : SemanticAnalyser) (method : Function) :
    Option (Option Function) :=
  ((analyser.appointments.filter fun a => a.1 = method).getLast?).map Prod.snd

/-- The method `enqueueFunction`. -/
def SemanticAnalyser.enqueueFunction (analyser : SemanticAnalyser) (function : Function) :
    SemanticAnalyser :=
  if !function.external then { analyser with queue_ := analyser.queue_ ++ [function] }
  else analyser

/-- Modelled from the spec: `TypeDefinition::lookupMethod(name, imperative)`
(`TypeDefinition.hpp` is not part of the sources): "look up the implementation
on `t` by `(name, imperative?)`"; `none` is `nullptr`. -/
def TypeDefinition.lookupMethod (typeDef : TypeDefinition) (name : Identifier)
    (imperative : Bool) : Option Function :=
  typeDef.methodList.find? fun f => decide (f.name = name) && decide (f.imperative = imperative)

/-- Modelled from the spec: `TypeDefinition::addMethod`: the method is added to
the methods of the type. -/
def TypeDefinition.addMethod (typeDef : TypeDefinition) (method : Function) : TypeDefinition :=
  { typeDef with methodList := typeDef.methodList ++ [method] }

/-- Modelled from the spec: `TypeDefinition::eachFunction`: every method, type
method and initializer of the type. -/
def TypeDefinition.eachFunction (typeDef : TypeDefinition) : List Function :=
  typeDef.methodList ++ typeDef.typeMethodList ++ typeDef.initializerList

/-- Modelled from the spec: the constructor `BoxingLayer(destinationFunction,
protocolName, arguments, returnType, position)` (`BoxingLayer.hpp` is not part
of the sources): a thunk with the given arguments, return type and position
that forwards to the destination function; it has a body and is not
external. -/
def BoxingLayer (collaborators : Collaborators) (destinationFunction : Function)
    (protocolName : Identifier) (arguments : List Argument) (returnType : TypeId)
    (position : SourcePosition) : Function :=
  { collaborators.boxingLayerBase destinationFunction protocolName with
    arguments := arguments
    returnType := returnType
    position := position
    external := false
    boxingLayerFor := some (destinationFunction.name, protocolName) }

/-- The loop of `checkArgumentPromise` from the index `i` on; `superArguments`
are the arguments of `super` from `i` on. A read `sub->arguments()[i]` behind
the end of the vector gives `none`. -/
def checkArgumentLoop (collaborators : Collaborators) (sub : Function)
    (subContext superContext : TypeContext) :
    List Argument → Nat → Bool → SemanticAnalyser → Option (Bool × SemanticAnalyser)
  | [], _, compatible, analyser => some (compatible, analyser)
  | superArgument :: rest, i, compatible, analyser =>
    let superArgumentType := collaborators.resolveOn superArgument.type superContext
    match sub.arguments[i]? with
    | none => none
    | some subArgument =>
      let analyser1 :=
        if !collaborators.compatibleTo superArgumentType
            (collaborators.resolveOn subArgument.type subContext) subContext then
          analyser.error
            { position := sub.position
              message := ErrorMessage.argumentTypeIncompatible subArgument.type (i + 1)
                superArgumentType }
        else analyser
      let compatible1 :=
        if collaborators.storageType (collaborators.resolveOn subArgument.type subContext)
            ≠ collaborators.storageType superArgumentType then false
        else compatible
      checkArgumentLoop collaborators sub subContext superContext rest (i + 1) compatible1
        analyser1

/-- The method `checkArgumentPromise`. -/
def checkArgumentPromise (collaborators : Collaborators) (sub super : Function)
    (subContext superContext : TypeContext) (analyser : SemanticAnalyser) :
    Option (Bool × SemanticAnalyser) :=
  let analyser1 :=
    if super.arguments.length ≠ sub.arguments.length then
      analyser.error { position := sub.position, message := ErrorMessage.argumentCountMismatch }
    else analyser
  checkArgumentLoop collaborators sub subContext superContext super.arguments 0 true analyser1

/-- The method `enforcePromises`. -/
def enforcePromises (collaborators : Collaborators) (sub super : Function) (superSource : TypeId)
    (subContext superContext : TypeContext) (analyser : SemanticAnalyser) :
    Option (Bool × SemanticAnalyser) :=
  let analyser1 :=
    if super.final then
      analyser.error
        { position := sub.position, message := ErrorMessage.markedFinal superSource sub.name }
    else analyser
  let analyser2 :=
    if sub.accessLevel ≠ super.accessLevel then
      analyser1.error
        { position := sub.position
          message := ErrorMessage.accessLevelMismatch superSource sub.name }
    else analyser1
  let superReturnType := collaborators.resolveOn super.returnType superContext
  let analyser3 :=
    if !collaborators.compatibleTo (collaborators.resolveOn sub.returnType subContext)
        superReturnType subContext then
      analyser2.error
        { position := sub.position
          message := ErrorMessage.returnTypeIncompatible sub.returnType sub.name superSource }
    else analyser2
  if collaborators.storageType (collaborators.resolveOn sub.returnType subContext)
      ≠ collaborators.storageType superReturnType then
    some (false, analyser3)
  else checkArgumentPromise collaborators sub super subContext superContext analyser3

/-- The boxing layer that `buildBoxingLayer` makes for `method` and its
implementation. -/
def boxingLayerOf (collaborators : Collaborators) (protocol : Protocol)
    (method methodImplementation : Function) : Function :=
  BoxingLayer collaborators methodImplementation protocol.name
    (method.arguments.map fun arg =>
      { variableName := arg.variableName
        type := collaborators.resolveOn arg.type (some protocol.type) })
    (collaborators.resolveOn method.returnType (some protocol.type))
    methodImplementation.position

/-- The method `buildBoxingLayer` on the definition of `type`. The body that
`buildBoxingLayerAst` gives the layer is not part of a `Function` here. The
call `addMethod(move(bl))` moves the layer out of the `unique_ptr` `bl`, so
the `bl.get()` of the last statement, `method->appointHeir(bl.get())`, is the
null pointer. -/
def buildBoxingLayer (collaborators : Collaborators) (protocol : Protocol)
    (method methodImplementation : Function) (state : TypeDefinition × SemanticAnalyser) :
    TypeDefinition × SemanticAnalyser :=
  let bl := boxingLayerOf collaborators protocol method methodImplementation
  (state.1.addMethod bl, (state.2.enqueueFunction bl).appointHeir method none)

/-- The body of the loop of `finalizeProtocol` for one method of the
protocol. -/
def finalizeProtocolMethod (collaborators : Collaborators) (protocol : Protocol)
    (state : TypeDefinition × SemanticAnalyser) (method : Function) :
    Option (TypeDefinition × SemanticAnalyser) :=
  match state.1.lookupMethod method.name method.imperative with
  | none =>
    some (state.1,
      state.2.error
        { position := state.1.position
          message := ErrorMessage.doesNotConform state.1.type protocol.type method.name })
  | some methodImplementation =>
    let analyser1 :=
      { state.2 with reifications := state.2.reifications ++ [methodImplementation] }
    match enforcePromises collaborators methodImplementation method protocol.type
        (some state.1.type) (some protocol.type) analyser1 with
    | none => none
    | some (true, analyser2) =>
      some (state.1, analyser2.appointHeir method (some methodImplementation))
    | some (false, analyser2) =>
      some (buildBoxingLayer collaborators protocol method methodImplementation
        (state.1, analyser2))

/-- The loop of `finalizeProtocol` over the methods `methods` of the
protocol. -/
def finalizeProtocolLoop (collaborators : Collaborators) (protocol : Protocol) :
    List Function → TypeDefinition × SemanticAnalyser →
    Option (TypeDefinition × SemanticAnalyser)
  | [], state => some state
  | method :: rest, state =>
    match finalizeProtocolMethod collaborators protocol state method with
    | none => none
    | some next => finalizeProtocolLoop collaborators protocol rest next

/-- The method `finalizeProtocol` for the type with the definition `state.1`. -/
def finalizeProtocol (collaborators : Collaborators) (protocol : Protocol)
    (state : TypeDefinition × SemanticAnalyser) : Option (TypeDefinition × SemanticAnalyser) :=
  finalizeProtocolLoop collaborators protocol protocol.methodList state

/-- The loop of `finalizeProtocols` over the protocols of the type. -/
def finalizeProtocolsLoop (collaborators : Collaborators) :
    List Protocol → TypeDefinition × SemanticAnalyser →
    Option (TypeDefinition × SemanticAnalyser)
  | [], state => some state
  | protocol :: rest, state =>
    match finalizeProtocol collaborators protocol state with
    | none => none
    | some next => finalizeProtocolsLoop collaborators rest next

/-- The method `finalizeProtocols`. -/
def finalizeProtocols (collaborators : Collaborators)
    (state : TypeDefinition × SemanticAnalyser) : Option (TypeDefinition × SemanticAnalyser) :=
  finalizeProtocolsLoop collaborators state.1.protocols state

/-- The method `declareInstanceVariables`. -/
def declareInstanceVariables (state : TypeDefinition × SemanticAnalyser) :
    TypeDefinition × SemanticAnalyser :=
  let typeDef :=
    { state.1 with
      instanceScope := state.1.instanceVariables.foldl
        (fun scope var => scope.declareVariable var.name false) state.1.instanceScope }
  if !state.1.instanceVariables.isEmpty && state.1.initializerList.isEmpty then
    (typeDef,
      { state.2 with
        warnings := state.2.warnings ++ [(state.1.position, state.1.instanceVariables.length)] })
  else (typeDef, state.2)

/-- The method `enqueueFunctionsOfTypeDefinition`. -/
def enqueueFunctionsOfTypeDefinition (analyser : SemanticAnalyser) (typeDef : TypeDefinition) :
    SemanticAnalyser :=
  typeDef.eachFunction.foldl SemanticAnalyser.enqueueFunction analyser

/-- The loop of `analyseQueue` over the functions of the queue. -/
def analyseQueueLoop (collaborators : Collaborators) :
    List Function → SemanticAnalyser → SemanticAnalyser
  | [], analyser => { analyser with queue_ := [] }
  | function :: rest, analyser =>
    let outcome := collaborators.analyseFunction function
    let analyser1 :=
      { analyser with
        analysed := analyser.analysed ++ [function]
        errors := analyser.errors ++ outcome.reported }
    let analyser2 :=
      match outcome.raised with
      | some ce => analyser1.error ce
      | none => analyser1
    analyseQueueLoop collaborators rest { analyser2 with queue_ := rest }

/-- The method `analyseQueue`. Modelled from the spec: the analysis of a
function (`FunctionAnalyser.hpp` is not part of the sources) reports errors
and may raise a `CompilerError`; "exceptions of kind `CompilerError` are
collected into the diagnostic sink and analysis continues". -/
def analyseQueue (collaborators : Collaborators) (analyser : SemanticAnalyser) :
    SemanticAnalyser :=
  analyseQueueLoop collaborators analyser.queue_ analyser

/-- The loop of `analyse` over the value types: the definitions as they are
afterwards, and the analyser. -/
def analyseValueTypes (collaborators : Collaborators) :
    List TypeDefinition → SemanticAnalyser → Option (List TypeDefinition × SemanticAnalyser)
  | [], analyser => some ([], analyser)
  | vt :: rest, analyser =>
    match finalizeProtocols collaborators (vt, analyser) with
    | none => none
    | some finalized =>
      let declared := declareInstanceVariables finalized
      match analyseValueTypes collaborators rest
          (enqueueFunctionsOfTypeDefinition declared.2 declared.1) with
      | none => none
      | some (others, analyser1) => some (declared.1 :: others, analyser1)

/-- The loop of `analyse` over the classes. -/
def analyseClasses (collaborators : Collaborators) :
    List TypeDefinition → SemanticAnalyser → Option (List TypeDefinition × SemanticAnalyser)
  | [], analyser => some ([], analyser)
  | eclass :: rest, analyser =>
    match finalizeProtocols collaborators (collaborators.inherit eclass analyser) with
    | none => none
    | some finalized =>
      match analyseClasses collaborators rest
          (enqueueFunctionsOfTypeDefinition finalized.2 finalized.1) with
      | none => none
      | some (others, analyser1) => some (finalized.1 :: others, analyser1)

/-- The method `analyse` up to and with `analyseQueue()`: the package and the
analyser before the check for the start flag. -/
def analyseDefinitions (collaborators : Collaborators) (package : Package)
    (analyser : SemanticAnalyser) : Option (Package × SemanticAnalyser) :=
  let extended := package.extensions.foldl (fun types extension =>
    collaborators.extend extension types) (package.valueTypes, package.classes)
  match analyseValueTypes collaborators extended.1 analyser with
  | none => none
  | some (valueTypes, analyser1) =>
    match analyseClasses collaborators extended.2 analyser1 with
    | none => none
    | some (classes, analyser2) =>
      some ({ package with valueTypes := valueTypes, classes := classes },
        analyseQueue collaborators
          (package.functions.foldl SemanticAnalyser.enqueueFunction analyser2))

/-- The method `analyse`. -/
def analyse (collaborators : Collaborators) (executable : Bool) (package : Package)
    (analyser : SemanticAnalyser) : Option (Package × SemanticAnalyser) :=
  match analyseDefinitions collaborators package analyser with
  | none => none
  | some (package1, analyser1) =>
    if executable && !package1.hasStartFlagFunction then
      some (package1,
        analyser1.error
          { position := package1.position, message := ErrorMessage.noStartFlagBlock })
    else some (package1, analyser1)

/-- The storage types of the implementation `methodImplementation` on the
type `type` and of the method `method` of the protocol agree: for the resolved
return types and for the resolved types at every position of the parameters of
the method. -/
def SameStorage (collaborators : Collaborators) (type : TypeId) (protocol : Protocol)
    (methodImplementation method : Function) : Prop :=
  collaborators.storageType (collaborators.resolveOn methodImplementation.returnType (some type))
      = collaborators.storageType (collaborators.resolveOn method.returnType (some protocol.type))
    ∧ ∀ (i : Nat) (superArgument subArgument : Argument),
        method.arguments[i]? = some superArgument →
        methodImplementation.arguments[i]? = some subArgument →
        collaborators.storageType (collaborators.resolveOn subArgument.type (some type))
          = collaborators.storageType
              (collaborators.resolveOn superArgument.type (some protocol.type))

/-- The analyser with further errors reported. -/
def SemanticAnalyser.withErrors (analyser : SemanticAnalyser) (more : List CompilerError) :
    SemanticAnalyser :=
  { analyser with errors := analyser.errors ++ more }

/-- What an analysis records in the diagnostics: the errors it reports, then
the error it raises. -/
def recordedErrors (collaborators : Collaborators) (function : Function) : List CompilerError :=
  (collaborators.analyseFunction function).reported
    ++ (collaborators.analyseFunction function).raised.toList

/-- Collaborators for the examples: a type is resolved to itself, the type 0
is boxed and every other type an unboxed primitive, all types are compatible,
the analysis of a function named "!" raises an error. -/
def exampleCollaborators : Collaborators :=
  { resolveOn := fun type _ => type
    storageType := fun type =>
      if type = 0 then StorageType.boxed else StorageType.unboxedPrimitive
    compatibleTo := fun _ _ _ => true
    boxingLayerBase := fun destination protocolName =>
      { destination with
        name := destination.name ++ [95] ++ protocolName
        accessLevel := AccessLevel.Private }
    analyseFunction := fun function =>
      { reported := []
        raised :=
          if function.name = [33] then
            some { position := function.position, message := ErrorMessage.raised [33] }
          else none }
    extend := fun _ types => types
    inherit := fun typeDef analyser => (typeDef, analyser) }

/-- An analyser that has done nothing yet. -/
def emptyAnalyser : SemanticAnalyser :=
  { errors := [], warnings := [], queue_ := [], appointments := [], reifications := [],
    analysed := [] }

/-- A function `name(arguments) -> returnType` at the line `line`. -/
def exampleFunction (name : Identifier) (arguments : List TypeId) (returnType : TypeId)
    (line : Nat) : Function :=
  { name := name
    imperative := true
    arguments := arguments.map fun type => { variableName := [120], type := type }
    returnType := returnType
    accessLevel := AccessLevel.Public
    final := false
    external := false
    position := { line := line, character := 1 }
    boxingLayerFor := none }

/-- The protocol `P` (type 9) with the methods `f(x: 0) -> 1` and `g() -> 1`. -/
def exampleProtocol : Protocol :=
  { type := 9, name := [80]
    methodList := [exampleFunction [102] [0] 1 1, exampleFunction [103] [] 1 2] }

/-- The class `C` (type 8) with the one method `f(x: 1) -> 1`, which conforms
to `P`. -/
def exampleClass : TypeDefinition :=
  { type := 8
    position := { line := 10, character := 1 }
    methodList := [exampleFunction [102] [1] 1 11]
    typeMethodList := []
    initializerList := []
    protocols := [exampleProtocol]
    instanceVariables := []
    instanceScope := Scope.seeded 0 }

/-- The class `C` and the analyser when `finalizeProtocol` of `P` has handled
the method `f`: a boxing layer for `f` was added and enqueued, and the null
pointer was appointed as the heir of `f`. -/
def exampleReached : TypeDefinition × SemanticAnalyser :=
  (exampleClass.addMethod
      (boxingLayerOf exampleCollaborators exampleProtocol (exampleFunction [102] [0] 1 1)
        (exampleFunction [102] [1] 1 11)),
    { emptyAnalyser with
      queue_ := [boxingLayerOf exampleCollaborators exampleProtocol
        (exampleFunction [102] [0] 1 1) (exampleFunction [102] [1] 1 11)]
      appointments := [(exampleFunction [102] [0] 1 1, none)]
      reifications := [exampleFunction [102] [1] 1 11] })

/-- A package without types and without a start flag, with one function "!". -/
def examplePackage : Package :=
  { extensions := [], valueTypes := [], classes := []
    functions := [exampleFunction [33] [] 1 3]
    position := { line := 0, character := 0 }
    hasStartFlagFunction := false }

/-- The scoper and the declared variables after `pushArgumentsScope [x, y];
pushScope; declare a; popScope; declare b` on a new scoper. -/
def exampleScoperRun : SemanticScoper × List Variable :=
  ({ scopes_ :=
       [{ map_ := [{ name := [120], id := 0, frozen := true },
                   { name := [121], id := 1, frozen := true },
                   { name := [98], id := 2, frozen := false }],
          maxVariableId_ := 3 }],
     maxVariableId_ := 3 },
   [{ name := [120], id := 0, frozen := true }, { name := [121], id := 1, frozen := true },
    { name := [97], id := 2, frozen := false }, { name := [98], id := 2, frozen := false }])

end EmojicodeCompiler

namespace Emojicode

/-- The chain of the bucket `j`: empty when there is no bucket array or no
such bucket. -/
def bucketChain (dict : EmojicodeDictionary) (j : Nat) : List EmojicodeDictionaryNode :=
  match dict.buckets with
  | none => []
  | some bucko => bucko.getD j []

/-- The dictionaries on which the code calls `dictionaryResize`: both calls
are in `dictionaryPutVal`, the first on the dictionary itself when it has no
buckets yet, the second on the dictionary after the insertion, with the
incremented `size`, when the comparison with `nextThreshold` holds. -/
inductive ResizeCall (maxThreshold : Nat) : EmojicodeDictionary → Prop
  | first {dict : EmojicodeDictionary} :
      Reachable maxThreshold dict → (dict.buckets = none ∨ dict.bucketsCounter = 0) →
      ResizeCall maxThreshold dict
  | grow {dict : EmojicodeDictionary} (key : EmojicodeString) (value : Something) :
      Reachable maxThreshold dict → putValExceeds maxThreshold dict key value = true →
      ResizeCall maxThreshold
        { (putValInsert maxThreshold dict key value).1 with
          size := (putValInsert maxThreshold dict key value).1.size + 1 }

/-- The dictionary at the second call of `dictionaryResize` in the thirteenth
set of `"a"`, …, `"l"`, `"q"` on a new dictionary: 13 nodes in 16 buckets,
`"a"` and `"q"` in the chain of bucket 4. -/
def thirteenthInsert : EmojicodeDictionary :=
  { (putValInsert 2147483647
        (setAll 2147483647 (dictionaryInit zeroMemory) (letterEntries 12))
        [113] (Something.integer 13)).1 with
    size := (putValInsert 2147483647
        (setAll 2147483647 (dictionaryInit zeroMemory) (letterEntries 12))
        [113] (Something.integer 13)).1.size + 1 }

/-! ## Lists of buckets -/

theorem getD_set_self {α : Type} (l : List (List α)) (i : Nat) (x : List α) (h : i < l.length) :
    (l.set i x).getD i [] = x := by
  simp [List.getD_eq_getElem?_getD, List.getElem?_set, h]

theorem getD_set_ne {α : Type} (l : List (List α)) {i j : Nat} (x : List α) (h : i ≠ j) :
    (l.set i x).getD j [] = l.getD j [] := by
  simp [List.getD_eq_getElem?_getD, List.getElem?_set, h]

theorem getD_set_nil {α : Type} (l : List (List α)) (i j : Nat) :
    (l.set i []).getD j [] = if i = j then [] else l.getD j [] := by
  by_cases h : i = j
  · subst h
    by_cases hi : i < l.length
    · rw [getD_set_self l i [] hi]; simp
    · simp [List.getD_eq_getElem?_getD, List.getElem?_set, hi]
  · simp [h, getD_set_ne l [] h]

theorem lt_length_of_getD_ne_nil {α : Type} (l : List (List α)) (i : Nat)
    (h : l.getD i [] ≠ []) : i < l.length := by
  by_contra hi
  apply h
  simp [List.getD_eq_getElem?_getD, List.getElem?_eq_none (Nat.le_of_not_lt hi)]

theorem getD_replicate_nil {α : Type} (n i : Nat) :
    (List.replicate n ([] : List α)).getD i [] = [] := by
  simp only [List.getD_eq_getElem?_getD, List.getElem?_replicate]
  split <;> rfl

theorem nodeCount_set (bucko : List (List EmojicodeDictionaryNode)) (i : Nat)
    (x : List EmojicodeDictionaryNode) (h : i < bucko.length) :
    nodeCount (bucko.set i x) + (bucko.getD i []).length = nodeCount bucko + x.length := by
  induction bucko generalizing i with
  | nil => simp at h
  | cons c rest ih =>
    cases i with
    | zero => simp [nodeCount]; omega
    | succ i =>
      have h2 : i < rest.length := by simpa using h
      have := ih i h2
      simp only [nodeCount, List.set_cons_succ, List.map_cons, List.sum_cons,
        List.getD_cons_succ] at this ⊢
      omega

theorem length_getD_le_nodeCount (bucko : List (List EmojicodeDictionaryNode)) (i : Nat) :
    (bucko.getD i []).length ≤ nodeCount bucko := by
  induction bucko generalizing i with
  | nil => simp
  | cons c rest ih =>
    cases i with
    | zero => simp [nodeCount]
    | succ i =>
      have := ih i
      simp only [nodeCount, List.map_cons, List.sum_cons, List.getD_cons_succ] at this ⊢
      omega

theorem nodeCount_eq_zero (bucko : List (List EmojicodeDictionaryNode))
    (h : ∀ i, bucko.getD i [] = []) : nodeCount bucko = 0 := by
  induction bucko with
  | nil => rfl
  | cons c rest ih =>
    have h0 : c = [] := by simpa using h 0
    have hr : ∀ i, rest.getD i [] = [] := fun i => by simpa using h (i + 1)
    have := ih hr
    simp only [nodeCount, List.map_cons, List.sum_cons] at this ⊢
    rw [this, h0]
    rfl

/-! ## Bits of a hash -/

theorem and_mask_eq_mod (h m : Nat) : h &&& (2 ^ m - 1) = h % 2 ^ m :=
  Nat.and_pow_two_sub_one_eq_mod h m

theorem and_mask_lt (h m : Nat) : h &&& (2 ^ m - 1) < 2 ^ m := by
  rw [and_mask_eq_mod]
  exact Nat.mod_lt _ (Nat.two_pow_pos m)

theorem mod_succ_of_and_eq_zero (h m : Nat) (h0 : h &&& 2 ^ m = 0) :
    h % 2 ^ (m + 1) = h % 2 ^ m := by
  rw [Nat.and_two_pow] at h0
  have hb : h.testBit m = false := by
    cases hbit : h.testBit m with
    | false => rfl
    | true =>
      rw [hbit] at h0
      have := Nat.two_pow_pos m
      simp at h0
  rw [Nat.testBit_to_div_mod] at hb
  have h2 : h / 2 ^ m % 2 = 0 := by
    have := Nat.mod_two_eq_zero_or_one (h / 2 ^ m)
    simp at hb
    omega
  rw [Nat.mod_pow_succ, h2]
  simp

theorem mod_succ_of_and_ne_zero (h m : Nat) (h0 : h &&& 2 ^ m ≠ 0) :
    h % 2 ^ (m + 1) = h % 2 ^ m + 2 ^ m := by
  rw [Nat.and_two_pow] at h0
  have hb : h.testBit m = true := by
    cases hbit : h.testBit m with
    | true => rfl
    | false => rw [hbit] at h0; simp at h0
  rw [Nat.testBit_to_div_mod] at hb
  have h2 : h / 2 ^ m % 2 = 1 := by simpa using hb
  rw [Nat.mod_pow_succ, h2]
  simp

/-! ## Chains -/

theorem keyHashEqual_iff (h1 h2 : Nat) (k1 k2 : EmojicodeString) :
    dictionaryKeyHashEqual h1 h2 k1 k2 = true ↔ h1 = h2 ∧ k1 = k2 := by
  simp [dictionaryKeyHashEqual, dictionaryKeyEqual, stringEqual]

theorem keyHashEqual_self (h : Nat) (k : EmojicodeString) :
    dictionaryKeyHashEqual h h k k = true :=
  (keyHashEqual_iff h h k k).2 ⟨rfl, rfl⟩

theorem keyHashEqual_of_ne (h1 h2 : Nat) {k1 k2 : EmojicodeString} (hk : k1 ≠ k2) :
    dictionaryKeyHashEqual h1 h2 k1 k2 = false := by
  cases hc : dictionaryKeyHashEqual h1 h2 k1 k2 with
  | false => rfl
  | true => exact absurd ((keyHashEqual_iff h1 h2 k1 k2).1 hc).2 hk

theorem getNodeLoop_eq_find (hash : Nat) (key : EmojicodeString)
    (chain : List EmojicodeDictionaryNode) :
    getNodeLoop hash key chain
      = chain.find? (fun e => dictionaryKeyHashEqual hash e.hash key e.key) := by
  induction chain with
  | nil => rfl
  | cons e next ih =>
    simp only [getNodeLoop, List.find?_cons]
    cases hc : dictionaryKeyHashEqual hash e.hash key e.key <;> simp [ih]

theorem getNodeLoop_some (hash : Nat) (key : EmojicodeString)
    (chain : List EmojicodeDictionaryNode) (node : EmojicodeDictionaryNode)
    (h : getNodeLoop hash key chain = some node) :
    node ∈ chain ∧ node.hash = hash ∧ node.key = key := by
  rw [getNodeLoop_eq_find] at h
  have h1 := List.find?_some h
  have h2 := List.mem_of_find?_eq_some h
  have h3 := (keyHashEqual_iff _ _ _ _).1 h1
  exact ⟨h2, h3.1.symm, h3.2.symm⟩

theorem getNodeLoop_none (hash : Nat) (key : EmojicodeString)
    (chain : List EmojicodeDictionaryNode) (h : getNodeLoop hash key chain = none) :
    ∀ e ∈ chain, dictionaryKeyHashEqual hash e.hash key e.key = false := by
  rw [getNodeLoop_eq_find] at h
  intro e he
  have := List.find?_eq_none.1 h e he
  simpa using this

theorem getNodeLoop_filter (hash : Nat) (key : EmojicodeString) (q : EmojicodeDictionaryNode → Bool)
    (chain : List EmojicodeDictionaryNode)
    (hq : ∀ e ∈ chain, e.hash = hash → q e = true) :
    getNodeLoop hash key (chain.filter q) = getNodeLoop hash key chain := by
  induction chain with
  | nil => rfl
  | cons e next ih =>
    have ih2 := ih (fun x hx => hq x (List.mem_cons_of_mem _ hx))
    by_cases hqe : q e = true
    · rw [List.filter_cons_of_pos hqe]
      simp only [getNodeLoop, ih2]
    · have hne : dictionaryKeyHashEqual hash e.hash key e.key = false := by
        cases hc : dictionaryKeyHashEqual hash e.hash key e.key with
        | false => rfl
        | true =>
          have := ((keyHashEqual_iff _ _ _ _).1 hc).1
          exact absurd (hq e (List.mem_cons_self _ _) this.symm) hqe
      rw [List.filter_cons_of_neg hqe]
      simp [getNodeLoop, hne, ih2]

theorem putValLoop_of_none (hash : Nat) (key : EmojicodeString) (value : Something)
    (next : List EmojicodeDictionaryNode) (h : getNodeLoop hash key next = none) :
    putValLoop hash key value next = next ++ [dictionaryNewNode hash key value] := by
  induction next with
  | nil => rfl
  | cons e rest ih =>
    simp only [getNodeLoop] at h
    cases hc : dictionaryKeyHashEqual hash e.hash key e.key with
    | true => simp [hc] at h
    | false =>
      simp only [hc] at h
      simp [putValLoop, hc, ih (by simpa using h)]

theorem putValLoop_of_some (hash : Nat) (key : EmojicodeString) (value : Something)
    (next : List EmojicodeDictionaryNode) (h : getNodeLoop hash key next ≠ none) :
    putValLoop hash key value next = next := by
  induction next with
  | nil => simp [getNodeLoop] at h
  | cons e rest ih =>
    cases hc : dictionaryKeyHashEqual hash e.hash key e.key with
    | true => simp [putValLoop, hc]
    | false =>
      simp only [getNodeLoop, hc] at h
      simp [putValLoop, hc, ih (by simpa using h)]

theorem putValChain_of_none (hash : Nat) (key : EmojicodeString) (value : Something)
    (chain : List EmojicodeDictionaryNode) (h : getNodeLoop hash key chain = none) :
    putValChain hash key value chain = chain ++ [dictionaryNewNode hash key value]
      ∧ headMatches hash key chain = false := by
  cases chain with
  | nil => exact ⟨rfl, rfl⟩
  | cons p next =>
    cases hc : dictionaryKeyHashEqual hash p.hash key p.key with
    | true => simp [getNodeLoop, hc] at h
    | false =>
      simp only [getNodeLoop, hc] at h
      simp [putValChain, headMatches, hc, putValLoop_of_none hash key value next (by simpa using h)]

/-- The three cases of `dictionaryPutVal` on a chain: the head has the key
(the value is overwritten), no node has the key (a node is linked at the
end), a later node has the key (the chain is left as it is). -/
theorem putValChain_cases (hash : Nat) (key : EmojicodeString) (value : Something)
    (chain : List EmojicodeDictionaryNode) :
    (∃ p next, chain = p :: next ∧ p.hash = hash ∧ p.key = key
        ∧ headMatches hash key chain = true
        ∧ putValChain hash key value chain = { p with value := value } :: next)
    ∨ (getNodeLoop hash key chain = none ∧ headMatches hash key chain = false
        ∧ putValChain hash key value chain = chain ++ [dictionaryNewNode hash key value])
    ∨ (getNodeLoop hash key chain ≠ none ∧ headMatches hash key chain = false
        ∧ putValChain hash key value chain = chain) := by
  cases chain with
  | nil => exact Or.inr (Or.inl ⟨rfl, rfl, rfl⟩)
  | cons p next =>
    cases hc : dictionaryKeyHashEqual hash p.hash key p.key with
    | true =>
      have := (keyHashEqual_iff _ _ _ _).1 hc
      exact Or.inl ⟨p, next, rfl, this.1.symm, this.2.symm, by simp [headMatches, hc],
        by simp [putValChain, hc]⟩
    | false =>
      by_cases hn : getNodeLoop hash key next = none
      · refine Or.inr (Or.inl ⟨by simp [getNodeLoop, hc, hn], by simp [headMatches, hc], ?_⟩)
        simp [putValChain, hc, putValLoop_of_none hash key value next hn]
      · refine Or.inr (Or.inr ⟨by simp [getNodeLoop, hc, hn], by simp [headMatches, hc], ?_⟩)
        simp [putValChain, hc, putValLoop_of_some hash key value next hn]

theorem getNodeLoop_append_single (hash : Nat) (key : EmojicodeString)
    (chain : List EmojicodeDictionaryNode) (e : EmojicodeDictionaryNode) :
    getNodeLoop hash key (chain ++ [e])
      = match getNodeLoop hash key chain with
        | some node => some node
        | none => if dictionaryKeyHashEqual hash e.hash key e.key then some e else none := by
  induction chain with
  | nil => simp [getNodeLoop]
  | cons p next ih =>
    cases hc : dictionaryKeyHashEqual hash p.hash key p.key with
    | true => simp [getNodeLoop, hc]
    | false => simp [getNodeLoop, hc, ih]

/-- A put of `key` does not change what a chain holds for another key. -/
theorem getNodeLoop_putValChain_ne (hash hash2 : Nat) (key key2 : EmojicodeString)
    (value : Something) (chain : List EmojicodeDictionaryNode) (hk : key ≠ key2) :
    getNodeLoop hash2 key2 (putValChain hash key value chain) = getNodeLoop hash2 key2 chain := by
  rcases putValChain_cases hash key value chain with
    ⟨p, next, hc, _, hpk, _, hput⟩ | ⟨_, _, hput⟩ | ⟨_, _, hput⟩
  · rw [hput, hc]
    have hpk2 : key2 ≠ p.key := by rw [hpk]; exact fun h => hk h.symm
    simp [getNodeLoop, keyHashEqual_of_ne hash2 p.hash hpk2]
  · rw [hput, getNodeLoop_append_single]
    have : dictionaryKeyHashEqual hash2 (dictionaryNewNode hash key value).hash key2
        (dictionaryNewNode hash key value).key = false :=
      keyHashEqual_of_ne _ _ (fun h => hk h.symm)
    rw [this]
    cases getNodeLoop hash2 key2 chain <;> simp
  · rw [hput]

theorem removeNodeLoop_none (hash : Nat) (key : EmojicodeString)
    (chain : List EmojicodeDictionaryNode) (h : getNodeLoop hash key chain = none) :
    removeNodeLoop hash key chain = none := by
  induction chain with
  | nil => rfl
  | cons e next ih =>
    cases hc : dictionaryKeyHashEqual hash e.hash key e.key with
    | true => simp [getNodeLoop, hc] at h
    | false =>
      simp only [getNodeLoop, hc] at h
      simp [removeNodeLoop, hc, ih (by simpa using h)]

/-- What the loop of `dictionaryRemoveNode` returns: the first node with the
key, and the chain without it. -/
theorem removeNodeLoop_some (hash : Nat) (key : EmojicodeString)
    (chain : List EmojicodeDictionaryNode) (node : EmojicodeDictionaryNode)
    (h : getNodeLoop hash key chain = some node) :
    ∃ rest, removeNodeLoop hash key chain = some (node, rest)
      ∧ rest.Sublist chain ∧ rest.length + 1 = chain.length
      ∧ (∀ hash2 key2, key2 ≠ key →
          getNodeLoop hash2 key2 rest = getNodeLoop hash2 key2 chain)
      ∧ ((chain.map (fun e => e.key)).Nodup → ∀ e ∈ rest, e.key ≠ key) := by
  induction chain with
  | nil => simp [getNodeLoop] at h
  | cons e next ih =>
    cases hc : dictionaryKeyHashEqual hash e.hash key e.key with
    | true =>
      simp only [getNodeLoop, hc, if_true, Option.some.injEq] at h
      subst h
      have hek := ((keyHashEqual_iff _ _ _ _).1 hc).2
      refine ⟨next, by simp [removeNodeLoop, hc], List.sublist_cons_self _ _, rfl, ?_, ?_⟩
      · intro hash2 key2 hk2
        have : dictionaryKeyHashEqual hash2 e.hash key2 e.key = false :=
          keyHashEqual_of_ne _ _ (by rw [← hek]; exact hk2)
        simp [getNodeLoop, this]
      · intro hnd x hx hxk
        rw [List.map_cons, List.nodup_cons] at hnd
        apply hnd.1
        rw [← hek, ← hxk]
        exact List.mem_map_of_mem _ hx
    | false =>
      simp only [getNodeLoop, hc] at h
      obtain ⟨rest, hr, hsub, hlen, hframe, hnd⟩ := ih (by simpa using h)
      refine ⟨e :: rest, by simp [removeNodeLoop, hc, hr], hsub.cons₂ e, by simp [hlen], ?_, ?_⟩
      · intro hash2 key2 hk2
        simp [getNodeLoop, hframe hash2 key2 hk2]
      · intro hnd2 x hx
        rw [List.map_cons, List.nodup_cons] at hnd2
        rcases List.mem_cons.1 hx with hxe | hxr
        · subst hxe
          intro hxk
          have := keyHashEqual_self hash key
          have hnode := getNodeLoop_some hash key next node (by simpa using h)
          apply hnd2.1
          rw [hxk, ← hnode.2.2]
          exact List.mem_map_of_mem _ hnode.1
        · exact hnd hnd2.2 x hxr

theorem getNodeLoop_eq_none_of_keys (hash : Nat) (key : EmojicodeString)
    (chain : List EmojicodeDictionaryNode) (h : ∀ e ∈ chain, e.key ≠ key) :
    getNodeLoop hash key chain = none := by
  rw [getNodeLoop_eq_find, List.find?_eq_none]
  intro e he hc
  exact h e he ((keyHashEqual_iff _ _ _ _).1 hc).2.symm

/-! ## Lookup in a dictionary -/

theorem dictionaryGetNode_eq (dict : EmojicodeDictionary) (hash : Nat) (key : EmojicodeString) :
    dictionaryGetNode dict hash key
      = match dict.buckets with
        | none => none
        | some bucko =>
          if dict.bucketsCounter > 0 then
            getNodeLoop hash key (bucko.getD (hash &&& (dict.bucketsCounter - 1)) [])
          else none := by
  unfold dictionaryGetNode
  cases dict.buckets with
  | none => rfl
  | some bucko =>
    simp only
    split
    · split <;> simp_all [getNodeLoop]
    · rfl

theorem dictionaryGetNode_some_buckets (dict : EmojicodeDictionary) (hash : Nat)
    (key : EmojicodeString) (bucko : List (List EmojicodeDictionaryNode))
    (hb : dict.buckets = some bucko) (hn : 0 < dict.bucketsCounter) :
    dictionaryGetNode dict hash key
      = getNodeLoop hash key (bucko.getD (hash &&& (dict.bucketsCounter - 1)) []) := by
  rw [dictionaryGetNode_eq, hb]
  simp [hn]

theorem dictionaryGetNode_none_buckets (dict : EmojicodeDictionary) (hash : Nat)
    (key : EmojicodeString) (hb : dict.buckets = none) :
    dictionaryGetNode dict hash key = none := by
  rw [dictionaryGetNode_eq, hb]

theorem dictionaryGetNode_mk (bucko : List (List EmojicodeDictionaryNode)) (cap size thr : Nat)
    (hash : Nat) (key : EmojicodeString) (hpos : 0 < cap) :
    dictionaryGetNode
        { buckets := some bucko, bucketsCounter := cap, size := size, nextThreshold := thr }
        hash key
      = getNodeLoop hash key (bucko.getD (hash &&& (cap - 1)) []) :=
  dictionaryGetNode_some_buckets _ hash key bucko rfl hpos

theorem putValInsert_eq (maxThreshold : Nat) (dict0 : EmojicodeDictionary) (key : EmojicodeString)
    (value : Something) (bucko : List (List EmojicodeDictionaryNode))
    (hb : (putValPrepare maxThreshold dict0).buckets = some bucko) :
    putValInsert maxThreshold dict0 key value
      = ({ putValPrepare maxThreshold dict0 with
            buckets := some (bucko.set
              (dictionaryHash key &&& ((putValPrepare maxThreshold dict0).bucketsCounter - 1))
              (putValChain (dictionaryHash key) key value
                (bucko.getD (dictionaryHash key
                  &&& ((putValPrepare maxThreshold dict0).bucketsCounter - 1)) []))) },
         headMatches (dictionaryHash key) key
           (bucko.getD (dictionaryHash key
              &&& ((putValPrepare maxThreshold dict0).bucketsCounter - 1)) [])) := by
  unfold putValInsert
  simp only
  have hp : (if dict0.buckets = none ∨ dict0.bucketsCounter = 0
      then dictionaryResize maxThreshold dict0 else dict0) = putValPrepare maxThreshold dict0 := rfl
  rw [hp]
  generalize putValPrepare maxThreshold dict0 = dict at hb ⊢
  rw [hb]
  simp only
  generalize bucko.getD (dictionaryHash key &&& (dict.bucketsCounter - 1)) [] = chain
  cases chain with
  | nil => rfl
  | cons p next =>
    simp only [putValChain, headMatches]
    cases hc : dictionaryKeyHashEqual (dictionaryHash key) p.hash key p.key <;> simp

/-! ## Resize -/

theorem resizeSplit_eq (oldCap : Nat) (chain lo hi : List EmojicodeDictionaryNode) :
    resizeSplit oldCap chain lo hi = (lo ++ loPart oldCap chain, hi ++ hiPart oldCap chain) := by
  induction chain generalizing lo hi with
  | nil => simp [resizeSplit, loPart, hiPart]
  | cons e nexto ih =>
    by_cases h : e.hash &&& oldCap = 0
    · simp [resizeSplit, h, ih, loPart, hiPart]
    · simp [resizeSplit, h, ih, loPart, hiPart]

theorem resizeBucket_eq (m : Nat) (oldBucko newBucko : List (List EmojicodeDictionaryNode))
    (j : Nat) (hplaced : ∀ e ∈ oldBucko.getD j [], e.hash &&& (2 ^ m - 1) = j) :
    resizeBucket (2 ^ m) (2 ^ (m + 1)) oldBucko newBucko j
      = (if hiPart (2 ^ m) (oldBucko.getD j []) ≠ [] then
          (if loPart (2 ^ m) (oldBucko.getD j []) ≠ [] then
            newBucko.set j (loPart (2 ^ m) (oldBucko.getD j [])) else newBucko).set
              (j + 2 ^ m) (hiPart (2 ^ m) (oldBucko.getD j []))
        else
          (if loPart (2 ^ m) (oldBucko.getD j []) ≠ [] then
            newBucko.set j (loPart (2 ^ m) (oldBucko.getD j [])) else newBucko)) := by
  unfold resizeBucket
  generalize oldBucko.getD j [] = chain at hplaced ⊢
  match chain, hplaced with
  | [], _ => simp [loPart, hiPart]
  | [e], hplaced =>
    have hj := hplaced e (List.mem_singleton_self e)
    rw [and_mask_eq_mod] at hj
    by_cases h : e.hash &&& 2 ^ m = 0
    · have := mod_succ_of_and_eq_zero e.hash m h
      simp [loPart, hiPart, h, and_mask_eq_mod, this, hj]
    · have := mod_succ_of_and_ne_zero e.hash m h
      simp [loPart, hiPart, h, and_mask_eq_mod, this, hj]
  | e :: e2 :: rest, _ =>
    simp only [resizeSplit_eq, List.nil_append]

theorem rehashed_step (m : Nat) (oldBucko newBucko : List (List EmojicodeDictionaryNode))
    (j : Nat) (hj : j < 2 ^ m)
    (hplaced : ∀ e ∈ oldBucko.getD j [], e.hash &&& (2 ^ m - 1) = j)
    (h : Rehashed (2 ^ m) oldBucko j newBucko) :
    Rehashed (2 ^ m) oldBucko (j + 1)
      (resizeBucket (2 ^ m) (2 ^ (m + 1)) oldBucko newBucko j) := by
  rw [resizeBucket_eq m oldBucko newBucko j hplaced]
  obtain ⟨hlen, hget⟩ := h
  generalize hlo : loPart (2 ^ m) (oldBucko.getD j []) = lo
  generalize hhi : hiPart (2 ^ m) (oldBucko.getD j []) = hi
  have hnj : newBucko.getD j [] = [] := by
    rw [hget j]; simp; omega
  have hnjc : newBucko.getD (j + 2 ^ m) [] = [] := by
    rw [hget (j + 2 ^ m)]; simp; omega
  have key : ∀ (nb1 nb2 : List (List EmojicodeDictionaryNode)),
      nb1 = (if lo ≠ [] then newBucko.set j lo else newBucko) →
      nb2 = (if hi ≠ [] then nb1.set (j + 2 ^ m) hi else nb1) →
      nb2.length = 2 * 2 ^ m ∧ ∀ i, nb2.getD i [] =
        if i = j then lo else if i = j + 2 ^ m then hi else newBucko.getD i [] := by
    intro nb1 nb2 h1 h2
    have hl1 : nb1.length = 2 * 2 ^ m := by
      rw [h1]; split <;> simp [hlen]
    have hg1 : ∀ i, nb1.getD i [] = if i = j then lo else newBucko.getD i [] := by
      intro i
      rw [h1]
      by_cases hlo0 : lo = []
      · simp only [hlo0, ne_eq, not_true_eq_false, if_false]
        split
        · rename_i hij; rw [hij, hnj]
        · rfl
      · simp only [ne_eq, hlo0, not_false_eq_true, if_true]
        by_cases hij : i = j
        · rw [hij, getD_set_self _ _ _ (by omega)]; simp
        · rw [getD_set_ne _ _ (fun h => hij h.symm)]; simp [hij]
    refine ⟨by rw [h2]; split <;> simp [hl1], ?_⟩
    intro i
    rw [h2]
    by_cases hhi0 : hi = []
    · simp only [hhi0, ne_eq, not_true_eq_false, if_false, hg1 i]
      by_cases hij : i = j
      · simp [hij]
      · simp only [hij, if_false]
        split
        · rename_i hij2; rw [hij2, hnjc]
        · rfl
    · simp only [ne_eq, hhi0, not_false_eq_true, if_true]
      by_cases hij2 : i = j + 2 ^ m
      · rw [hij2, getD_set_self _ _ _ (by omega)]
        have : ¬ (j + 2 ^ m = j) := by
          have := Nat.two_pow_pos m
          omega
        simp [this]
      · rw [getD_set_ne _ _ (fun h => hij2 h.symm), hg1 i]
        simp [hij2]
  have hres := key _ _ rfl rfl
  refine ⟨hres.1, ?_⟩
  intro i
  rw [hres.2 i, hget i]
  by_cases hij : i = j
  · subst hij
    rw [if_pos rfl, if_pos (Nat.lt_succ_self i), hlo]
  · by_cases hij2 : i = j + 2 ^ m
    · subst hij2
      have h1 : ¬ (j + 2 ^ m < j + 1) := by
        have := Nat.two_pow_pos m
        omega
      rw [if_neg hij, if_pos rfl, if_neg h1, if_pos ⟨by omega, by omega⟩, Nat.add_sub_cancel, hhi]
    · rw [if_neg hij, if_neg hij2]
      have e1 : (i < j + 1) ↔ (i < j) := by
        constructor <;> intro h <;> omega
      have e2 : (2 ^ m ≤ i ∧ i < 2 ^ m + (j + 1)) ↔ (2 ^ m ≤ i ∧ i < 2 ^ m + j) := by
        constructor <;> intro h <;> omega
      simp only [e1, e2]

theorem rehashed_fold (m : Nat) (oldBucko : List (List EmojicodeDictionaryNode))
    (hplaced : ∀ j, ∀ e ∈ oldBucko.getD j [], e.hash &&& (2 ^ m - 1) = j)
    (j : Nat) (hj : j ≤ 2 ^ m) :
    Rehashed (2 ^ m) oldBucko j
      ((List.range j).foldl (resizeBucket (2 ^ m) (2 ^ (m + 1)) oldBucko)
        (List.replicate (2 ^ (m + 1)) [])) := by
  induction j with
  | zero =>
    refine ⟨by simp [pow_succ]; omega, ?_⟩
    intro i
    rw [List.range_zero, List.foldl_nil, getD_replicate_nil, if_neg (Nat.not_lt_zero i),
      if_neg (by omega)]
  | succ j ih =>
    rw [List.range_succ, List.foldl_append]
    exact rehashed_step m oldBucko _ j (by omega) (hplaced j) (ih (by omega))

theorem ext_getD {α : Type} (l1 l2 : List (List α)) (hlen : l1.length = l2.length)
    (h : ∀ i, l1.getD i [] = l2.getD i []) : l1 = l2 := by
  apply List.ext_getElem hlen
  intro i h1 h2
  have := h i
  simpa [List.getD_eq_getElem?_getD, List.getElem?_eq_getElem h1,
    List.getElem?_eq_getElem h2] using this

theorem nodeCount_append (a b : List (List EmojicodeDictionaryNode)) :
    nodeCount (a ++ b) = nodeCount a + nodeCount b := by
  simp [nodeCount]

theorem nodeCount_lo_hi (oldCap : Nat) (bucko : List (List EmojicodeDictionaryNode)) :
    nodeCount (bucko.map (loPart oldCap)) + nodeCount (bucko.map (hiPart oldCap))
      = nodeCount bucko := by
  induction bucko with
  | nil => rfl
  | cons c rest ih =>
    have hc : (loPart oldCap c).length + (hiPart oldCap c).length = c.length :=
      (List.length_eq_length_filter_add _).symm
    simp only [nodeCount, List.map_cons, List.sum_cons] at ih ⊢
    omega

theorem rehashed_eq (cap : Nat) (bucko newBucko : List (List EmojicodeDictionaryNode))
    (hlen : bucko.length = cap) (h : Rehashed cap bucko cap newBucko) :
    newBucko = bucko.map (loPart cap) ++ bucko.map (hiPart cap) := by
  obtain ⟨hl, hget⟩ := h
  apply ext_getD
  · simp [hl, hlen]; omega
  · intro i
    rw [hget i]
    have hlo : ∀ n, (bucko.map (loPart cap)).getD n [] = loPart cap (bucko.getD n []) :=
      fun n => List.getD_map bucko [] (loPart cap)
    have hhi : ∀ n, (bucko.map (hiPart cap)).getD n [] = hiPart cap (bucko.getD n []) :=
      fun n => List.getD_map bucko [] (hiPart cap)
    by_cases h1 : i < cap
    · rw [if_pos h1, List.getD_append _ _ _ _ (by simpa [hlen] using h1), hlo]
    · rw [if_neg h1, List.getD_append_right _ _ _ _ (by simp [hlen]; omega), hhi]
      simp only [List.length_map, hlen]
      by_cases h2 : i < cap + cap
      · rw [if_pos ⟨by omega, h2⟩]
      · rw [if_neg (by omega)]
        have : bucko.getD (i - cap) [] = [] := by
          simp [List.getD_eq_getElem?_getD, List.getElem?_eq_none (by omega : bucko.length ≤ i - cap)]
        rw [this]
        rfl

theorem rehashed_nodeCount (cap : Nat) (bucko newBucko : List (List EmojicodeDictionaryNode))
    (hlen : bucko.length = cap) (h : Rehashed cap bucko cap newBucko) :
    nodeCount newBucko = nodeCount bucko := by
  rw [rehashed_eq cap bucko newBucko hlen h, nodeCount_append, nodeCount_lo_hi]

/-- After the doubling a hash finds in its new bucket what it found in its old
bucket. -/
theorem rehashed_lookup (m : Nat) (bucko newBucko : List (List EmojicodeDictionaryNode))
    (h : Rehashed (2 ^ m) bucko (2 ^ m) newBucko) (hash : Nat) (key : EmojicodeString) :
    getNodeLoop hash key (newBucko.getD (hash &&& (2 ^ (m + 1) - 1)) [])
      = getNodeLoop hash key (bucko.getD (hash &&& (2 ^ m - 1)) []) := by
  rw [and_mask_eq_mod, and_mask_eq_mod]
  have hj : hash % 2 ^ m < 2 ^ m := Nat.mod_lt _ (Nat.two_pow_pos m)
  by_cases h0 : hash &&& 2 ^ m = 0
  · rw [mod_succ_of_and_eq_zero hash m h0, h.2, if_pos hj]
    apply getNodeLoop_filter
    intro e _ he
    simp [he, h0]
  · rw [mod_succ_of_and_ne_zero hash m h0, h.2, if_neg (by omega), if_pos ⟨by omega, by omega⟩,
      Nat.add_sub_cancel]
    apply getNodeLoop_filter
    intro e _ he
    simp [he, h0]

theorem rehashed_wellFormed (m size : Nat) (bucko newBucko : List (List EmojicodeDictionaryNode))
    (hm : m < 30) (hwf : WellFormed bucko (2 ^ m) size)
    (h : Rehashed (2 ^ m) bucko (2 ^ m) newBucko) :
    WellFormed newBucko (2 ^ (m + 1)) size := by
  obtain ⟨m0, hm4, _, hm0⟩ := hwf.pow
  have hmm : m0 = m := Nat.pow_right_injective (le_refl 2) hm0.symm
  subst hmm
  refine ⟨by rw [h.1, pow_succ]; omega, ⟨m0 + 1, by omega, by omega, rfl⟩, ?_, ?_, ?_⟩
  · intro i e he
    rw [h.2 i] at he
    by_cases h1 : i < 2 ^ m0
    · rw [if_pos h1] at he
      have hmem := List.mem_filter.1 he
      have hp := hwf.placed i e hmem.1
      refine ⟨hp.1, ?_⟩
      have h0 : e.hash &&& 2 ^ m0 = 0 := by simpa using hmem.2
      rw [and_mask_eq_mod, mod_succ_of_and_eq_zero e.hash m0 h0, ← and_mask_eq_mod]
      exact hp.2
    · rw [if_neg h1] at he
      by_cases h2 : 2 ^ m0 ≤ i ∧ i < 2 ^ m0 + 2 ^ m0
      · rw [if_pos h2] at he
        have hmem := List.mem_filter.1 he
        have hp := hwf.placed (i - 2 ^ m0) e hmem.1
        refine ⟨hp.1, ?_⟩
        have h0 : e.hash &&& 2 ^ m0 ≠ 0 := by simpa using hmem.2
        have hp2 := hp.2
        rw [and_mask_eq_mod] at hp2 ⊢
        rw [mod_succ_of_and_ne_zero e.hash m0 h0, hp2]
        omega
      · rw [if_neg h2] at he
        simp at he
  · intro i
    rw [h.2 i]
    split
    · exact ((List.filter_sublist _).map _).nodup (hwf.nodup i)
    · split
      · exact ((List.filter_sublist _).map _).nodup (hwf.nodup _)
      · simp
  · rw [rehashed_nodeCount (2 ^ m0) bucko newBucko hwf.length_eq h]
    exact hwf.count_le

theorem dictionaryResize_fresh (maxThreshold : Nat) (dict : EmojicodeDictionary)
    (hb : dict.buckets = none) (ht : dict.nextThreshold = 0) :
    dictionaryResize maxThreshold dict
      = { buckets := some (List.replicate 16 []), bucketsCounter := 16, size := dict.size,
          nextThreshold := 12 } := by
  unfold dictionaryResize
  simp [hb, ht, DICTIONARY_DEFAULT_INITIAL_CAPACITY]

theorem dictionaryResize_full (maxThreshold : Nat) (dict : EmojicodeDictionary)
    (bucko : List (List EmojicodeDictionaryNode)) (hb : dict.buckets = some bucko)
    (hcap : 2 ^ 30 ≤ dict.bucketsCounter) :
    dictionaryResize maxThreshold dict = { dict with nextThreshold := maxThreshold } := by
  unfold dictionaryResize
  have h0 : 0 < dict.bucketsCounter := by
    have := Nat.two_pow_pos 30
    omega
  simp only [hb]
  rw [if_pos ⟨h0, by simpa [DICTIONARY_MAXIMUM_CAPACTIY] using hcap⟩]

theorem dictionaryResize_double (maxThreshold : Nat) (dict : EmojicodeDictionary)
    (bucko : List (List EmojicodeDictionaryNode)) (m : Nat) (hb : dict.buckets = some bucko)
    (hcap : dict.bucketsCounter = 2 ^ m) (hm : m < 30) :
    ∃ thr, dictionaryResize maxThreshold dict
      = { buckets := some ((List.range (2 ^ m)).foldl
            (resizeBucket (2 ^ m) (2 ^ (m + 1)) bucko) (List.replicate (2 ^ (m + 1)) [])),
          bucketsCounter := 2 ^ (m + 1), size := dict.size, nextThreshold := thr } := by
  have hpos : 0 < 2 ^ m := Nat.two_pow_pos m
  have hlt : ¬ (2 ^ 30 ≤ 2 ^ m) := by
    have := Nat.pow_lt_pow_right (by norm_num : 1 < 2) hm
    omega
  have hshift : (2 ^ m) <<< 1 = 2 ^ (m + 1) := by
    rw [Nat.shiftLeft_eq, Nat.pow_one, Nat.pow_succ]
  unfold dictionaryResize
  simp only [hb, hcap, DICTIONARY_MAXIMUM_CAPACTIY, hpos, true_and, hlt, if_false, if_true, hshift]
  split <;> exact ⟨_, rfl⟩

theorem wellFormed_empty (size : Nat) : WellFormed (List.replicate 16 []) 16 size := by
  refine ⟨by simp, ⟨4, by omega, by omega, by norm_num⟩, ?_, ?_, ?_⟩
  · intro i e he
    rw [getD_replicate_nil] at he
    simp at he
  · intro i
    rw [getD_replicate_nil]
    simp
  · rw [nodeCount_eq_zero _ (fun i => getD_replicate_nil 16 i)]
    exact Nat.zero_le _

theorem wellFormed_placed_mask (bucko : List (List EmojicodeDictionaryNode)) (m size : Nat)
    (hwf : WellFormed bucko (2 ^ m) size) :
    ∀ j, ∀ e ∈ bucko.getD j [], e.hash &&& (2 ^ m - 1) = j :=
  fun j e he => (hwf.placed j e he).2

theorem dictionaryResize_size (maxThreshold : Nat) (dict : EmojicodeDictionary) :
    (dictionaryResize maxThreshold dict).size = dict.size := by
  unfold dictionaryResize
  simp only
  split <;> rfl

/-- The invariant is kept by `dictionaryResize`. -/
theorem dictionaryResize_inv (maxThreshold : Nat) (dict : EmojicodeDictionary) (h : Inv dict) :
    Inv (dictionaryResize maxThreshold dict) := by
  unfold Inv at h
  cases hb : dict.buckets with
  | none =>
    rw [hb] at h
    rw [dictionaryResize_fresh maxThreshold dict hb h.2]
    exact wellFormed_empty _
  | some bucko =>
    rw [hb] at h
    obtain ⟨m, hm4, hm30, hcap⟩ := h.pow
    by_cases hm : m < 30
    · obtain ⟨thr, hr⟩ := dictionaryResize_double maxThreshold dict bucko m hb hcap hm
      rw [hr]
      rw [hcap] at h
      exact rehashed_wellFormed m dict.size bucko _ hm h
        (rehashed_fold m bucko (wellFormed_placed_mask bucko m dict.size h) (2 ^ m) (le_refl _))
    · have hm' : m = 30 := by omega
      rw [dictionaryResize_full maxThreshold dict bucko hb (by rw [hcap, hm'])]
      unfold Inv
      simp only [hb]
      exact h

/-- A resize does not change what a lookup finds. -/
theorem dictionaryResize_lookup (maxThreshold : Nat) (dict : EmojicodeDictionary) (h : Inv dict)
    (hash : Nat) (key : EmojicodeString) :
    dictionaryGetNode (dictionaryResize maxThreshold dict) hash key
      = dictionaryGetNode dict hash key := by
  unfold Inv at h
  cases hb : dict.buckets with
  | none =>
    rw [hb] at h
    rw [dictionaryResize_fresh maxThreshold dict hb h.2, dictionaryGetNode_none_buckets dict _ _ hb,
      dictionaryGetNode_some_buckets _ _ _ (List.replicate 16 []) rfl (Nat.succ_pos 15)]
    rw [getD_replicate_nil]
    rfl
  | some bucko =>
    rw [hb] at h
    obtain ⟨m, hm4, hm30, hcap⟩ := h.pow
    by_cases hm : m < 30
    · obtain ⟨thr, hr⟩ := dictionaryResize_double maxThreshold dict bucko m hb hcap hm
      rw [hr, dictionaryGetNode_some_buckets _ _ _ _ rfl (Nat.two_pow_pos (m + 1)),
        dictionaryGetNode_some_buckets dict _ _ bucko hb (by rw [hcap]; exact Nat.two_pow_pos m)]
      rw [hcap] at h ⊢
      exact rehashed_lookup m bucko _
        (rehashed_fold m bucko (wellFormed_placed_mask bucko m dict.size h) (2 ^ m) (le_refl _))
        hash key
    · have hm' : m = 30 := by omega
      rw [dictionaryResize_full maxThreshold dict bucko hb (by rw [hcap, hm'])]
      rw [dictionaryGetNode_eq, dictionaryGetNode_eq]

theorem putValPrepare_spec (maxThreshold : Nat) (dict : EmojicodeDictionary) (h : Inv dict) :
    ∃ bucko, (putValPrepare maxThreshold dict).buckets = some bucko
      ∧ WellFormed bucko (putValPrepare maxThreshold dict).bucketsCounter dict.size
      ∧ (putValPrepare maxThreshold dict).size = dict.size
      ∧ (∀ hash key, dictionaryGetNode (putValPrepare maxThreshold dict) hash key
          = dictionaryGetNode dict hash key)
      ∧ (dict.buckets ≠ none → putValPrepare maxThreshold dict = dict) := by
  cases hb : dict.buckets with
  | none =>
    have hp : putValPrepare maxThreshold dict = dictionaryResize maxThreshold dict := by
      simp [putValPrepare, hb]
    have hi := h
    unfold Inv at hi
    rw [hb] at hi
    rw [hp]
    refine ⟨List.replicate 16 [], ?_, ?_, ?_, ?_, ?_⟩
    · rw [dictionaryResize_fresh maxThreshold dict hb hi.2]
    · rw [dictionaryResize_fresh maxThreshold dict hb hi.2]
      exact wellFormed_empty _
    · exact dictionaryResize_size _ _
    · exact fun hash key => dictionaryResize_lookup maxThreshold dict h hash key
    · intro hc
      exact absurd rfl hc
  | some bucko =>
    have hi := h
    unfold Inv at hi
    rw [hb] at hi
    obtain ⟨m, _, _, hcap⟩ := hi.pow
    have hne : dict.bucketsCounter ≠ 0 := by
      rw [hcap]
      exact Nat.pos_iff_ne_zero.1 (Nat.two_pow_pos m)
    have hp : putValPrepare maxThreshold dict = dict := by
      simp [putValPrepare, hb, hne]
    rw [hp]
    exact ⟨bucko, hb, hi, rfl, fun _ _ => rfl, fun _ => rfl⟩

/-! ## Put -/

theorem wellFormed_index_lt (bucko : List (List EmojicodeDictionaryNode)) (cap size : Nat)
    (hwf : WellFormed bucko cap size) (hash : Nat) : hash &&& (cap - 1) < bucko.length := by
  obtain ⟨m, _, _, hcap⟩ := hwf.pow
  rw [hwf.length_eq, hcap]
  exact and_mask_lt hash m

theorem wellFormed_key_absent (bucko : List (List EmojicodeDictionaryNode)) (cap size : Nat)
    (hwf : WellFormed bucko cap size) (i : Nat) (key : EmojicodeString)
    (h : getNodeLoop (dictionaryHash key) key (bucko.getD i []) = none) :
    key ∉ (bucko.getD i []).map (fun e => e.key) := by
  intro hmem
  obtain ⟨e, he, hek⟩ := List.mem_map.1 hmem
  have hf := getNodeLoop_none _ _ _ h e he
  have hp := (hwf.placed i e he).1
  rw [hp, hek, keyHashEqual_self] at hf
  cases hf

/-- The bucket array after the insertion of `dictionaryPutVal` is well formed
for the incremented size, and for the old size when the head was overwritten. -/
theorem wellFormed_put (bucko : List (List EmojicodeDictionaryNode)) (cap size : Nat)
    (key : EmojicodeString) (value : Something) (hwf : WellFormed bucko cap size) :
    WellFormed
        (bucko.set (dictionaryHash key &&& (cap - 1))
          (putValChain (dictionaryHash key) key value
            (bucko.getD (dictionaryHash key &&& (cap - 1)) [])))
        cap
        (if headMatches (dictionaryHash key) key
            (bucko.getD (dictionaryHash key &&& (cap - 1)) []) then size else size + 1) := by
  have hi := wellFormed_index_lt bucko cap size hwf (dictionaryHash key)
  generalize hidx : dictionaryHash key &&& (cap - 1) = i at hi ⊢
  have hcount := nodeCount_set bucko i
    (putValChain (dictionaryHash key) key value (bucko.getD i [])) hi
  have hcl := hwf.count_le
  have hget : ∀ j, (bucko.set i (putValChain (dictionaryHash key) key value
      (bucko.getD i []))).getD j []
      = if i = j then putValChain (dictionaryHash key) key value (bucko.getD i [])
        else bucko.getD j [] := by
    intro j
    by_cases hij : i = j
    · subst hij
      rw [getD_set_self _ _ _ hi, if_pos rfl]
    · rw [getD_set_ne _ _ hij, if_neg hij]
  rcases putValChain_cases (dictionaryHash key) key value (bucko.getD i []) with
    ⟨p, next, hc, hph, hpk, hhead, hput⟩ | ⟨hnone, hhead, hput⟩ | ⟨_, hhead, hput⟩
  · rw [hhead, if_pos rfl]
    refine ⟨by simp [hwf.length_eq], hwf.pow, ?_, ?_, ?_⟩
    · intro j e he
      rw [hget j] at he
      by_cases hij : i = j
      · rw [if_pos hij, hput] at he
        have hpmem : p ∈ bucko.getD i [] := by rw [hc]; exact List.mem_cons_self _ _
        rcases List.mem_cons.1 he with he1 | he2
        · rw [he1]
          have := hwf.placed i p hpmem
          exact ⟨this.1, by rw [← hij]; exact this.2⟩
        · rw [← hij]
          exact hwf.placed i e (by rw [hc]; exact List.mem_cons_of_mem _ he2)
      · rw [if_neg hij] at he
        exact hwf.placed j e he
    · intro j
      rw [hget j]
      by_cases hij : i = j
      · rw [if_pos hij, hput]
        have := hwf.nodup i
        rw [hc] at this
        simpa using this
      · rw [if_neg hij]
        exact hwf.nodup j
    · rw [hput]
      rw [hput, hc] at hcount
      simp only [List.length_cons] at hcount
      omega
  · rw [hhead]
    simp only [Bool.false_eq_true, if_false]
    refine ⟨by simp [hwf.length_eq], hwf.pow, ?_, ?_, ?_⟩
    · intro j e he
      rw [hget j] at he
      by_cases hij : i = j
      · rw [if_pos hij, hput] at he
        rcases List.mem_append.1 he with he1 | he2
        · rw [← hij]
          exact hwf.placed i e he1
        · rw [List.mem_singleton] at he2
          rw [he2, ← hij]
          exact ⟨rfl, hidx⟩
      · rw [if_neg hij] at he
        exact hwf.placed j e he
    · intro j
      rw [hget j]
      by_cases hij : i = j
      · rw [if_pos hij, hput, List.map_append, List.nodup_append]
        refine ⟨hwf.nodup i, by simp, ?_⟩
        intro a ha hb
        have hk : a = key := by simpa [dictionaryNewNode] using hb
        exact wellFormed_key_absent bucko cap size hwf i key hnone (hk ▸ ha)
      · rw [if_neg hij]
        exact hwf.nodup j
    · rw [hput] at hcount ⊢
      simp only [List.length_append, List.length_singleton] at hcount
      omega
  · rw [hhead]
    simp only [Bool.false_eq_true, if_false]
    rw [hput]
    have hsame : bucko.set i (bucko.getD i []) = bucko := by
      apply ext_getD
      · simp
      · intro j
        by_cases hij : i = j
        · subst hij
          rw [getD_set_self _ _ _ hi]
        · rw [getD_set_ne _ _ hij]
    rw [hsame]
    exact ⟨hwf.length_eq, hwf.pow, hwf.placed, hwf.nodup, by omega⟩

theorem putValGrow_size (maxThreshold : Nat) (dict : EmojicodeDictionary) :
    (putValGrow maxThreshold dict).size = dict.size + 1 := by
  unfold putValGrow
  simp only
  split
  · rw [dictionaryResize_size]
  · rfl

theorem putValGrow_inv (maxThreshold : Nat) (dict : EmojicodeDictionary)
    (h : Inv { dict with size := dict.size + 1 }) : Inv (putValGrow maxThreshold dict) := by
  unfold putValGrow
  simp only
  split
  · exact dictionaryResize_inv _ _ h
  · exact h

theorem putValGrow_lookup (maxThreshold : Nat) (dict : EmojicodeDictionary)
    (h : Inv { dict with size := dict.size + 1 }) (hash : Nat) (key : EmojicodeString) :
    dictionaryGetNode (putValGrow maxThreshold dict) hash key
      = dictionaryGetNode dict hash key := by
  unfold putValGrow
  simp only
  split
  · rw [dictionaryResize_lookup _ _ h]
    rfl
  · rfl

/-- What `dictionaryPutVal` has done when it reaches its last statement. -/
theorem putValInsert_spec (maxThreshold : Nat) (dict : EmojicodeDictionary)
    (key : EmojicodeString) (value : Something) (h : Inv dict) :
    ∃ dict2 early bucko2, putValInsert maxThreshold dict key value = (dict2, early)
      ∧ dict2.buckets = some bucko2
      ∧ dict2.bucketsCounter = (putValPrepare maxThreshold dict).bucketsCounter
      ∧ dict2.nextThreshold = (putValPrepare maxThreshold dict).nextThreshold
      ∧ dict2.size = dict.size
      ∧ WellFormed bucko2 dict2.bucketsCounter (if early then dict.size else dict.size + 1)
      ∧ (∀ hash2 key2, key2 ≠ key →
          dictionaryGetNode dict2 hash2 key2 = dictionaryGetNode dict hash2 key2)
      ∧ (early = true → dictionaryGetNode dict (dictionaryHash key) key ≠ none)
      ∧ (early = true ∨ dictionaryGetNode dict (dictionaryHash key) key = none →
          dictionaryGetNode dict2 (dictionaryHash key) key
            = some (dictionaryNewNode (dictionaryHash key) key value))
      ∧ (early = false → dictionaryGetNode dict (dictionaryHash key) key ≠ none →
          dict2 = dict) := by
  obtain ⟨bucko, hb, hwf, hsize, hlook, hsame⟩ := putValPrepare_spec maxThreshold dict h
  rw [putValInsert_eq maxThreshold dict key value bucko hb]
  generalize putValPrepare maxThreshold dict = dict1 at hb hwf hsize hlook hsame ⊢
  have hi := wellFormed_index_lt bucko _ _ hwf (dictionaryHash key)
  have hpos : 0 < dict1.bucketsCounter := by
    obtain ⟨m, _, _, hcap⟩ := hwf.pow
    rw [hcap]
    exact Nat.two_pow_pos m
  have hwf2 := wellFormed_put bucko _ _ key value hwf
  generalize hidx : dictionaryHash key &&& (dict1.bucketsCounter - 1) = i at hi hwf2 ⊢
  have hl1 : ∀ hash2 key2, dictionaryGetNode dict1 hash2 key2
      = getNodeLoop hash2 key2 (bucko.getD (hash2 &&& (dict1.bucketsCounter - 1)) []) :=
    fun hash2 key2 => dictionaryGetNode_some_buckets dict1 hash2 key2 bucko hb hpos
  have hl2 : ∀ chain hash2 key2,
      dictionaryGetNode { dict1 with buckets := some (bucko.set i chain) } hash2 key2
      = getNodeLoop hash2 key2
          (if i = hash2 &&& (dict1.bucketsCounter - 1) then chain
            else bucko.getD (hash2 &&& (dict1.bucketsCounter - 1)) []) := by
    intro chain hash2 key2
    rw [dictionaryGetNode_some_buckets { dict1 with buckets := some (bucko.set i chain) }
      hash2 key2 (bucko.set i chain) rfl hpos]
    by_cases hij : i = hash2 &&& (dict1.bucketsCounter - 1)
    · rw [if_pos hij, ← hij, getD_set_self _ _ _ hi]
    · rw [if_neg hij]
      exact congrArg _ (getD_set_ne _ _ hij)
  refine ⟨_, _, _, rfl, rfl, rfl, rfl, hsize, hwf2, ?_, ?_, ?_, ?_⟩
  · intro hash2 key2 hk
    rw [hl2, ← hlook, hl1]
    by_cases hij : i = hash2 &&& (dict1.bucketsCounter - 1)
    · rw [if_pos hij, getNodeLoop_putValChain_ne _ _ _ _ _ _ (fun hh => hk hh.symm), hij]
    · rw [if_neg hij]
  · intro hearly
    rw [← hlook, hl1, hidx]
    cases hc : bucko.getD i [] with
    | nil => rw [hc] at hearly; simp [headMatches] at hearly
    | cons p next =>
      rw [hc] at hearly
      simp only [headMatches] at hearly
      simp [getNodeLoop, hearly]
  · intro hcase
    rw [hl2, hidx, if_pos rfl]
    rw [← hlook, hl1, hidx] at hcase
    rcases putValChain_cases (dictionaryHash key) key value (bucko.getD i []) with
      ⟨p, next, hc, hph, hpk, hhead, hput⟩ | ⟨hnone, hhead, hput⟩ | ⟨hsome, hhead, hput⟩
    · rw [hput]
      simp only [getNodeLoop, keyHashEqual_iff, hph, hpk, and_self, if_true, dictionaryNewNode]
    · rw [hput, getNodeLoop_append_single, hnone]
      simp [dictionaryNewNode, keyHashEqual_self]
    · rcases hcase with hearly | hnone
      · rw [hhead] at hearly
        cases hearly
      · exact absurd hnone hsome
  · intro hearly hsome
    have hd : dict.buckets ≠ none := by
      intro hnone
      exact hsome (dictionaryGetNode_none_buckets dict _ _ hnone)
    have h1 : dict1 = dict := hsame hd
    rw [← hlook, hl1, hidx] at hsome
    rcases putValChain_cases (dictionaryHash key) key value (bucko.getD i []) with
      ⟨p, next, hc, hph, hpk, hhead, hput⟩ | ⟨hnone, hhead, hput⟩ | ⟨_, hhead, hput⟩
    · rw [hhead] at hearly
      cases hearly
    · exact absurd hnone hsome
    · rw [hput]
      have hset : bucko.set i (bucko.getD i []) = bucko := by
        apply ext_getD
        · simp
        · intro j
          by_cases hij : i = j
          · subst hij
            rw [getD_set_self _ _ _ hi]
          · rw [getD_set_ne _ _ hij]
      rw [hset, ← h1, ← hb]

theorem inv_of_wellFormed (dict : EmojicodeDictionary)
    (bucko : List (List EmojicodeDictionaryNode)) (hb : dict.buckets = some bucko)
    (hwf : WellFormed bucko dict.bucketsCounter dict.size) : Inv dict := by
  unfold Inv
  rw [hb]
  exact hwf

/-- The invariant is kept by `dictionarySet`. -/
theorem dictionarySet_inv (maxThreshold : Nat) (dict : EmojicodeDictionary)
    (key : EmojicodeString) (value : Something) (h : Inv dict) :
    Inv (dictionarySet maxThreshold dict key value) := by
  obtain ⟨dict2, early, bucko2, heq, hb2, _, _, hsize, hwf, _⟩ :=
    putValInsert_spec maxThreshold dict key value h
  unfold dictionarySet dictionaryPutVal
  simp only [heq]
  cases early with
  | true =>
    simp only [if_true]
    rw [if_pos rfl] at hwf
    exact inv_of_wellFormed dict2 bucko2 hb2 (by rw [hsize]; exact hwf)
  | false =>
    simp only [Bool.false_eq_true, if_false] at hwf ⊢
    apply putValGrow_inv
    exact inv_of_wellFormed _ bucko2 hb2 (by rw [hsize]; exact hwf)

/-- A set of `key` does not change what a lookup of another key finds. -/
theorem dictionarySet_lookup_ne (maxThreshold : Nat) (dict : EmojicodeDictionary)
    (key : EmojicodeString) (value : Something) (h : Inv dict)
    (hash2 : Nat) (key2 : EmojicodeString) (hk : key2 ≠ key) :
    dictionaryGetNode (dictionarySet maxThreshold dict key value) hash2 key2
      = dictionaryGetNode dict hash2 key2 := by
  obtain ⟨dict2, early, bucko2, heq, hb2, _, _, hsize, hwf, hne, _⟩ :=
    putValInsert_spec maxThreshold dict key value h
  unfold dictionarySet dictionaryPutVal
  simp only [heq]
  cases early with
  | true =>
    simp only [if_true]
    exact hne hash2 key2 hk
  | false =>
    simp only [Bool.false_eq_true, if_false] at hwf ⊢
    rw [putValGrow_lookup _ _ (inv_of_wellFormed _ bucko2 hb2 (by rw [hsize]; exact hwf))]
    exact hne hash2 key2 hk

/-- A set of a key that is not in the dictionary links a node for it and
counts it. -/
theorem dictionarySet_absent (maxThreshold : Nat) (dict : EmojicodeDictionary)
    (key : EmojicodeString) (value : Something) (h : Inv dict)
    (habs : dictionaryGetNode dict (dictionaryHash key) key = none) :
    dictionaryGetNode (dictionarySet maxThreshold dict key value) (dictionaryHash key) key
        = some (dictionaryNewNode (dictionaryHash key) key value)
      ∧ (dictionarySet maxThreshold dict key value).size = dict.size + 1 := by
  obtain ⟨dict2, early, bucko2, heq, hb2, _, _, hsize, hwf, _, hearly, hnew, _⟩ :=
    putValInsert_spec maxThreshold dict key value h
  unfold dictionarySet dictionaryPutVal
  simp only [heq]
  cases early with
  | true => exact absurd habs (hearly rfl)
  | false =>
    simp only [Bool.false_eq_true, if_false] at hwf ⊢
    rw [putValGrow_lookup _ _ (inv_of_wellFormed _ bucko2 hb2 (by rw [hsize]; exact hwf)),
      putValGrow_size, hsize]
    exact ⟨hnew (Or.inr habs), rfl⟩

/-! ## Remove -/

theorem dictionaryRemoveNode_eq (dict : EmojicodeDictionary) (hash : Nat) (key : EmojicodeString)
    (bucko : List (List EmojicodeDictionaryNode)) (hb : dict.buckets = some bucko)
    (hpos : 0 < dict.bucketsCounter) :
    dictionaryRemoveNode dict hash key
      = match removeNodeLoop hash key (bucko.getD (hash &&& (dict.bucketsCounter - 1)) []) with
        | none => (none, dict)
        | some (node, rest) =>
          (some node,
            { dict with
              buckets := some (bucko.set (hash &&& (dict.bucketsCounter - 1)) rest)
              size := sizeDecrement dict.size }) := by
  unfold dictionaryRemoveNode
  simp only [hb, gt_iff_lt, hpos, if_true]
  generalize bucko.getD (hash &&& (dict.bucketsCounter - 1)) [] = chain
  cases chain with
  | nil => rfl
  | cons p next =>
    cases hc : dictionaryKeyHashEqual hash p.hash key p.key with
    | true => simp [removeNodeLoop, hc]
    | false =>
      simp only [removeNodeLoop, hc, Bool.false_eq_true, if_false]
      cases removeNodeLoop hash key next with
      | none => rfl
      | some r => rfl

/-- A remove of a key that no lookup finds changes nothing. -/
theorem dictionaryRemoveNode_absent (dict : EmojicodeDictionary) (hash : Nat)
    (key : EmojicodeString) (h : dictionaryGetNode dict hash key = none) :
    dictionaryRemoveNode dict hash key = (none, dict) := by
  cases hb : dict.buckets with
  | none => simp [dictionaryRemoveNode, hb]
  | some bucko =>
    by_cases hpos : 0 < dict.bucketsCounter
    · rw [dictionaryGetNode_some_buckets dict hash key bucko hb hpos] at h
      rw [dictionaryRemoveNode_eq dict hash key bucko hb hpos, removeNodeLoop_none hash key _ h]
    · simp [dictionaryRemoveNode, hb, hpos]

/-- What `dictionaryRemoveNode` does with a key a lookup finds. -/
theorem dictionaryRemoveNode_present (dict : EmojicodeDictionary) (hash : Nat)
    (key : EmojicodeString) (node : EmojicodeDictionaryNode)
    (h : dictionaryGetNode dict hash key = some node) :
    ∃ bucko rest, dict.buckets = some bucko ∧ 0 < dict.bucketsCounter
      ∧ hash &&& (dict.bucketsCounter - 1) < bucko.length
      ∧ getNodeLoop hash key (bucko.getD (hash &&& (dict.bucketsCounter - 1)) []) = some node
      ∧ rest.Sublist (bucko.getD (hash &&& (dict.bucketsCounter - 1)) [])
      ∧ rest.length + 1 = (bucko.getD (hash &&& (dict.bucketsCounter - 1)) []).length
      ∧ (∀ hash2 key2, key2 ≠ key → getNodeLoop hash2 key2 rest
          = getNodeLoop hash2 key2 (bucko.getD (hash &&& (dict.bucketsCounter - 1)) []))
      ∧ (((bucko.getD (hash &&& (dict.bucketsCounter - 1)) []).map (fun e => e.key)).Nodup →
          ∀ e ∈ rest, e.key ≠ key)
      ∧ dictionaryRemoveNode dict hash key
        = (some node,
            { dict with
              buckets := some (bucko.set (hash &&& (dict.bucketsCounter - 1)) rest)
              size := sizeDecrement dict.size }) := by
  cases hb : dict.buckets with
  | none => rw [dictionaryGetNode_none_buckets dict hash key hb] at h; cases h
  | some bucko =>
    by_cases hpos : 0 < dict.bucketsCounter
    · rw [dictionaryGetNode_some_buckets dict hash key bucko hb hpos] at h
      obtain ⟨rest, hr, hsub, hlen, hframe, hnd⟩ := removeNodeLoop_some hash key _ node h
      refine ⟨bucko, rest, rfl, hpos, ?_, h, hsub, hlen, hframe, hnd, ?_⟩
      · apply lt_length_of_getD_ne_nil
        intro hnil
        rw [hnil] at h
        cases h
      · rw [dictionaryRemoveNode_eq dict hash key bucko hb hpos, hr]
    · rw [dictionaryGetNode_eq, hb] at h
      simp [hpos] at h

/-- A remove of `key` does not change what a lookup of another key finds. -/
theorem dictionaryRemove_lookup_ne (dict : EmojicodeDictionary) (key : EmojicodeString)
    (hash2 : Nat) (key2 : EmojicodeString) (hk : key2 ≠ key) :
    dictionaryGetNode (dictionaryRemove dict key) hash2 key2
      = dictionaryGetNode dict hash2 key2 := by
  unfold dictionaryRemove
  cases hg : dictionaryGetNode dict (dictionaryHash key) key with
  | none => rw [dictionaryRemoveNode_absent dict _ key hg]
  | some node =>
    obtain ⟨bucko, rest, hb, hpos, hi, _, _, _, hframe, _, hrem⟩ :=
      dictionaryRemoveNode_present dict _ key node hg
    rw [hrem]
    simp only
    rw [dictionaryGetNode_mk _ _ _ _ hash2 key2 hpos,
      dictionaryGetNode_some_buckets dict hash2 key2 bucko hb hpos]
    by_cases hij : dictionaryHash key &&& (dict.bucketsCounter - 1)
        = hash2 &&& (dict.bucketsCounter - 1)
    · rw [← hij, getD_set_self _ _ _ hi]
      exact hframe hash2 key2 hk
    · rw [getD_set_ne _ _ hij]

/-- The invariant is kept by a remove. When the key was found, no lookup finds
it afterwards and `size` is one less. -/
theorem dictionaryRemove_inv (dict : EmojicodeDictionary) (key : EmojicodeString)
    (h : Inv dict) :
    Inv (dictionaryRemove dict key)
      ∧ (dictionaryGetNode dict (dictionaryHash key) key ≠ none →
          dictionaryGetNode (dictionaryRemove dict key) (dictionaryHash key) key = none
            ∧ (dictionaryRemove dict key).size + 1 = dict.size) := by
  unfold dictionaryRemove
  cases hg : dictionaryGetNode dict (dictionaryHash key) key with
  | none =>
    rw [dictionaryRemoveNode_absent dict _ key hg]
    exact ⟨h, fun hc => absurd rfl hc⟩
  | some node =>
    obtain ⟨bucko, rest, hb, hpos, hi, hfound, hsub, hlen, hframe, hnd, hrem⟩ :=
      dictionaryRemoveNode_present dict _ key node hg
    rw [hrem]
    have hwf : WellFormed bucko dict.bucketsCounter dict.size := by
      unfold Inv at h
      rw [hb] at h
      exact h
    generalize hidx : dictionaryHash key &&& (dict.bucketsCounter - 1) = i
      at hi hfound hsub hlen hframe hnd
    have hcount := nodeCount_set bucko i rest hi
    have hcl := hwf.count_le
    have hsz : sizeDecrement dict.size + 1 = dict.size := by
      unfold sizeDecrement
      have := length_getD_le_nodeCount bucko i
      have hne : dict.size ≠ 0 := by omega
      rw [if_neg hne]
      omega
    have hget : ∀ j, (bucko.set i rest).getD j [] = if i = j then rest else bucko.getD j [] := by
      intro j
      by_cases hij : i = j
      · subst hij
        rw [getD_set_self _ _ _ hi, if_pos rfl]
      · rw [getD_set_ne _ _ hij, if_neg hij]
    refine ⟨?_, fun _ => ⟨?_, hsz⟩⟩
    · apply inv_of_wellFormed _ (bucko.set i rest) rfl
      refine ⟨by simp [hwf.length_eq], hwf.pow, ?_, ?_, ?_⟩
      · intro j e he
        rw [hget j] at he
        by_cases hij : i = j
        · rw [if_pos hij] at he
          rw [← hij]
          exact hwf.placed i e (hsub.subset he)
        · rw [if_neg hij] at he
          exact hwf.placed j e he
      · intro j
        rw [hget j]
        by_cases hij : i = j
        · rw [if_pos hij]
          exact (hsub.map _).nodup (hwf.nodup i)
        · rw [if_neg hij]
          exact hwf.nodup j
      · show nodeCount (bucko.set i rest) ≤ sizeDecrement dict.size
        omega
    · rw [dictionaryGetNode_mk _ _ _ _ _ key hpos, hidx, getD_set_self _ _ _ hi]
      exact getNodeLoop_eq_none_of_keys _ _ _ (hnd (hwf.nodup i))

/-! ## Clear -/

theorem getD_clearLoop (bucko : List (List EmojicodeDictionaryNode)) (n j : Nat) :
    ((List.range n).foldl (fun b i => b.set i []) bucko).getD j []
      = if j < n then [] else bucko.getD j [] := by
  induction n with
  | zero => simp
  | succ n ih =>
    rw [List.range_succ, List.foldl_append, List.foldl_cons, List.foldl_nil, getD_set_nil, ih]
    by_cases hnj : n = j
    · subst hnj
      simp
    · rw [if_neg hnj]
      by_cases hjn : j < n
      · rw [if_pos hjn, if_pos (by omega)]
      · rw [if_neg hjn, if_neg (by omega)]

theorem length_clearLoop (bucko : List (List EmojicodeDictionaryNode)) (n : Nat) :
    ((List.range n).foldl (fun b i => b.set i []) bucko).length = bucko.length := by
  induction n with
  | zero => simp
  | succ n ih =>
    rw [List.range_succ, List.foldl_append, List.foldl_cons, List.foldl_nil, List.length_set, ih]

theorem dictionaryClear_none (dict : EmojicodeDictionary) (hb : dict.buckets = none) :
    dictionaryClear dict = dict := by
  unfold dictionaryClear
  rw [hb]

theorem dictionaryClear_zero (dict : EmojicodeDictionary) (hs : dict.size = 0) :
    dictionaryClear dict = dict := by
  unfold dictionaryClear
  cases dict.buckets with
  | none => rfl
  | some bucko => simp [hs]

theorem dictionaryClear_pos (dict : EmojicodeDictionary)
    (bucko : List (List EmojicodeDictionaryNode)) (hb : dict.buckets = some bucko)
    (hs : dict.size > 0) :
    dictionaryClear dict
      = { buckets := some ((List.range dict.bucketsCounter).foldl (fun b i => b.set i []) bucko),
          bucketsCounter := dict.bucketsCounter, size := 0,
          nextThreshold := dict.nextThreshold } := by
  unfold dictionaryClear
  rw [hb]
  simp [hs]

/-- After `dictionaryClear` no bucket holds a node and `size` is zero; the
array, its length and the threshold stay. -/
theorem dictionaryClear_spec (dict : EmojicodeDictionary) (h : Inv dict) :
    Inv (dictionaryClear dict) ∧ (dictionaryClear dict).size = 0
      ∧ (dictionaryClear dict).bucketsCounter = dict.bucketsCounter
      ∧ (dictionaryClear dict).nextThreshold = dict.nextThreshold
      ∧ ((dictionaryClear dict).buckets = none ↔ dict.buckets = none)
      ∧ ∀ hash key, dictionaryGetNode (dictionaryClear dict) hash key = none := by
  have hi := h
  unfold Inv at hi
  cases hb : dict.buckets with
  | none =>
    rw [hb] at hi
    rw [dictionaryClear_none dict hb]
    exact ⟨h, hi.1, rfl, rfl, by simp [hb], fun hash key =>
      dictionaryGetNode_none_buckets dict hash key hb⟩
  | some bucko =>
    rw [hb] at hi
    have hpos : 0 < dict.bucketsCounter := by
      obtain ⟨m, _, _, hcap⟩ := hi.pow
      rw [hcap]
      exact Nat.two_pow_pos m
    by_cases hs : dict.size > 0
    · rw [dictionaryClear_pos dict bucko hb hs]
      have hall : ∀ j, ((List.range dict.bucketsCounter).foldl (fun b i => b.set i []) bucko).getD
          j [] = [] := by
        intro j
        rw [getD_clearLoop]
        split
        · rfl
        · simp [List.getD_eq_getElem?_getD,
            List.getElem?_eq_none (by rw [hi.length_eq]; omega : bucko.length ≤ j)]
      refine ⟨?_, rfl, rfl, rfl, by simp [hb], ?_⟩
      · apply inv_of_wellFormed _ _ rfl
        refine ⟨by simp only [length_clearLoop]; exact hi.length_eq, hi.pow, ?_, ?_, ?_⟩
        · intro j e he
          rw [hall j] at he
          simp at he
        · intro j
          rw [hall j]
          simp
        · rw [nodeCount_eq_zero _ hall]
      · intro hash key
        rw [dictionaryGetNode_mk _ _ _ _ hash key hpos, hall]
        rfl
    · have hs0 : dict.size = 0 := by omega
      rw [dictionaryClear_zero dict hs0]
      have hcount : nodeCount bucko = 0 := by
        have := hi.count_le
        omega
      refine ⟨h, hs0, rfl, rfl, by simp [hb], ?_⟩
      intro hash key
      rw [dictionaryGetNode_some_buckets dict hash key bucko hb hpos]
      have := length_getD_le_nodeCount bucko (hash &&& (dict.bucketsCounter - 1))
      have hnil : bucko.getD (hash &&& (dict.bucketsCounter - 1)) [] = [] :=
        List.length_eq_zero.1 (by omega)
      rw [hnil]
      rfl

/-! ## Reachable dictionaries -/

/-- Every dictionary a program can hold satisfies the invariant. -/
theorem reachable_inv (maxThreshold : Nat) (dict : EmojicodeDictionary)
    (h : Reachable maxThreshold dict) : Inv dict := by
  induction h with
  | init memory => exact ⟨rfl, rfl⟩
  | set key value _ ih => exact dictionarySet_inv maxThreshold _ key value ih
  | remove key _ ih => exact (dictionaryRemove_inv _ key ih).1
  | clear _ ih => exact (dictionaryClear_spec _ ih).1

theorem reachable_setAll (maxThreshold : Nat) (dict : EmojicodeDictionary)
    (entries : List (EmojicodeString × Something)) (h : Reachable maxThreshold dict) :
    Reachable maxThreshold (setAll maxThreshold dict entries) := by
  induction entries generalizing dict with
  | nil => exact h
  | cons kv rest ih => exact ih _ (Reachable.set kv.1 kv.2 h)

theorem setAll_append (maxThreshold : Nat) (dict : EmojicodeDictionary)
    (a b : List (EmojicodeString × Something)) :
    setAll maxThreshold dict (a ++ b) = setAll maxThreshold (setAll maxThreshold dict a) b := by
  simp [setAll]

/-- Sets of pairwise distinct keys that are not in the dictionary: each is
found with its value afterwards, `size` grows by their number, other keys are
untouched. -/
theorem setAll_spec (maxThreshold : Nat) (entries : List (EmojicodeString × Something))
    (dict : EmojicodeDictionary) (h : Inv dict)
    (hnd : (entries.map Prod.fst).Nodup)
    (habs : ∀ kv ∈ entries, dictionaryGetNode dict (dictionaryHash kv.1) kv.1 = none) :
    Inv (setAll maxThreshold dict entries)
      ∧ (setAll maxThreshold dict entries).size = dict.size + entries.length
      ∧ (∀ kv ∈ entries,
          dictionaryGetNode (setAll maxThreshold dict entries) (dictionaryHash kv.1) kv.1
            = some (dictionaryNewNode (dictionaryHash kv.1) kv.1 kv.2))
      ∧ (∀ hash2 key2, key2 ∉ entries.map Prod.fst →
          dictionaryGetNode (setAll maxThreshold dict entries) hash2 key2
            = dictionaryGetNode dict hash2 key2) := by
  induction entries generalizing dict with
  | nil => exact ⟨h, rfl, fun kv hkv => by simp at hkv, fun _ _ _ => rfl⟩
  | cons kv rest ih =>
    rw [List.map_cons, List.nodup_cons] at hnd
    have hkv := dictionarySet_absent maxThreshold dict kv.1 kv.2 h
      (habs kv (List.mem_cons_self _ _))
    have hinv := dictionarySet_inv maxThreshold dict kv.1 kv.2 h
    have hrest : ∀ x ∈ rest, dictionaryGetNode (dictionarySet maxThreshold dict kv.1 kv.2)
        (dictionaryHash x.1) x.1 = none := by
      intro x hx
      have hne : x.1 ≠ kv.1 := by
        intro he
        apply hnd.1
        rw [← he]
        exact List.mem_map_of_mem _ hx
      rw [dictionarySet_lookup_ne maxThreshold dict kv.1 kv.2 h _ _ hne]
      exact habs x (List.mem_cons_of_mem _ hx)
    obtain ⟨i1, i2, i3, i4⟩ := ih (dictionarySet maxThreshold dict kv.1 kv.2) hinv hnd.2 hrest
    refine ⟨i1, ?_, ?_, ?_⟩
    · show (setAll maxThreshold (dictionarySet maxThreshold dict kv.1 kv.2) rest).size = _
      rw [i2, hkv.2, List.length_cons]
      omega
    · intro x hx
      rcases List.mem_cons.1 hx with hxe | hxr
      · subst hxe
        show dictionaryGetNode (setAll maxThreshold (dictionarySet maxThreshold dict x.1 x.2) rest)
          _ _ = _
        rw [i4 _ _ hnd.1]
        exact hkv.1
      · exact i3 x hxr
    · intro hash2 key2 hk
      rw [List.map_cons, List.mem_cons, not_or] at hk
      show dictionaryGetNode (setAll maxThreshold (dictionarySet maxThreshold dict kv.1 kv.2) rest)
        _ _ = _
      rw [i4 _ _ hk.2]
      exact dictionarySet_lookup_ne maxThreshold dict kv.1 kv.2 h _ _ hk.1

theorem dictionaryInit_inv (memory : EmojicodeDictionary) : Inv (dictionaryInit memory) :=
  ⟨rfl, rfl⟩

theorem bridgeDictionaryGet_of_some (dict : EmojicodeDictionary) (key : EmojicodeString)
    (node : EmojicodeDictionaryNode)
    (h : dictionaryGetNode dict (dictionaryHash key) key = some node) :
    bridgeDictionaryGet dict key = node.value := by
  unfold bridgeDictionaryGet
  rw [h]

theorem bridgeDictionaryGet_of_none (dict : EmojicodeDictionary) (key : EmojicodeString)
    (h : dictionaryGetNode dict (dictionaryHash key) key = none) :
    bridgeDictionaryGet dict key = Something.NOTHINGNESS := by
  unfold bridgeDictionaryGet
  rw [h]

theorem bridgeDictionaryGet_congr (dict1 dict2 : EmojicodeDictionary) (key : EmojicodeString)
    (h : dictionaryGetNode dict1 (dictionaryHash key) key
      = dictionaryGetNode dict2 (dictionaryHash key) key) :
    bridgeDictionaryGet dict1 key = bridgeDictionaryGet dict2 key := by
  unfold bridgeDictionaryGet
  rw [h]

/-! ## The hash -/

theorem toHash_charValue_of_lt (charIsSigned : Bool) (b : Nat) (hb : b < 128) :
    toHash (charValue charIsSigned b) = b := by
  unfold toHash charValue
  rw [if_neg (by omega)]
  have h1 : (b : Int) % (2 ^ 64 : Int) = (b : Int) := by
    apply Int.emod_eq_of_lt <;> omega
  rw [h1]
  exact Int.toNat_natCast b

theorem toHash_charValue_unsigned (b : Nat) (hb : b < 256) :
    toHash (charValue false b) = b := by
  unfold toHash charValue
  rw [if_neg (by simp)]
  have h1 : (b : Int) % (2 ^ 64 : Int) = (b : Int) := by
    apply Int.emod_eq_of_lt <;> omega
  rw [h1]
  exact Int.toNat_natCast b

theorem fnv64_foldl_eq (charIsSigned : Bool) (bytes : List Nat)
    (hb : ∀ b ∈ bytes, toHash (charValue charIsSigned b) = b) (h0 : Nat) :
    (bytes.map (charValue charIsSigned)).foldl fnv64Step h0
      = bytes.foldl (fun h b => ((h ^^^ b) * 1099511628211) % 2 ^ 64) h0 := by
  induction bytes generalizing h0 with
  | nil => rfl
  | cons b rest ih =>
    simp only [List.map_cons, List.foldl_cons]
    rw [ih (fun x hx => hb x (List.mem_cons_of_mem _ hx))]
    simp only [fnv64Step, hb b (List.mem_cons_self _ _), FNV_PRIME_64]

/-- On bytes below 128 `fnv64` is the FNV-1a hash, whether `char` is signed
or not. -/
theorem fnv64_eq_fnv1a64_of_lt (charIsSigned : Bool) (bytes : List Nat)
    (hb : ∀ b ∈ bytes, b < 128) :
    fnv64 (bytes.map (charValue charIsSigned)) = fnv1a64 bytes :=
  fnv64_foldl_eq charIsSigned bytes
    (fun b hbm => toHash_charValue_of_lt charIsSigned b (hb b hbm)) FNV_OFFSET_64

/-- Where `char` is unsigned `fnv64` is the FNV-1a hash of every byte
sequence. -/
theorem fnv64_eq_fnv1a64_unsigned (bytes : List Nat) (hb : ∀ b ∈ bytes, b < 256) :
    fnv64 (bytes.map (charValue false)) = fnv1a64 bytes :=
  fnv64_foldl_eq false bytes (fun b hbm => toHash_charValue_unsigned b (hb b hbm)) FNV_OFFSET_64

/-- The three bytes of "abc" hash to `0xE71FA2190541574B`. -/
theorem fnv64_abc (charIsSigned : Bool) :
    fnv64 ([97, 98, 99].map (charValue charIsSigned)) = 0xE71FA2190541574B := by
  cases charIsSigned <;> decide

/-! ## The claims -/

/-- C1 (fails on the code): after `set(k, v)` a `get(k)` should return `v`. With the
keys "a" and "q", which share bucket 4 of 16, `set("a", 1); set("q", 2);
set("q", 3)` leaves `get("q") = 2`: the node of "q" is not the head of its
chain, the loop of `dictionaryPutVal` leaves `eo` at `NULL` and the value is
not overwritten. (The threshold constant is not read on this run.) -/
theorem set_existing_later_node_keeps_old_value :
    bridgeDictionaryGet
      (dictionarySet 2147483647
        (dictionarySet 2147483647
          (dictionarySet 2147483647 (dictionaryInit zeroMemory) [97] (Something.integer 1))
          [113] (Something.integer 2))
        [113] (Something.integer 3))
      [113] = Something.integer 2 := by
  set_option maxRecDepth 100000 in decide

/-- C2 (fails on the code): a second `set` of a key should leave `size` as it is.
With the keys "a" and "q", which share bucket 4 of 16, `set("a", 1); set("q",
2)` gives size 2 with two nodes, and a further `set("q", 3)` gives size 3,
still with two nodes. (The threshold constant is not read on this run.) -/
theorem set_existing_later_node_increments_size :
    (dictionarySet 2147483647
        (dictionarySet 2147483647 (dictionaryInit zeroMemory) [97] (Something.integer 1))
        [113] (Something.integer 2)).size = 2
    ∧ (dictionarySet 2147483647
        (dictionarySet 2147483647
          (dictionarySet 2147483647 (dictionaryInit zeroMemory) [97] (Something.integer 1))
          [113] (Something.integer 2))
        [113] (Something.integer 3)).size = 3
    ∧ (dictionarySet 2147483647
        (dictionarySet 2147483647
          (dictionarySet 2147483647 (dictionaryInit zeroMemory) [97] (Something.integer 1))
          [113] (Something.integer 2))
        [113] (Something.integer 3)).buckets.map nodeCount = some 2 := by
  set_option maxRecDepth 100000 in decide

/-- C3: for pairwise distinct keys `k1 … kn` with values `v1 … vn`, the sets
`set(ki, vi)` in order on a freshly initialised dictionary give a dictionary
in which `get(ki)` returns `vi` for every `i` and whose `size` is `n`. -/
theorem insert_distinct_keys_get_and_size (maxThreshold : Nat) (memory : EmojicodeDictionary)
    (entries : List (EmojicodeString × Something))
    (hdistinct : (entries.map Prod.fst).Nodup) :
    (∀ kv ∈ entries,
        bridgeDictionaryGet (setAll maxThreshold (dictionaryInit memory) entries) kv.1 = kv.2)
      ∧ (setAll maxThreshold (dictionaryInit memory) entries).size = entries.length := by
  obtain ⟨_, hsize, hget, _⟩ := setAll_spec maxThreshold entries (dictionaryInit memory)
    (dictionaryInit_inv memory) hdistinct
    (fun kv _ => dictionaryGetNode_none_buckets _ _ _ rfl)
  refine ⟨fun kv hkv => ?_, ?_⟩
  · rw [bridgeDictionaryGet_of_some _ _ _ (hget kv hkv)]
    rfl
  · rw [hsize]
    show 0 + entries.length = entries.length
    omega

theorem insert_distinct_keys_get_and_size_witness :
    ([([97], Something.integer 1), ([113], Something.integer 2)].map Prod.fst).Nodup
    ∧ ((∀ kv ∈ [([97], Something.integer 1), ([113], Something.integer 2)],
        bridgeDictionaryGet (setAll 1000 (dictionaryInit zeroMemory)
          [([97], Something.integer 1), ([113], Something.integer 2)]) kv.1 = kv.2)
      ∧ (setAll 1000 (dictionaryInit zeroMemory)
          [([97], Something.integer 1), ([113], Something.integer 2)]).size
        = [([97], Something.integer 1), ([113], Something.integer 2)].length) :=
  ⟨by decide, insert_distinct_keys_get_and_size 1000 zeroMemory
    [([97], Something.integer 1), ([113], Something.integer 2)] (by decide)⟩

/-- C4: in a reachable dictionary that holds the key `k` (at the head of its
chain or later), after `remove(k)` a `get(k)` returns `NOTHINGNESS`, the key
is not contained any more and `size` is exactly one less. -/
theorem remove_present_key (maxThreshold : Nat) (dict : EmojicodeDictionary)
    (key : EmojicodeString) (hreach : Reachable maxThreshold dict)
    (hpresent : dictionaryContainsKey dict key = true) :
    bridgeDictionaryGet (dictionaryRemove dict key) key = Something.NOTHINGNESS
      ∧ dictionaryContainsKey (dictionaryRemove dict key) key = false
      ∧ (dictionaryRemove dict key).size + 1 = dict.size := by
  have hne : dictionaryGetNode dict (dictionaryHash key) key ≠ none := by
    intro hn
    rw [dictionaryContainsKey, hn] at hpresent
    cases hpresent
  obtain ⟨hnone, hsize⟩ :=
    (dictionaryRemove_inv dict key (reachable_inv maxThreshold dict hreach)).2 hne
  exact ⟨bridgeDictionaryGet_of_none _ _ hnone, by rw [dictionaryContainsKey, hnone]; rfl, hsize⟩

theorem remove_present_key_witness :
    dictionaryContainsKey
        (dictionarySet 1000
          (dictionarySet 1000 (dictionaryInit zeroMemory) [97] (Something.integer 1))
          [113] (Something.integer 2)) [113] = true
    ∧ (bridgeDictionaryGet (dictionaryRemove
        (dictionarySet 1000
          (dictionarySet 1000 (dictionaryInit zeroMemory) [97] (Something.integer 1))
          [113] (Something.integer 2)) [113]) [113] = Something.NOTHINGNESS
      ∧ dictionaryContainsKey (dictionaryRemove
        (dictionarySet 1000
          (dictionarySet 1000 (dictionaryInit zeroMemory) [97] (Something.integer 1))
          [113] (Something.integer 2)) [113]) [113] = false
      ∧ (dictionaryRemove
        (dictionarySet 1000
          (dictionarySet 1000 (dictionaryInit zeroMemory) [97] (Something.integer 1))
          [113] (Something.integer 2)) [113]).size + 1
        = (dictionarySet 1000
          (dictionarySet 1000 (dictionaryInit zeroMemory) [97] (Something.integer 1))
          [113] (Something.integer 2)).size) :=
  ⟨by set_option maxRecDepth 100000 in decide,
    remove_present_key 1000 _ [113]
      (Reachable.set _ _ (Reachable.set _ _ (Reachable.init zeroMemory)))
      (by set_option maxRecDepth 100000 in decide)⟩

/-- C5: a `remove(k)` of a key that the dictionary does not contain leaves the
whole dictionary as it is: `size`, `nextThreshold`, `bucketsCounter` and every
chain. This holds for every dictionary, reachable or not, with or without a
bucket array. -/
theorem remove_absent_key_unchanged (dict : EmojicodeDictionary) (key : EmojicodeString)
    (habsent : dictionaryContainsKey dict key = false) :
    dictionaryRemove dict key = dict := by
  have hn : dictionaryGetNode dict (dictionaryHash key) key = none := by
    cases hg : dictionaryGetNode dict (dictionaryHash key) key with
    | none => rfl
    | some node => rw [dictionaryContainsKey, hg] at habsent; cases habsent
  rw [dictionaryRemove, dictionaryRemoveNode_absent dict _ key hn]

theorem remove_absent_key_unchanged_witness :
    dictionaryContainsKey (dictionarySet 1000 (dictionaryInit zeroMemory) [97]
        (Something.integer 1)) [113] = false
    ∧ dictionaryRemove (dictionarySet 1000 (dictionaryInit zeroMemory) [97]
        (Something.integer 1)) [113]
      = dictionarySet 1000 (dictionaryInit zeroMemory) [97] (Something.integer 1) :=
  ⟨by set_option maxRecDepth 100000 in decide,
    remove_absent_key_unchanged _ [113] (by set_option maxRecDepth 100000 in decide)⟩

/-- C6: in a reachable dictionary, for two keys `k` and `k2` with
`stringEqual k k2` false, neither `set(k, v)` nor `remove(k)` changes the node
found for `k2` nor the result of `get(k2)`, whether or not the keys share a
bucket and whether or not the set resizes. -/
theorem other_key_unaffected (maxThreshold : Nat) (dict : EmojicodeDictionary)
    (key key2 : EmojicodeString) (value : Something) (hreach : Reachable maxThreshold dict)
    (hne : stringEqual key key2 = false) :
    bridgeDictionaryGet (dictionarySet maxThreshold dict key value) key2
        = bridgeDictionaryGet dict key2
      ∧ bridgeDictionaryGet (dictionaryRemove dict key) key2 = bridgeDictionaryGet dict key2
      ∧ dictionaryGetNode (dictionarySet maxThreshold dict key value) (dictionaryHash key2) key2
        = dictionaryGetNode dict (dictionaryHash key2) key2
      ∧ dictionaryGetNode (dictionaryRemove dict key) (dictionaryHash key2) key2
        = dictionaryGetNode dict (dictionaryHash key2) key2 := by
  have hk : key2 ≠ key := by
    intro he
    rw [he] at hne
    simp [stringEqual] at hne
  have h1 := dictionarySet_lookup_ne maxThreshold dict key value
    (reachable_inv maxThreshold dict hreach) (dictionaryHash key2) key2 hk
  have h2 := dictionaryRemove_lookup_ne dict key (dictionaryHash key2) key2 hk
  exact ⟨bridgeDictionaryGet_congr _ _ _ h1, bridgeDictionaryGet_congr _ _ _ h2, h1, h2⟩

theorem other_key_unaffected_witness :
    stringEqual [97] [113] = false
    ∧ (bridgeDictionaryGet (dictionarySet 2147483647 twoCollidingKeys [97] (Something.integer 7))
          [113] = bridgeDictionaryGet twoCollidingKeys [113]
      ∧ bridgeDictionaryGet (dictionaryRemove twoCollidingKeys [97]) [113]
        = bridgeDictionaryGet twoCollidingKeys [113]
      ∧ dictionaryGetNode (dictionarySet 2147483647 twoCollidingKeys [97] (Something.integer 7))
          (dictionaryHash [113]) [113]
        = dictionaryGetNode twoCollidingKeys (dictionaryHash [113]) [113]
      ∧ dictionaryGetNode (dictionaryRemove twoCollidingKeys [97]) (dictionaryHash [113]) [113]
        = dictionaryGetNode twoCollidingKeys (dictionaryHash [113]) [113]) :=
  ⟨by decide,
    other_key_unaffected 2147483647 twoCollidingKeys [97] [113] (Something.integer 7)
      (Reachable.set _ _ (Reachable.set _ _ (Reachable.init zeroMemory))) (by decide)⟩

theorem dictionaryResize_doubles (maxThreshold : Nat) (dict : EmojicodeDictionary)
    (bucko : List (List EmojicodeDictionaryNode)) (hb : dict.buckets = some bucko)
    (hwf : WellFormed bucko dict.bucketsCounter dict.size)
    (hlt : dict.bucketsCounter < 2 ^ 30) :
    (dictionaryResize maxThreshold dict).bucketsCounter = 2 * dict.bucketsCounter := by
  obtain ⟨m, _, _, hcap⟩ := hwf.pow
  have hm : m < 30 := by
    rw [hcap] at hlt
    exact (Nat.pow_lt_pow_iff_right (by norm_num : 1 < 2)).1 hlt
  obtain ⟨thr, hr⟩ := dictionaryResize_double maxThreshold dict bucko m hb hcap hm
  rw [hr, hcap, Nat.pow_succ]
  show 2 ^ m * 2 = 2 * 2 ^ m
  omega

theorem putValPrepare_fresh (maxThreshold : Nat) (dict : EmojicodeDictionary) (h : Inv dict)
    (hb : dict.buckets = none) :
    putValPrepare maxThreshold dict
      = { buckets := some (List.replicate 16 []), bucketsCounter := 16, size := dict.size,
          nextThreshold := 12 } := by
  have hi := h
  unfold Inv at hi
  rw [hb] at hi
  have hp : putValPrepare maxThreshold dict = dictionaryResize maxThreshold dict := by
    simp [putValPrepare, hb]
  rw [hp, dictionaryResize_fresh maxThreshold dict hb hi.2]

/-- C7: in a reachable dictionary with `0 < bucketsCounter < 2^30`, a set that
reaches the last statement of `dictionaryPutVal` with the incremented `size`
above `nextThreshold` doubles `bucketsCounter`, and every key that was found
before the set is found with the same value afterwards. -/
theorem set_exceeding_threshold_doubles (maxThreshold : Nat) (dict : EmojicodeDictionary)
    (key : EmojicodeString) (value : Something) (hreach : Reachable maxThreshold dict)
    (_hpos : 0 < dict.bucketsCounter) (hlt : dict.bucketsCounter < 2 ^ 30)
    (hexceeds : putValExceeds maxThreshold dict key value = true) :
    (dictionarySet maxThreshold dict key value).bucketsCounter = 2 * dict.bucketsCounter
      ∧ ∀ key2 node, dictionaryGetNode dict (dictionaryHash key2) key2 = some node →
          dictionaryGetNode (dictionarySet maxThreshold dict key value) (dictionaryHash key2) key2
              = some node
            ∧ bridgeDictionaryGet (dictionarySet maxThreshold dict key value) key2
              = node.value := by
  have hinv := reachable_inv maxThreshold dict hreach
  obtain ⟨dict2, early, bucko2, heq, hb2, hcap2, hthr2, hsize, hwf, hne, _, _, hbug⟩ :=
    putValInsert_spec maxThreshold dict key value hinv
  unfold putValExceeds at hexceeds
  simp only [heq, Bool.and_eq_true, Bool.not_eq_true', decide_eq_true_eq] at hexceeds
  obtain ⟨hearly, hgt⟩ := hexceeds
  subst hearly
  simp only [Bool.false_eq_true, if_false] at hwf
  have hprep : putValPrepare maxThreshold dict = dict := by
    cases hb : dict.buckets with
    | none =>
      have hf := putValPrepare_fresh maxThreshold dict hinv hb
      rw [hf] at hthr2
      have hi := hinv
      unfold Inv at hi
      rw [hb] at hi
      rw [hsize, hi.1, hthr2] at hgt
      simp at hgt
    | some b =>
      obtain ⟨_, _, _, _, _, hsame⟩ := putValPrepare_spec maxThreshold dict hinv
      exact hsame (by rw [hb]; simp)
  rw [hprep] at hcap2
  have hinv3 : Inv { dict2 with size := dict2.size + 1 } :=
    inv_of_wellFormed _ bucko2 hb2 (by rw [hsize]; exact hwf)
  have hset : dictionarySet maxThreshold dict key value
      = dictionaryResize maxThreshold { dict2 with size := dict2.size + 1 } := by
    unfold dictionarySet dictionaryPutVal
    simp only [heq, Bool.false_eq_true, if_false]
    unfold putValGrow
    simp only
    rw [if_pos hgt]
  refine ⟨?_, ?_⟩
  · have hdbl := dictionaryResize_doubles maxThreshold { dict2 with size := dict2.size + 1 }
      bucko2 hb2 (by show WellFormed bucko2 dict2.bucketsCounter (dict2.size + 1)
                     rw [hsize]; exact hwf)
      (by show dict2.bucketsCounter < 2 ^ 30; rw [hcap2]; exact hlt)
    rw [hset, hdbl]
    show 2 * dict2.bucketsCounter = _
    rw [hcap2]
  · intro key2 node hfound
    have hlook : dictionaryGetNode (dictionarySet maxThreshold dict key value)
        (dictionaryHash key2) key2 = some node := by
      rw [hset, dictionaryResize_lookup _ _ hinv3]
      show dictionaryGetNode dict2 (dictionaryHash key2) key2 = some node
      by_cases hk : key2 = key
      · subst hk
        rw [hbug rfl (by rw [hfound]; simp)]
        exact hfound
      · rw [hne _ _ hk]
        exact hfound
    exact ⟨hlook, bridgeDictionaryGet_of_some _ _ _ hlook⟩

theorem set_exceeding_threshold_doubles_witness :
    0 < (setAll 2147483647 (dictionaryInit zeroMemory) (letterEntries 12)).bucketsCounter
    ∧ (setAll 2147483647 (dictionaryInit zeroMemory) (letterEntries 12)).bucketsCounter < 2 ^ 30
    ∧ putValExceeds 2147483647 (setAll 2147483647 (dictionaryInit zeroMemory) (letterEntries 12))
        [109] (Something.integer 13) = true
    ∧ ((dictionarySet 2147483647 (setAll 2147483647 (dictionaryInit zeroMemory) (letterEntries 12))
          [109] (Something.integer 13)).bucketsCounter
        = 2 * (setAll 2147483647 (dictionaryInit zeroMemory) (letterEntries 12)).bucketsCounter
      ∧ ∀ key2 node,
          dictionaryGetNode (setAll 2147483647 (dictionaryInit zeroMemory) (letterEntries 12))
            (dictionaryHash key2) key2 = some node →
          dictionaryGetNode
              (dictionarySet 2147483647
                (setAll 2147483647 (dictionaryInit zeroMemory) (letterEntries 12))
                [109] (Something.integer 13)) (dictionaryHash key2) key2 = some node
            ∧ bridgeDictionaryGet
              (dictionarySet 2147483647
                (setAll 2147483647 (dictionaryInit zeroMemory) (letterEntries 12))
                [109] (Something.integer 13)) key2 = node.value) :=
  ⟨by set_option maxRecDepth 1000000 in decide,
    by set_option maxRecDepth 1000000 in decide,
    by set_option maxRecDepth 1000000 in decide,
    set_exceeding_threshold_doubles 2147483647 _ [109] (Something.integer 13)
      (reachable_setAll _ _ _ (Reachable.init zeroMemory))
      (by set_option maxRecDepth 1000000 in decide)
      (by set_option maxRecDepth 1000000 in decide)
      (by set_option maxRecDepth 1000000 in decide)⟩

/-- The capacity and the threshold after a set of a key that is not in the
dictionary. -/
theorem dictionarySet_absent_shape (maxThreshold : Nat) (dict : EmojicodeDictionary)
    (key : EmojicodeString) (value : Something) (h : Inv dict)
    (habs : dictionaryGetNode dict (dictionaryHash key) key = none) :
    (dict.size + 1 ≤ (putValPrepare maxThreshold dict).nextThreshold →
        (dictionarySet maxThreshold dict key value).bucketsCounter
            = (putValPrepare maxThreshold dict).bucketsCounter
          ∧ (dictionarySet maxThreshold dict key value).nextThreshold
            = (putValPrepare maxThreshold dict).nextThreshold
          ∧ (dictionarySet maxThreshold dict key value).buckets ≠ none)
      ∧ ((putValPrepare maxThreshold dict).nextThreshold < dict.size + 1 →
          (putValPrepare maxThreshold dict).bucketsCounter < 2 ^ 30 →
          (dictionarySet maxThreshold dict key value).bucketsCounter
            = 2 * (putValPrepare maxThreshold dict).bucketsCounter) := by
  obtain ⟨dict2, early, bucko2, heq, hb2, hcap2, hthr2, hsize, hwf, _, hearly, _, _⟩ :=
    putValInsert_spec maxThreshold dict key value h
  cases early with
  | true => exact absurd habs (hearly rfl)
  | false =>
    simp only [Bool.false_eq_true, if_false] at hwf
    have hset : dictionarySet maxThreshold dict key value = putValGrow maxThreshold dict2 := by
      unfold dictionarySet dictionaryPutVal
      simp only [heq, Bool.false_eq_true, if_false]
    rw [hset, ← hcap2, ← hthr2, ← hsize]
    unfold putValGrow
    simp only
    refine ⟨fun hle => ?_, fun hgt hlt => ?_⟩
    · rw [if_neg (by omega)]
      exact ⟨rfl, rfl, by rw [hb2]; simp⟩
    · rw [if_pos (by omega)]
      exact dictionaryResize_doubles maxThreshold { dict2 with size := dict2.size + 1 } bucko2 hb2
        (by show WellFormed bucko2 dict2.bucketsCounter (dict2.size + 1)
            rw [hsize]; exact hwf) hlt

theorem putValPrepare_of_buckets (maxThreshold : Nat) (dict : EmojicodeDictionary) (h : Inv dict)
    (hb : dict.buckets ≠ none) : putValPrepare maxThreshold dict = dict := by
  obtain ⟨_, _, _, _, _, hsame⟩ := putValPrepare_spec maxThreshold dict h
  exact hsame hb

/-- While the sets of new keys stay within the threshold 12 of a 16-bucket
dictionary, the capacity and the threshold stay. -/
theorem setAll_within_threshold (maxThreshold : Nat)
    (entries : List (EmojicodeString × Something)) (dict : EmojicodeDictionary) (h : Inv dict)
    (hb : dict.buckets ≠ none) (hcap : dict.bucketsCounter = 16) (hthr : dict.nextThreshold = 12)
    (hnd : (entries.map Prod.fst).Nodup)
    (habs : ∀ kv ∈ entries, dictionaryGetNode dict (dictionaryHash kv.1) kv.1 = none)
    (hle : dict.size + entries.length ≤ 12) :
    (setAll maxThreshold dict entries).bucketsCounter = 16
      ∧ (setAll maxThreshold dict entries).nextThreshold = 12
      ∧ (setAll maxThreshold dict entries).buckets ≠ none := by
  induction entries generalizing dict with
  | nil => exact ⟨hcap, hthr, hb⟩
  | cons kv rest ih =>
    rw [List.map_cons, List.nodup_cons] at hnd
    rw [List.length_cons] at hle
    have habs1 := habs kv (List.mem_cons_self _ _)
    have hshape := (dictionarySet_absent_shape maxThreshold dict kv.1 kv.2 h habs1).1
    rw [putValPrepare_of_buckets maxThreshold dict h hb, hthr, hcap] at hshape
    obtain ⟨c1, c2, c3⟩ := hshape (by omega)
    have hsz := (dictionarySet_absent maxThreshold dict kv.1 kv.2 h habs1).2
    apply ih (dictionarySet maxThreshold dict kv.1 kv.2)
      (dictionarySet_inv maxThreshold dict kv.1 kv.2 h) c3 c1 c2 hnd.2
    · intro x hx
      have hne : x.1 ≠ kv.1 := by
        intro he
        apply hnd.1
        rw [← he]
        exact List.mem_map_of_mem _ hx
      rw [dictionarySet_lookup_ne maxThreshold dict kv.1 kv.2 h _ _ hne]
      exact habs x (List.mem_cons_of_mem _ hx)
    · rw [hsz]
      omega

/-- The first sets on a new dictionary: 16 buckets with threshold 12 for one
to twelve distinct keys. -/
theorem setAll_fresh_small (maxThreshold : Nat) (memory : EmojicodeDictionary)
    (entries : List (EmojicodeString × Something)) (hnd : (entries.map Prod.fst).Nodup)
    (h1 : 1 ≤ entries.length) (h12 : entries.length ≤ 12) :
    (setAll maxThreshold (dictionaryInit memory) entries).bucketsCounter = 16
      ∧ (setAll maxThreshold (dictionaryInit memory) entries).nextThreshold = 12
      ∧ (setAll maxThreshold (dictionaryInit memory) entries).buckets ≠ none := by
  cases entries with
  | nil => simp at h1
  | cons kv rest =>
    rw [List.map_cons, List.nodup_cons] at hnd
    rw [List.length_cons] at h12
    have hinv := dictionaryInit_inv memory
    have habs1 : dictionaryGetNode (dictionaryInit memory) (dictionaryHash kv.1) kv.1 = none :=
      dictionaryGetNode_none_buckets _ _ _ rfl
    have hshape := (dictionarySet_absent_shape maxThreshold (dictionaryInit memory) kv.1 kv.2
      hinv habs1).1
    rw [putValPrepare_fresh maxThreshold (dictionaryInit memory) hinv rfl] at hshape
    obtain ⟨c1, c2, c3⟩ := hshape (by show 0 + 1 ≤ 12; omega)
    have hsz := (dictionarySet_absent maxThreshold (dictionaryInit memory) kv.1 kv.2
      hinv habs1).2
    apply setAll_within_threshold maxThreshold rest
      (dictionarySet maxThreshold (dictionaryInit memory) kv.1 kv.2)
      (dictionarySet_inv maxThreshold _ kv.1 kv.2 hinv) c3 c1 c2 hnd.2
    · intro x hx
      have hne : x.1 ≠ kv.1 := by
        intro he
        apply hnd.1
        rw [← he]
        exact List.mem_map_of_mem _ hx
      rw [dictionarySet_lookup_ne maxThreshold _ kv.1 kv.2 hinv _ _ hne]
      exact dictionaryGetNode_none_buckets _ _ _ rfl
    · rw [hsz]
      show 0 + 1 + rest.length ≤ 12
      omega

/-- C8: the sets of `n` pairwise distinct keys on a freshly initialised
dictionary give `size = n`; for `1 ≤ n ≤ 12` with `bucketsCounter = 16` and
`nextThreshold = 12`, for `n = 13` with `bucketsCounter = 32`. -/
theorem insert_distinct_keys_capacity (maxThreshold : Nat) (memory : EmojicodeDictionary)
    (entries : List (EmojicodeString × Something))
    (hdistinct : (entries.map Prod.fst).Nodup) :
    (setAll maxThreshold (dictionaryInit memory) entries).size = entries.length
      ∧ (1 ≤ entries.length → entries.length ≤ 12 →
          (setAll maxThreshold (dictionaryInit memory) entries).bucketsCounter = 16
            ∧ (setAll maxThreshold (dictionaryInit memory) entries).nextThreshold = 12)
      ∧ (entries.length = 13 →
          (setAll maxThreshold (dictionaryInit memory) entries).bucketsCounter = 32) := by
  have hinit : ∀ kv ∈ entries,
      dictionaryGetNode (dictionaryInit memory) (dictionaryHash kv.1) kv.1 = none :=
    fun kv _ => dictionaryGetNode_none_buckets _ _ _ rfl
  obtain ⟨_, hsize, _, _⟩ := setAll_spec maxThreshold entries (dictionaryInit memory)
    (dictionaryInit_inv memory) hdistinct hinit
  refine ⟨by rw [hsize]; show 0 + entries.length = entries.length; omega, ?_, ?_⟩
  · intro h1 h12
    obtain ⟨c1, c2, _⟩ := setAll_fresh_small maxThreshold memory entries hdistinct h1 h12
    exact ⟨c1, c2⟩
  · intro h13
    obtain ⟨front, last, hsplit⟩ : ∃ front last, entries = front ++ [last] := by
      rcases List.eq_nil_or_concat entries with hnil | ⟨front, last, hc⟩
      · rw [hnil] at h13
        simp at h13
      · exact ⟨front, last, by rw [hc]; simp⟩
    subst hsplit
    rw [List.length_append, List.length_singleton] at h13
    rw [List.map_append, List.nodup_append] at hdistinct
    obtain ⟨hndf, _, hdisj⟩ := hdistinct
    obtain ⟨finv, fsize, _, fother⟩ := setAll_spec maxThreshold front (dictionaryInit memory)
      (dictionaryInit_inv memory) hndf (fun kv _ => dictionaryGetNode_none_buckets _ _ _ rfl)
    obtain ⟨c1, c2, c3⟩ := setAll_fresh_small maxThreshold memory front hndf
      (by omega) (by omega)
    have hlast : dictionaryGetNode (setAll maxThreshold (dictionaryInit memory) front)
        (dictionaryHash last.1) last.1 = none := by
      rw [fother _ _ (fun hmem => hdisj hmem (by simp))]
      exact dictionaryGetNode_none_buckets _ _ _ rfl
    have hshape := (dictionarySet_absent_shape maxThreshold _ last.1 last.2 finv hlast).2
    rw [putValPrepare_of_buckets maxThreshold _ finv c3, c1, c2, fsize] at hshape
    rw [setAll_append]
    show (dictionarySet maxThreshold (setAll maxThreshold (dictionaryInit memory) front)
      last.1 last.2).bucketsCounter = 32
    rw [hshape (by show 12 < 0 + front.length + 1; omega) (by norm_num)]

theorem insert_distinct_keys_capacity_witness :
    ((letterEntries 13).map Prod.fst).Nodup
    ∧ ((setAll 2147483647 (dictionaryInit zeroMemory) (letterEntries 13)).size
        = (letterEntries 13).length
      ∧ (1 ≤ (letterEntries 13).length → (letterEntries 13).length ≤ 12 →
          (setAll 2147483647 (dictionaryInit zeroMemory) (letterEntries 13)).bucketsCounter = 16
            ∧ (setAll 2147483647 (dictionaryInit zeroMemory) (letterEntries 13)).nextThreshold
              = 12)
      ∧ ((letterEntries 13).length = 13 →
          (setAll 2147483647 (dictionaryInit zeroMemory) (letterEntries 13)).bucketsCounter
            = 32)) :=
  ⟨by decide,
    insert_distinct_keys_capacity 2147483647 zeroMemory (letterEntries 13) (by decide)⟩

/-- C9: in a reachable dictionary, after `dictionaryClear` the `size` is zero
and `get(k)` returns `NOTHINGNESS` for every key, `bucketsCounter` and
`nextThreshold` are as before and the bucket array is still there when it was
there; a following `set(k, v)` makes `get(k)` return `v`. -/
theorem clear_then_set (maxThreshold : Nat) (dict : EmojicodeDictionary)
    (hreach : Reachable maxThreshold dict) :
    (dictionaryClear dict).size = 0
      ∧ (∀ key, bridgeDictionaryGet (dictionaryClear dict) key = Something.NOTHINGNESS)
      ∧ (dictionaryClear dict).bucketsCounter = dict.bucketsCounter
      ∧ (dictionaryClear dict).nextThreshold = dict.nextThreshold
      ∧ ((dictionaryClear dict).buckets = none ↔ dict.buckets = none)
      ∧ (dictionaryClear dict).buckets.map List.length = dict.buckets.map List.length
      ∧ ∀ key value,
          bridgeDictionaryGet (dictionarySet maxThreshold (dictionaryClear dict) key value) key
            = value := by
  obtain ⟨cinv, csize, ccap, cthr, cbuck, cget⟩ :=
    dictionaryClear_spec dict (reachable_inv maxThreshold dict hreach)
  refine ⟨csize, fun key => bridgeDictionaryGet_of_none _ _ (cget _ key), ccap, cthr, cbuck,
    ?_, ?_⟩
  · cases hb : dict.buckets with
    | none => rw [dictionaryClear_none dict hb, hb]
    | some bucko =>
      by_cases hs : dict.size > 0
      · rw [dictionaryClear_pos dict bucko hb hs]
        simp [length_clearLoop]
      · rw [dictionaryClear_zero dict (by omega), hb]
  · intro key value
    rw [bridgeDictionaryGet_of_some _ _ _
      (dictionarySet_absent maxThreshold _ key value cinv (cget _ key)).1]
    rfl

theorem clear_then_set_witness :
    (dictionaryClear twoCollidingKeys).size = 0
      ∧ (∀ key, bridgeDictionaryGet (dictionaryClear twoCollidingKeys) key
          = Something.NOTHINGNESS)
      ∧ (dictionaryClear twoCollidingKeys).bucketsCounter = twoCollidingKeys.bucketsCounter
      ∧ (dictionaryClear twoCollidingKeys).nextThreshold = twoCollidingKeys.nextThreshold
      ∧ ((dictionaryClear twoCollidingKeys).buckets = none ↔ twoCollidingKeys.buckets = none)
      ∧ (dictionaryClear twoCollidingKeys).buckets.map List.length
          = twoCollidingKeys.buckets.map List.length
      ∧ ∀ key value,
          bridgeDictionaryGet (dictionarySet 2147483647 (dictionaryClear twoCollidingKeys)
            key value) key = value :=
  clear_then_set 2147483647 twoCollidingKeys
    (Reachable.set _ _ (Reachable.set _ _ (Reachable.init zeroMemory)))

/-- C10 (fails on the code): `fnv64` should be the FNV-1a hash of every byte
sequence, each byte taken with its unsigned value. Where `char` is signed, the
single byte `0x80` reaches `hash ^ k[i]` as `-128`, which sets the upper 56
bits, and `fnv64` returns `0x509C0CB379FDEC5F` where FNV-1a is
`0xAF643D4C8602915F`. -/
theorem fnv64_signed_char_high_byte :
    fnv64 [charValue true 128] = 0x509C0CB379FDEC5F
      ∧ fnv1a64 [128] = 0xAF643D4C8602915F
      ∧ fnv64 [charValue true 128] ≠ fnv1a64 [128] := by
  decide

/-! ## Claims on lookups and on the invariants -/

theorem mem_dictionaryNodes (dict : EmojicodeDictionary) (e : EmojicodeDictionaryNode)
    (h : e ∈ dictionaryNodes dict) :
    ∃ bucko i, dict.buckets = some bucko ∧ e ∈ bucko.getD i [] := by
  unfold dictionaryNodes at h
  cases hb : dict.buckets with
  | none => rw [hb] at h; simp at h
  | some bucko =>
    rw [hb] at h
    obtain ⟨chain, hc, he⟩ := List.mem_flatten.1 h
    obtain ⟨i, hi, hget⟩ := List.getElem_of_mem hc
    refine ⟨bucko, i, rfl, ?_⟩
    rw [List.getD_eq_getElem bucko [] hi, hget]
    exact he

theorem getD_mem_dictionaryNodes (dict : EmojicodeDictionary)
    (bucko : List (List EmojicodeDictionaryNode)) (hb : dict.buckets = some bucko) (i : Nat)
    (e : EmojicodeDictionaryNode) (he : e ∈ bucko.getD i []) : e ∈ dictionaryNodes dict := by
  unfold dictionaryNodes
  rw [hb]
  have hi : i < bucko.length := lt_length_of_getD_ne_nil bucko i (List.ne_nil_of_mem he)
  rw [List.getD_eq_getElem bucko [] hi] at he
  exact List.mem_flatten.2 ⟨bucko[i], List.getElem_mem hi, he⟩

/-- C11: a lookup in a reachable dictionary always returns: `get(k)` is
`NOTHINGNESS` (no node is found) when no node of the dictionary has a key
equal to `k`, with or without a bucket array; and when a node has a key equal
to `k`, that node is the one found, its hash is the hash of `k` and `get(k)`
is its value. -/
theorem lookup_never_fails (maxThreshold : Nat) (dict : EmojicodeDictionary)
    (key : EmojicodeString) (hreach : Reachable maxThreshold dict) :
    ((∀ e ∈ dictionaryNodes dict, stringEqual key e.key = false) →
        dictionaryGetNode dict (dictionaryHash key) key = none
          ∧ bridgeDictionaryGet dict key = Something.NOTHINGNESS)
      ∧ (∀ e ∈ dictionaryNodes dict, stringEqual key e.key = true →
          dictionaryGetNode dict (dictionaryHash key) key = some e
            ∧ e.hash = dictionaryHash key
            ∧ bridgeDictionaryGet dict key = e.value) := by
  have hinv := reachable_inv maxThreshold dict hreach
  refine ⟨fun hno => ?_, fun e he hek => ?_⟩
  · have hnone : dictionaryGetNode dict (dictionaryHash key) key = none := by
      cases hb : dict.buckets with
      | none => exact dictionaryGetNode_none_buckets dict _ _ hb
      | some bucko =>
        rw [dictionaryGetNode_eq, hb]
        simp only
        split
        · apply getNodeLoop_eq_none_of_keys
          intro e he hk
          have := hno e (getD_mem_dictionaryNodes dict bucko hb _ e he)
          rw [hk] at this
          simp [stringEqual] at this
        · rfl
    exact ⟨hnone, bridgeDictionaryGet_of_none dict key hnone⟩
  · obtain ⟨bucko, i, hb, hmem⟩ := mem_dictionaryNodes dict e he
    have hwf : WellFormed bucko dict.bucketsCounter dict.size := by
      unfold Inv at hinv
      rw [hb] at hinv
      exact hinv
    have hkey : e.key = key := by
      simp only [stringEqual, beq_iff_eq] at hek
      exact hek.symm
    obtain ⟨hhash, hidx⟩ := hwf.placed i e hmem
    rw [hkey] at hhash
    have hpos : 0 < dict.bucketsCounter := by
      obtain ⟨m, _, _, hcap⟩ := hwf.pow
      rw [hcap]
      exact Nat.two_pow_pos m
    have hfound : dictionaryGetNode dict (dictionaryHash key) key = some e := by
      rw [dictionaryGetNode_some_buckets dict _ key bucko hb hpos, ← hhash, hidx]
      cases hg : getNodeLoop e.hash key (bucko.getD i []) with
      | none =>
        have := getNodeLoop_none _ _ _ hg e hmem
        rw [hkey, keyHashEqual_self] at this
        cases this
      | some node =>
        obtain ⟨hnmem, _, hnkey⟩ := getNodeLoop_some _ _ _ node hg
        rw [List.inj_on_of_nodup_map (hwf.nodup i) hnmem hmem (by rw [hnkey, hkey])]
    exact ⟨hfound, hhash, bridgeDictionaryGet_of_some dict key e hfound⟩

theorem lookup_never_fails_witness :
    ((∀ e ∈ dictionaryNodes twoCollidingKeys, stringEqual [113] e.key = false) →
        dictionaryGetNode twoCollidingKeys (dictionaryHash [113]) [113] = none
          ∧ bridgeDictionaryGet twoCollidingKeys [113] = Something.NOTHINGNESS)
      ∧ (∀ e ∈ dictionaryNodes twoCollidingKeys, stringEqual [113] e.key = true →
          dictionaryGetNode twoCollidingKeys (dictionaryHash [113]) [113] = some e
            ∧ e.hash = dictionaryHash [113]
            ∧ bridgeDictionaryGet twoCollidingKeys [113] = e.value) :=
  lookup_never_fails 2147483647 twoCollidingKeys [113]
    (Reachable.set _ _ (Reachable.set _ _ (Reachable.init zeroMemory)))

/-- In a reachable dictionary `size` is at least the number of nodes. -/
theorem reachable_nodeCount_le_size (maxThreshold : Nat) (dict : EmojicodeDictionary)
    (hreach : Reachable maxThreshold dict) :
    (dictionaryNodes dict).length ≤ dict.size := by
  have hinv := reachable_inv maxThreshold dict hreach
  unfold Inv at hinv
  unfold dictionaryNodes
  cases hb : dict.buckets with
  | none => simp
  | some bucko =>
    rw [hb] at hinv
    have := hinv.count_le
    simp only [nodeCount] at this
    simpa [List.length_flatten] using this

/-- C12 (fails on the code): `size` should be the number of nodes in all
chains. After `set("a", 1); set("q", 2); set("q", 3)` on a new dictionary,
with "a" and "q" in one bucket, the chains hold two nodes and `size` is 3:
the third set finds "q" behind the head of its chain, links nothing and still
increments `size`. -/
theorem size_exceeds_node_count :
    (dictionaryNodes (dictionarySet 2147483647 twoCollidingKeys [113] (Something.integer 3))).length
        = 2
      ∧ (dictionarySet 2147483647 twoCollidingKeys [113] (Something.integer 3)).size = 3 := by
  set_option maxRecDepth 100000 in decide

/-- C13: in a reachable dictionary the number of buckets in use (zero while
`buckets` is `NULL`, else `bucketsCounter`) is zero or a power of two, and at
most `2^30`. -/
theorem bucket_count_power_of_two (maxThreshold : Nat) (dict : EmojicodeDictionary)
    (hreach : Reachable maxThreshold dict) :
    (effectiveBuckets dict = 0 ∨ ∃ m, effectiveBuckets dict = 2 ^ m)
      ∧ effectiveBuckets dict ≤ 2 ^ 30 := by
  have hinv := reachable_inv maxThreshold dict hreach
  unfold Inv at hinv
  unfold effectiveBuckets
  cases hb : dict.buckets with
  | none => exact ⟨Or.inl rfl, Nat.zero_le _⟩
  | some bucko =>
    rw [hb] at hinv
    obtain ⟨m, _, hm, hcap⟩ := hinv.pow
    refine ⟨Or.inr ⟨m, hcap⟩, ?_⟩
    show dict.bucketsCounter ≤ 2 ^ 30
    rw [hcap]
    exact Nat.pow_le_pow_right (by norm_num) hm

theorem bucket_count_power_of_two_witness :
    (effectiveBuckets twoCollidingKeys = 0 ∨ ∃ m, effectiveBuckets twoCollidingKeys = 2 ^ m)
      ∧ effectiveBuckets twoCollidingKeys ≤ 2 ^ 30 :=
  bucket_count_power_of_two 2147483647 twoCollidingKeys
    (Reachable.set _ _ (Reachable.set _ _ (Reachable.init zeroMemory)))

end Emojicode

namespace EmojicodeCompiler

/-! ## The ids of the scoper -/

theorem stacked_lt_base (scopes : List Scope) (h : Stacked scopes) :
    ∀ scope ∈ scopes, ∀ v ∈ scope.map_, v.id < scopeBase scopes := by
  induction scopes with
  | nil => intro scope hs; simp at hs
  | cons front rest ih =>
    obtain ⟨_, hb, hle, hrest⟩ := h
    intro scope hs v hv
    rcases List.mem_cons.1 hs with he | hr
    · subst he
      exact (hb v hv).2
    · have := ih hrest scope hr v hv
      show v.id < front.maxVariableId_
      omega

theorem stacked_nodup (scopes : List Scope) (h : Stacked scopes) :
    ((scopes.flatMap fun scope => scope.map_).map fun v => v.id).Nodup := by
  induction scopes with
  | nil => simp
  | cons front rest ih =>
    obtain ⟨hnd, hb, _, hrest⟩ := h
    rw [List.flatMap_cons, List.map_append, List.nodup_append]
    refine ⟨hnd, ih hrest, ?_⟩
    intro a ha hb2
    obtain ⟨v, hv, hva⟩ := List.mem_map.1 ha
    obtain ⟨w, hw, hwa⟩ := List.mem_map.1 hb2
    obtain ⟨scope, hs, hws⟩ := List.mem_flatMap.1 hw
    have h1 := (hb v hv).1
    have h2 := stacked_lt_base rest hrest scope hs w hws
    omega

theorem stacked_declare (scope : Scope) (rest : List Scope) (name : Identifier) (frozen : Bool)
    (h : Stacked (scope :: rest)) : Stacked (scope.declareVariable name frozen :: rest) := by
  obtain ⟨hnd, hb, hle, hrest⟩ := h
  refine ⟨?_, ?_, ?_, hrest⟩
  · simp only [Scope.declareVariable, List.map_append, List.map_cons, List.map_nil]
    rw [List.nodup_append]
    refine ⟨hnd, by simp, ?_⟩
    intro a ha hb2
    obtain ⟨v, hv, hva⟩ := List.mem_map.1 ha
    have := (hb v hv).2
    simp at hb2
    omega
  · intro v hv
    simp only [Scope.declareVariable, List.mem_append, List.mem_singleton] at hv ⊢
    rcases hv with hv | hv
    · have := hb v hv
      omega
    · subst hv
      simp only
      omega
  · show scopeBase rest ≤ scope.maxVariableId_ + 1
    omega

theorem stacked_declareArguments (arguments : List Identifier) (scope : Scope)
    (rest : List Scope) (h : Stacked (scope :: rest)) :
    Stacked (declareArguments scope arguments :: rest) := by
  induction arguments generalizing scope with
  | nil => exact h
  | cons name more ih => exact ih _ (stacked_declare scope rest name true h)

theorem stacked_push (scoper : SemanticScoper) (h : Stacked scoper.scopes_) :
    Stacked scoper.pushScopeInternal.scopes_ := by
  unfold SemanticScoper.pushScopeInternal
  simp only
  refine ⟨by simp [Scope.seeded], by simp [Scope.seeded], ?_, h⟩
  cases scoper.scopes_ with
  | nil => exact Nat.zero_le _
  | cons front rest => exact Nat.le_refl _

theorem popScope_some (scoper popped : SemanticScoper) (h : scoper.popScope = some popped) :
    ∃ scope rest, scoper.scopes_ = scope :: rest ∧ popped.scopes_ = rest := by
  unfold SemanticScoper.popScope SemanticScoper.updateMaxVariableIdForPopping at h
  cases hs : scoper.scopes_ with
  | nil => rw [hs] at h; cases h
  | cons scope rest =>
    rw [hs] at h
    refine ⟨scope, rest, rfl, ?_⟩
    by_cases hgt : scope.maxVariableId_ > scoper.maxVariableId_
    · simp only [hgt, if_true, Option.some.injEq] at h
      rw [← h]
      rfl
    · simp only [hgt, if_false, Option.some.injEq] at h
      rw [← h, hs]
      rfl

theorem stacked_applyOperation (state next : SemanticScoper × List Variable)
    (operation : ScoperOperation) (h : Stacked state.1.scopes_)
    (hstep : applyOperation state operation = some next) : Stacked next.1.scopes_ := by
  cases operation with
  | pushScope =>
    simp only [applyOperation, Option.some.injEq] at hstep
    rw [← hstep]
    exact stacked_push state.1 h
  | pushArgumentsScope arguments =>
    simp only [applyOperation, Option.some.injEq] at hstep
    rw [← hstep]
    have hp := stacked_push state.1 h
    unfold SemanticScoper.pushArgumentsScope
    cases hs : state.1.pushScopeInternal.scopes_ with
    | nil => rw [hs] at hp; simp only [hs]; exact hp
    | cons scope rest =>
      rw [hs] at hp
      exact stacked_declareArguments arguments scope rest hp
  | declareVariable name =>
    simp only [applyOperation] at hstep
    cases hs : state.1.scopes_ with
    | nil => simp [SemanticScoper.declareVariable, hs] at hstep
    | cons scope rest =>
      simp only [SemanticScoper.declareVariable, hs, Option.some.injEq] at hstep
      rw [← hstep]
      rw [hs] at h
      exact stacked_declare scope rest name false h
  | popScope =>
    simp only [applyOperation] at hstep
    cases hp : state.1.popScope with
    | none => rw [hp] at hstep; cases hstep
    | some scoper =>
      rw [hp] at hstep
      simp only [Option.some.injEq] at hstep
      rw [← hstep]
      obtain ⟨scope, rest, hs, hr⟩ := popScope_some state.1 scoper hp
      rw [hs] at h
      show Stacked scoper.scopes_
      rw [hr]
      exact h.2.2.2

theorem stacked_applyOperations (operations : List ScoperOperation)
    (state final : SemanticScoper × List Variable) (h : Stacked state.1.scopes_)
    (hrun : applyOperations operations state = some final) : Stacked final.1.scopes_ := by
  induction operations generalizing state with
  | nil =>
    simp only [applyOperations, Option.some.injEq] at hrun
    rw [← hrun]
    exact h
  | cons operation rest ih =>
    simp only [applyOperations] at hrun
    cases hstep : applyOperation state operation with
    | none => rw [hstep] at hrun; cases hrun
    | some next =>
      rw [hstep] at hrun
      exact ih next (stacked_applyOperation state next operation h hstep) hrun

/-- C20 (as the claim states it, refuted): the calls `pushScope; pushScope;
declare a; popScope; declare b` on a new scoper give both variables the id 0:
the outer scope continues at its own `maxVariableId`, which the declarations
in the popped inner scope have not moved. -/
theorem ids_reused_after_pop :
    (applyOperations
        [ScoperOperation.pushScope, ScoperOperation.pushScope,
          ScoperOperation.declareVariable [97], ScoperOperation.popScope,
          ScoperOperation.declareVariable [98]]
        (SemanticScoper.create, [])).map (fun result => result.2.map fun v => (v.name, v.id))
      = some [([97], 0), ([98], 0)] := by
  decide

/-- C20 (amended): after every sequence of `pushScope`, `pushArgumentsScope`,
declarations in the current scope and `popScope` on a new scoper, the
variables of the scopes that are on the stack have pairwise distinct ids. -/
theorem live_variable_ids_distinct (operations : List ScoperOperation)
    (final : SemanticScoper × List Variable)
    (hrun : applyOperations operations (SemanticScoper.create, []) = some final) :
    ((liveVariables final.1).map fun v => v.id).Nodup :=
  stacked_nodup _
    (stacked_applyOperations operations (SemanticScoper.create, []) final trivial hrun)

theorem live_variable_ids_distinct_witness :
    applyOperations
        [ScoperOperation.pushArgumentsScope [[120], [121]], ScoperOperation.pushScope,
          ScoperOperation.declareVariable [97], ScoperOperation.popScope,
          ScoperOperation.declareVariable [98]]
        (SemanticScoper.create, [])
      = some exampleScoperRun
    ∧ ((liveVariables exampleScoperRun.1).map fun v => v.id).Nodup :=
  ⟨by decide,
    live_variable_ids_distinct
      [ScoperOperation.pushArgumentsScope [[120], [121]], ScoperOperation.pushScope,
        ScoperOperation.declareVariable [97], ScoperOperation.popScope,
        ScoperOperation.declareVariable [98]]
      exampleScoperRun (by decide)⟩

end EmojicodeCompiler

namespace EmojicodeCompiler

/-! ## Method lowering -/

/-- C19 (fails on the code): with a built-in tag the callee should be
evaluated once. For `IntegerNot`, `IntegerToDouble`, `BooleanNegate`, `Store`,
`Load` and `Release` it is; for `Multiprotocol` the case evaluates
`callee_->generate(fg)` a second time and does not use the first value, and
for any other tag the `switch` breaks and the general path behind the `if`
evaluates the callee again: two evaluations. -/
theorem builtin_callee_evaluations (node : ASTMethod) :
    (node.builtIn_ = BuiltInType.Multiprotocol → calleeEvaluations node.generate = 2)
      ∧ (∀ tag, node.builtIn_ = BuiltInType.other tag → calleeEvaluations node.generate = 2)
      ∧ (node.builtIn_ = BuiltInType.IntegerNot ∨ node.builtIn_ = BuiltInType.IntegerToDouble
          ∨ node.builtIn_ = BuiltInType.BooleanNegate ∨ node.builtIn_ = BuiltInType.Store
          ∨ node.builtIn_ = BuiltInType.Load ∨ node.builtIn_ = BuiltInType.Release →
          calleeEvaluations node.generate = 1) := by
  obtain ⟨builtIn, managed, byReference⟩ := node
  refine ⟨?_, ?_, ?_⟩
  · intro h
    simp only at h
    subst h
    rfl
  · intro tag h
    simp only at h
    subst h
    rfl
  · intro h
    simp only at h
    rcases h with h | h | h | h | h | h <;> subst h <;>
      cases managed <;> cases byReference <;> rfl

/-! ## The queue of the analyser -/

theorem analyseQueueLoop_spec (collaborators : Collaborators) (queue : List Function)
    (analyser : SemanticAnalyser) :
    analyseQueueLoop collaborators queue analyser
      = { analyser with
          analysed := analyser.analysed ++ queue
          errors := analyser.errors ++ queue.flatMap (recordedErrors collaborators)
          queue_ := [] } := by
  induction queue generalizing analyser with
  | nil => simp [analyseQueueLoop]
  | cons function rest ih =>
    rw [analyseQueueLoop, ih]
    cases hr : (collaborators.analyseFunction function).raised with
    | none => simp [recordedErrors, hr, List.flatMap_cons]
    | some ce => simp [recordedErrors, hr, List.flatMap_cons, SemanticAnalyser.error]

theorem enqueueFunction_foldl (functions : List Function) (analyser : SemanticAnalyser) :
    functions.foldl SemanticAnalyser.enqueueFunction analyser
      = { analyser with
          queue_ := analyser.queue_ ++ functions.filter fun f => !f.external } := by
  induction functions generalizing analyser with
  | nil => simp
  | cons f rest ih =>
    rw [List.foldl_cons, ih]
    cases he : f.external <;> simp [SemanticAnalyser.enqueueFunction, he]

/-- C18: `analyseQueue` analyses the functions of the queue once each, in the
order of the queue, also behind a function whose analysis raises a
`CompilerError`; the errors an analysis reports and the one it raises are
recorded in the diagnostics, in order; the queue is empty afterwards.
`enqueueFunction`, the one place that adds to the queue, adds the functions
that are not external, in order, and leaves the queue as it is for an
external one. -/
theorem analyseQueue_fifo (collaborators : Collaborators) (analyser : SemanticAnalyser)
    (functions : List Function) :
    (analyseQueue collaborators analyser).analysed = analyser.analysed ++ analyser.queue_
      ∧ (analyseQueue collaborators analyser).errors
          = analyser.errors ++ analyser.queue_.flatMap (recordedErrors collaborators)
      ∧ (analyseQueue collaborators analyser).queue_ = []
      ∧ (functions.foldl SemanticAnalyser.enqueueFunction analyser).queue_
          = analyser.queue_ ++ functions.filter (fun f => !f.external)
      ∧ (∀ f, f.external = true → (analyser.enqueueFunction f).queue_ = analyser.queue_)
      ∧ (analyseQueue collaborators
            (functions.foldl SemanticAnalyser.enqueueFunction emptyAnalyser)).analysed
          = functions.filter (fun f => !f.external) := by
  refine ⟨?_, ?_, ?_, ?_, ?_, ?_⟩
  · rw [analyseQueue, analyseQueueLoop_spec]
  · rw [analyseQueue, analyseQueueLoop_spec]
  · rw [analyseQueue, analyseQueueLoop_spec]
  · rw [enqueueFunction_foldl]
  · intro f hf
    simp [SemanticAnalyser.enqueueFunction, hf]
  · rw [analyseQueue, analyseQueueLoop_spec, enqueueFunction_foldl]
    simp [emptyAnalyser]

/-! ## The start flag -/

/-- C17: when the analysis of the definitions and of the queue has run,
`analyse(executable)` adds the error "No 🏁 block was found." at the position
of the package, once and behind the errors reported before, if `executable`
is true and the package has no start flag function; in every other case, so
for every library build, it adds nothing. -/
theorem start_flag_error (collaborators : Collaborators) (executable : Bool) (package : Package)
    (analyser : SemanticAnalyser) (before : Package × SemanticAnalyser)
    (hbefore : analyseDefinitions collaborators package analyser = some before) :
    before.1.hasStartFlagFunction = package.hasStartFlagFunction
      ∧ before.1.position = package.position
      ∧ ∃ result, analyse collaborators executable package analyser = some result
        ∧ result.1 = before.1
        ∧ (executable = true ∧ package.hasStartFlagFunction = false →
            result.2.errors = before.2.errors
              ++ [{ position := package.position, message := ErrorMessage.noStartFlagBlock }])
        ∧ (¬ (executable = true ∧ package.hasStartFlagFunction = false) → result.2 = before.2)
        ∧ (executable = false → result.2.errors = before.2.errors) := by
  have hpkg : before.1.hasStartFlagFunction = package.hasStartFlagFunction
      ∧ before.1.position = package.position := by
    unfold analyseDefinitions at hbefore
    simp only at hbefore
    split at hbefore
    · cases hbefore
    · split at hbefore
      · cases hbefore
      · simp only [Option.some.injEq] at hbefore
        rw [← hbefore]
        exact ⟨rfl, rfl⟩
  refine ⟨hpkg.1, hpkg.2, ?_⟩
  unfold analyse
  rw [hbefore]
  simp only
  by_cases hc : executable = true ∧ package.hasStartFlagFunction = false
  · have hif : (executable && !before.1.hasStartFlagFunction) = true := by
      rw [hpkg.1, hc.1, hc.2]
      rfl
    rw [if_pos hif]
    refine ⟨_, rfl, rfl, ?_, fun hn => absurd hc hn, ?_⟩
    · intro _
      simp only [SemanticAnalyser.error, hpkg.2]
    · intro he
      rw [he] at hc
      cases hc.1
  · have hif : ¬ ((executable && !before.1.hasStartFlagFunction) = true) := by
      rw [hpkg.1]
      intro h
      apply hc
      cases executable <;> cases hs : package.hasStartFlagFunction <;> simp_all
    rw [if_neg hif]
    exact ⟨_, rfl, rfl, fun h => absurd h hc, fun _ => rfl, fun _ => rfl⟩

theorem start_flag_error_witness :
    analyseDefinitions exampleCollaborators examplePackage emptyAnalyser
        = some (examplePackage,
            { emptyAnalyser with
              errors := [{ position := { line := 3, character := 1 },
                           message := ErrorMessage.raised [33] }]
              analysed := [exampleFunction [33] [] 1 3] })
    ∧ (examplePackage.hasStartFlagFunction = examplePackage.hasStartFlagFunction
      ∧ examplePackage.position = examplePackage.position
      ∧ ∃ result, analyse exampleCollaborators true examplePackage emptyAnalyser = some result
        ∧ result.1 = examplePackage
        ∧ (true = true ∧ examplePackage.hasStartFlagFunction = false →
            result.2.errors
              = [{ position := { line := 3, character := 1 },
                   message := ErrorMessage.raised [33] }]
                ++ [{ position := examplePackage.position,
                      message := ErrorMessage.noStartFlagBlock }])
        ∧ (¬ (true = true ∧ examplePackage.hasStartFlagFunction = false) →
            result.2
              = { emptyAnalyser with
                  errors := [{ position := { line := 3, character := 1 },
                               message := ErrorMessage.raised [33] }]
                  analysed := [exampleFunction [33] [] 1 3] })
        ∧ (true = false →
            result.2.errors
              = [{ position := { line := 3, character := 1 },
                   message := ErrorMessage.raised [33] }])) :=
  ⟨rfl,
    start_flag_error exampleCollaborators true examplePackage emptyAnalyser
      (examplePackage,
        { emptyAnalyser with
          errors := [{ position := { line := 3, character := 1 },
                       message := ErrorMessage.raised [33] }]
          analysed := [exampleFunction [33] [] 1 3] })
      rfl⟩

end EmojicodeCompiler

namespace EmojicodeCompiler

/-! ## Promises and protocols -/

/-- C16 (fails on the code): an implementation and a protocol method with
different argument counts should always give the error "Argument count does
not match.". For the implementation `f(x: 1) -> 0` of the method `f() -> 1`,
whose return types have different storage types, `enforcePromises` returns
`false` in front of `checkArgumentPromise` and reports nothing; for the
implementation `f(x: 1) -> 1`, whose return type has the same storage type,
the error is reported. -/
theorem argument_count_skipped_on_return_storage :
    enforcePromises exampleCollaborators (exampleFunction [102] [1] 0 11)
        (exampleFunction [102] [] 1 1) 9 (some 8) (some 9) emptyAnalyser
      = some (false, emptyAnalyser)
    ∧ enforcePromises exampleCollaborators (exampleFunction [102] [1] 1 11)
        (exampleFunction [102] [] 1 1) 9 (some 8) (some 9) emptyAnalyser
      = some (true,
          { emptyAnalyser with
            errors := [{ position := { line := 11, character := 1 },
                         message := ErrorMessage.argumentCountMismatch }] }) := by
  decide

theorem finalizeProtocolLoop_append (collaborators : Collaborators) (protocol : Protocol)
    (before after : List Function) (state : TypeDefinition × SemanticAnalyser) :
    finalizeProtocolLoop collaborators protocol (before ++ after) state
      = match finalizeProtocolLoop collaborators protocol before state with
        | none => none
        | some middle => finalizeProtocolLoop collaborators protocol after middle := by
  induction before generalizing state with
  | nil => rfl
  | cons method rest ih =>
    simp only [List.cons_append, finalizeProtocolLoop]
    cases finalizeProtocolMethod collaborators protocol state method with
    | none => rfl
    | some next => exact ih next

theorem finalizeProtocolMethod_type (collaborators : Collaborators) (protocol : Protocol)
    (state next : TypeDefinition × SemanticAnalyser) (method : Function)
    (h : finalizeProtocolMethod collaborators protocol state method = some next) :
    next.1.type = state.1.type ∧ next.1.position = state.1.position := by
  unfold finalizeProtocolMethod at h
  split at h
  · simp only [Option.some.injEq] at h
    rw [← h]
    exact ⟨rfl, rfl⟩
  · simp only at h
    split at h
    · cases h
    · simp only [Option.some.injEq] at h
      rw [← h]
      exact ⟨rfl, rfl⟩
    · simp only [Option.some.injEq] at h
      rw [← h]
      exact ⟨rfl, rfl⟩

theorem finalizeProtocolLoop_type (collaborators : Collaborators) (protocol : Protocol)
    (methods : List Function) (state final : TypeDefinition × SemanticAnalyser)
    (h : finalizeProtocolLoop collaborators protocol methods state = some final) :
    final.1.type = state.1.type ∧ final.1.position = state.1.position := by
  induction methods generalizing state with
  | nil =>
    simp only [finalizeProtocolLoop, Option.some.injEq] at h
    rw [← h]
    exact ⟨rfl, rfl⟩
  | cons method rest ih =>
    simp only [finalizeProtocolLoop] at h
    cases hs : finalizeProtocolMethod collaborators protocol state method with
    | none => rw [hs] at h; cases h
    | some next =>
      rw [hs] at h
      have h1 := finalizeProtocolMethod_type collaborators protocol state next method hs
      have h2 := ih next h
      exact ⟨h2.1.trans h1.1, h2.2.trans h1.2⟩

theorem finalizeProtocol_split (collaborators : Collaborators) (protocol : Protocol)
    (typeDef : TypeDefinition) (analyser : SemanticAnalyser) (before after : List Function)
    (method : Function) (reached : TypeDefinition × SemanticAnalyser)
    (hsplit : protocol.methodList = before ++ method :: after)
    (hbefore : finalizeProtocolLoop collaborators protocol before (typeDef, analyser)
      = some reached) :
    finalizeProtocol collaborators protocol (typeDef, analyser)
      = match finalizeProtocolMethod collaborators protocol reached method with
        | none => none
        | some next => finalizeProtocolLoop collaborators protocol after next := by
  unfold finalizeProtocol
  rw [hsplit, finalizeProtocolLoop_append, hbefore]
  rfl

/-- C15: when `finalizeProtocol` comes to a method of the protocol for which
the type has no method with the name and the imperative flag, it reports one
error "does not conform to protocol", with the type, the protocol and the
name of the method, at the position of the definition of the type; it
appoints no heir, changes neither the methods of the type nor the queue, and
goes on with the methods that follow. -/
theorem missing_method_reported (collaborators : Collaborators) (protocol : Protocol)
    (typeDef : TypeDefinition) (analyser : SemanticAnalyser) (before after : List Function)
    (method : Function) (reached : TypeDefinition × SemanticAnalyser)
    (hsplit : protocol.methodList = before ++ method :: after)
    (hbefore : finalizeProtocolLoop collaborators protocol before (typeDef, analyser)
      = some reached)
    (hmissing : reached.1.lookupMethod method.name method.imperative = none) :
    finalizeProtocolMethod collaborators protocol reached method
        = some (reached.1,
            { reached.2 with
              errors := reached.2.errors
                ++ [{ position := typeDef.position
                      message := ErrorMessage.doesNotConform typeDef.type protocol.type
                        method.name }] })
      ∧ finalizeProtocol collaborators protocol (typeDef, analyser)
        = finalizeProtocolLoop collaborators protocol after
            (reached.1,
              { reached.2 with
                errors := reached.2.errors
                  ++ [{ position := typeDef.position
                        message := ErrorMessage.doesNotConform typeDef.type protocol.type
                          method.name }] }) := by
  have htype := finalizeProtocolLoop_type collaborators protocol before _ reached hbefore
  have hstep : finalizeProtocolMethod collaborators protocol reached method
      = some (reached.1,
          { reached.2 with
            errors := reached.2.errors
              ++ [{ position := typeDef.position
                    message := ErrorMessage.doesNotConform typeDef.type protocol.type
                      method.name }] }) := by
    unfold finalizeProtocolMethod
    rw [hmissing]
    simp only [SemanticAnalyser.error, htype.1, htype.2]
  refine ⟨hstep, ?_⟩
  rw [finalizeProtocol_split collaborators protocol typeDef analyser before after method reached
    hsplit hbefore, hstep]

theorem missing_method_reported_witness :
    exampleProtocol.methodList
        = [exampleFunction [102] [0] 1 1] ++ exampleFunction [103] [] 1 2 :: []
    ∧ finalizeProtocolLoop exampleCollaborators exampleProtocol [exampleFunction [102] [0] 1 1]
        (exampleClass, emptyAnalyser) = some exampleReached
    ∧ exampleReached.1.lookupMethod (exampleFunction [103] [] 1 2).name
        (exampleFunction [103] [] 1 2).imperative = none
    ∧ (finalizeProtocolMethod exampleCollaborators exampleProtocol exampleReached
          (exampleFunction [103] [] 1 2)
        = some (exampleReached.1,
            { exampleReached.2 with
              errors := exampleReached.2.errors
                ++ [{ position := exampleClass.position
                      message := ErrorMessage.doesNotConform exampleClass.type
                        exampleProtocol.type (exampleFunction [103] [] 1 2).name }] })
      ∧ finalizeProtocol exampleCollaborators exampleProtocol (exampleClass, emptyAnalyser)
        = finalizeProtocolLoop exampleCollaborators exampleProtocol []
            (exampleReached.1,
              { exampleReached.2 with
                errors := exampleReached.2.errors
                  ++ [{ position := exampleClass.position
                        message := ErrorMessage.doesNotConform exampleClass.type
                          exampleProtocol.type (exampleFunction [103] [] 1 2).name }] })) :=
  ⟨by decide, by decide, by decide,
    missing_method_reported exampleCollaborators exampleProtocol exampleClass emptyAnalyser
      [exampleFunction [102] [0] 1 1] [] (exampleFunction [103] [] 1 2) exampleReached
      (by decide) (by decide) (by decide)⟩

end EmojicodeCompiler

namespace EmojicodeCompiler

theorem withErrors_nil (analyser : SemanticAnalyser) : analyser.withErrors [] = analyser := by
  simp [SemanticAnalyser.withErrors]

theorem withErrors_withErrors (analyser : SemanticAnalyser) (m1 m2 : List CompilerError) :
    (analyser.withErrors m1).withErrors m2 = analyser.withErrors (m1 ++ m2) := by
  simp [SemanticAnalyser.withErrors]

theorem error_eq_withErrors (analyser : SemanticAnalyser) (e : CompilerError) :
    analyser.error e = analyser.withErrors [e] := rfl

theorem checkArgumentLoop_spec (collaborators : Collaborators) (sub : Function)
    (subContext superContext : TypeContext) (rest : List Argument) (i : Nat) (compatible : Bool)
    (analyser : SemanticAnalyser) (hbound : i + rest.length ≤ sub.arguments.length) :
    ∃ result more,
      checkArgumentLoop collaborators sub subContext superContext rest i compatible analyser
          = some (result, analyser.withErrors more)
        ∧ (result = true ↔
            compatible = true
              ∧ ∀ (j : Nat) (superArgument subArgument : Argument),
                  rest[j]? = some superArgument → sub.arguments[i + j]? = some subArgument →
                  collaborators.storageType (collaborators.resolveOn subArgument.type subContext)
                    = collaborators.storageType
                        (collaborators.resolveOn superArgument.type superContext)) := by
  induction rest generalizing i compatible analyser with
  | nil =>
    refine ⟨compatible, [], by rw [withErrors_nil]; rfl, ?_⟩
    constructor
    · intro h
      exact ⟨h, fun j sa sb hj => by simp at hj⟩
    · intro h
      exact h.1
  | cons superArgument more ih =>
    rw [List.length_cons] at hbound
    have hi : i < sub.arguments.length := by omega
    have hget : sub.arguments[i]? = some sub.arguments[i] := List.getElem?_eq_getElem hi
    generalize sub.arguments[i] = subArgument at hget
    obtain ⟨result, errs, hloop, hiff⟩ := ih (i + 1)
      (if collaborators.storageType (collaborators.resolveOn subArgument.type subContext)
          ≠ collaborators.storageType (collaborators.resolveOn superArgument.type superContext)
        then false else compatible)
      (if !collaborators.compatibleTo (collaborators.resolveOn superArgument.type superContext)
          (collaborators.resolveOn subArgument.type subContext) subContext then
        analyser.error
          { position := sub.position
            message := ErrorMessage.argumentTypeIncompatible subArgument.type (i + 1)
              (collaborators.resolveOn superArgument.type superContext) }
        else analyser)
      (by omega)
    have hstate : ∃ first,
        (if !collaborators.compatibleTo (collaborators.resolveOn superArgument.type superContext)
            (collaborators.resolveOn subArgument.type subContext) subContext then
          analyser.error
            { position := sub.position
              message := ErrorMessage.argumentTypeIncompatible subArgument.type (i + 1)
                (collaborators.resolveOn superArgument.type superContext) }
          else analyser) = analyser.withErrors first := by
      split
      · exact ⟨_, error_eq_withErrors _ _⟩
      · exact ⟨[], (withErrors_nil analyser).symm⟩
    obtain ⟨first, hfirst⟩ := hstate
    rw [hfirst, withErrors_withErrors] at hloop
    refine ⟨result, first ++ errs, ?_, ?_⟩
    · rw [checkArgumentLoop, hget]
      simp only
      rw [hfirst]
      exact hloop
    · rw [hiff]
      constructor
      · rintro ⟨hc, hall⟩
        have hs : collaborators.storageType (collaborators.resolveOn subArgument.type subContext)
            = collaborators.storageType
                (collaborators.resolveOn superArgument.type superContext) := by
          by_contra hne
          rw [if_pos hne] at hc
          cases hc
        rw [if_neg (not_not.2 hs)] at hc
        refine ⟨hc, ?_⟩
        intro j sa sb hj hsub
        cases j with
        | zero =>
          simp only [List.getElem?_cons_zero, Option.some.injEq] at hj
          rw [Nat.add_zero, hget, Option.some.injEq] at hsub
          rw [← hj, ← hsub]
          exact hs
        | succ k =>
          simp only [List.getElem?_cons_succ] at hj
          exact hall k sa sb hj (by rw [Nat.add_assoc, Nat.add_comm 1 k]; exact hsub)
      · rintro ⟨hc, hall⟩
        have hs := hall 0 superArgument subArgument (by simp) (by rw [Nat.add_zero]; exact hget)
        rw [if_neg (not_not.2 hs)]
        refine ⟨hc, ?_⟩
        intro j sa sb hj hsub
        exact hall (j + 1) sa sb (by simpa using hj)
          (by rw [← Nat.add_assoc, Nat.add_right_comm]; exact hsub)

theorem checkArgumentPromise_spec (collaborators : Collaborators) (sub super : Function)
    (subContext superContext : TypeContext) (analyser : SemanticAnalyser)
    (hbound : super.arguments.length ≤ sub.arguments.length) :
    ∃ result more,
      checkArgumentPromise collaborators sub super subContext superContext analyser
          = some (result, analyser.withErrors more)
        ∧ (result = true ↔
            ∀ (j : Nat) (superArgument subArgument : Argument),
              super.arguments[j]? = some superArgument → sub.arguments[j]? = some subArgument →
              collaborators.storageType (collaborators.resolveOn subArgument.type subContext)
                = collaborators.storageType
                    (collaborators.resolveOn superArgument.type superContext)) := by
  unfold checkArgumentPromise
  simp only
  have hstate : ∃ first,
      (if super.arguments.length ≠ sub.arguments.length then
        analyser.error
          { position := sub.position, message := ErrorMessage.argumentCountMismatch }
        else analyser) = analyser.withErrors first := by
    split
    · exact ⟨_, error_eq_withErrors _ _⟩
    · exact ⟨[], (withErrors_nil analyser).symm⟩
  obtain ⟨first, hfirst⟩ := hstate
  rw [hfirst]
  obtain ⟨result, errs, hloop, hiff⟩ := checkArgumentLoop_spec collaborators sub subContext
    superContext super.arguments 0 true (analyser.withErrors first) (by omega)
  rw [withErrors_withErrors] at hloop
  refine ⟨result, first ++ errs, hloop, ?_⟩
  rw [hiff]
  constructor
  · rintro ⟨_, hall⟩ j sa sb hj hsub
    exact hall j sa sb hj (by rw [Nat.zero_add]; exact hsub)
  · intro hall
    exact ⟨rfl, fun j sa sb hj hsub => hall j sa sb hj (by rw [Nat.zero_add] at hsub; exact hsub)⟩

theorem enforcePromises_spec (collaborators : Collaborators) (type : TypeId)
    (protocol : Protocol) (sub super : Function) (analyser : SemanticAnalyser)
    (hbound :
      collaborators.storageType (collaborators.resolveOn sub.returnType (some type))
          = collaborators.storageType
              (collaborators.resolveOn super.returnType (some protocol.type)) →
        super.arguments.length ≤ sub.arguments.length) :
    ∃ result more,
      enforcePromises collaborators sub super protocol.type (some type) (some protocol.type)
          analyser = some (result, analyser.withErrors more)
        ∧ (result = true ↔ SameStorage collaborators type protocol sub super) := by
  unfold enforcePromises
  simp only
  have h1 : ∃ m1,
      (if super.final then
        analyser.error
          { position := sub.position, message := ErrorMessage.markedFinal protocol.type sub.name }
        else analyser) = analyser.withErrors m1 := by
    split
    · exact ⟨_, error_eq_withErrors _ _⟩
    · exact ⟨[], (withErrors_nil analyser).symm⟩
  obtain ⟨m1, hm1⟩ := h1
  rw [hm1]
  have h2 : ∃ m2,
      (if sub.accessLevel ≠ super.accessLevel then
        (analyser.withErrors m1).error
          { position := sub.position
            message := ErrorMessage.accessLevelMismatch protocol.type sub.name }
        else analyser.withErrors m1) = analyser.withErrors m2 := by
    split
    · exact ⟨_, by rw [error_eq_withErrors, withErrors_withErrors]⟩
    · exact ⟨m1, rfl⟩
  obtain ⟨m2, hm2⟩ := h2
  rw [hm2]
  have h3 : ∃ m3,
      (if !collaborators.compatibleTo (collaborators.resolveOn sub.returnType (some type))
          (collaborators.resolveOn super.returnType (some protocol.type)) (some type) then
        (analyser.withErrors m2).error
          { position := sub.position
            message := ErrorMessage.returnTypeIncompatible sub.returnType sub.name
              protocol.type }
        else analyser.withErrors m2) = analyser.withErrors m3 := by
    split
    · exact ⟨_, by rw [error_eq_withErrors, withErrors_withErrors]⟩
    · exact ⟨m2, rfl⟩
  obtain ⟨m3, hm3⟩ := h3
  rw [hm3]
  by_cases hret : collaborators.storageType (collaborators.resolveOn sub.returnType (some type))
      = collaborators.storageType (collaborators.resolveOn super.returnType (some protocol.type))
  · rw [if_neg (not_not.2 hret)]
    obtain ⟨result, errs, hcheck, hiff⟩ := checkArgumentPromise_spec collaborators sub super
      (some type) (some protocol.type) (analyser.withErrors m3) (hbound hret)
    rw [withErrors_withErrors] at hcheck
    refine ⟨result, m3 ++ errs, hcheck, ?_⟩
    rw [hiff]
    constructor
    · intro hall
      exact ⟨hret, hall⟩
    · intro hsame
      exact hsame.2
  · rw [if_pos hret]
    refine ⟨false, m3, rfl, ?_⟩
    constructor
    · intro h
      cases h
    · intro hsame
      exact absurd hsame.1 hret

theorem heir_appointHeir (analyser : SemanticAnalyser) (method : Function)
    (heir : Option Function) :
    (analyser.appointHeir method heir).heir method = some heir := by
  unfold SemanticAnalyser.heir SemanticAnalyser.appointHeir
  simp only [List.filter_append]
  have : List.filter (fun a : Function × Option Function => decide (a.1 = method))
      [(method, heir)]
      = [(method, heir)] := by simp
  rw [this, List.getLast?_append]
  simp

theorem lookupMethod_mem (typeDef : TypeDefinition) (name : Identifier) (imperative : Bool)
    (found : Function) (h : typeDef.lookupMethod name imperative = some found) :
    found ∈ typeDef.methodList ∧ found.name = name ∧ found.imperative = imperative := by
  unfold TypeDefinition.lookupMethod at h
  have h1 := List.find?_some h
  simp only [Bool.and_eq_true, decide_eq_true_eq] at h1
  exact ⟨List.mem_of_find?_eq_some h, h1.1, h1.2⟩

end EmojicodeCompiler

namespace EmojicodeCompiler

/-- An implementation with fewer parameters than the method of the protocol:
the class with the one method `f() -> 1` implements the method `f(x: 0) -> 1`
of the protocol by name and imperative flag, the return types have the same
storage type, and the loop of `checkArgumentPromise` reads
`sub->arguments()[0]` of an empty argument list: the run is undefined, neither
the implementation nor a boxing layer is appointed. -/
theorem implementation_with_fewer_arguments_undefined :
    ({ exampleClass with methodList := [exampleFunction [102] [] 1 11] } :
        TypeDefinition).lookupMethod [102] true = some (exampleFunction [102] [] 1 11)
    ∧ finalizeProtocolMethod exampleCollaborators exampleProtocol
        ({ exampleClass with methodList := [exampleFunction [102] [] 1 11] }, emptyAnalyser)
        (exampleFunction [102] [0] 1 1) = none
    ∧ finalizeProtocol exampleCollaborators exampleProtocol
        ({ exampleClass with methodList := [exampleFunction [102] [] 1 11] }, emptyAnalyser)
      = none := by
  decide

/-- What `finalizeProtocol` does when it comes to a method of the protocol for
which the type has an implementation (found by name and imperative flag)
that, where the return storage types agree, has at least as many parameters
as the method: it appoints the implementation itself as the heir of the
method, and leaves the methods of the type and the queue as they are, exactly
when the resolved return types have the same storage type and the resolved
types have the same storage type at every position of the parameters of the
method; otherwise it builds one boxing layer, adds it to the methods of the
type, which then hold the implementation and the layer, enqueues it, and
appoints the null pointer, not the layer, as the heir. It then goes on with
the methods that follow. -/
theorem finalizeProtocolMethod_found (collaborators : Collaborators)
    (protocol : Protocol) (typeDef : TypeDefinition) (analyser : SemanticAnalyser)
    (before after : List Function) (method : Function)
    (reached : TypeDefinition × SemanticAnalyser) (methodImplementation : Function)
    (hsplit : protocol.methodList = before ++ method :: after)
    (hbefore : finalizeProtocolLoop collaborators protocol before (typeDef, analyser)
      = some reached)
    (hfound : reached.1.lookupMethod method.name method.imperative = some methodImplementation)
    (hbound :
      collaborators.storageType
          (collaborators.resolveOn methodImplementation.returnType (some typeDef.type))
        = collaborators.storageType
            (collaborators.resolveOn method.returnType (some protocol.type)) →
      method.arguments.length ≤ methodImplementation.arguments.length) :
    methodImplementation ∈ reached.1.methodList
      ∧ ∃ next, finalizeProtocolMethod collaborators protocol reached method = some next
        ∧ finalizeProtocol collaborators protocol (typeDef, analyser)
          = finalizeProtocolLoop collaborators protocol after next
        ∧ (SameStorage collaborators typeDef.type protocol methodImplementation method →
            next.1 = reached.1
              ∧ next.2.queue_ = reached.2.queue_
              ∧ next.2.appointments
                = reached.2.appointments ++ [(method, some methodImplementation)]
              ∧ next.2.heir method = some (some methodImplementation))
        ∧ (¬ SameStorage collaborators typeDef.type protocol methodImplementation method →
            next.1.methodList = reached.1.methodList
                ++ [boxingLayerOf collaborators protocol method methodImplementation]
              ∧ next.2.queue_ = reached.2.queue_
                ++ [boxingLayerOf collaborators protocol method methodImplementation]
              ∧ next.2.appointments = reached.2.appointments ++ [(method, none)]
              ∧ next.2.heir method = some none
              ∧ methodImplementation ∈ next.1.methodList
              ∧ boxingLayerOf collaborators protocol method methodImplementation
                ∈ next.1.methodList) := by
  have htype := (finalizeProtocolLoop_type collaborators protocol before _ reached hbefore).1
  have hmem := (lookupMethod_mem reached.1 _ _ _ hfound).1
  refine ⟨hmem, ?_⟩
  obtain ⟨result, more, henf, hiff⟩ := enforcePromises_spec collaborators typeDef.type protocol
    methodImplementation method
    { reached.2 with reifications := reached.2.reifications ++ [methodImplementation] } hbound
  have hsplit2 := finalizeProtocol_split collaborators protocol typeDef analyser before after
    method reached hsplit hbefore
  cases result with
  | true =>
    have hsame := hiff.1 rfl
    have hstep : finalizeProtocolMethod collaborators protocol reached method
        = some (reached.1,
            (SemanticAnalyser.withErrors
              { reached.2 with reifications := reached.2.reifications ++ [methodImplementation] }
              more).appointHeir method (some methodImplementation)) := by
      unfold finalizeProtocolMethod
      rw [hfound]
      simp only
      rw [htype, henf]
    refine ⟨_, hstep, by rw [hsplit2, hstep], ?_, fun hn => absurd hsame hn⟩
    intro _
    exact ⟨rfl, rfl, rfl, heir_appointHeir _ _ _⟩
  | false =>
    have hnot : ¬ SameStorage collaborators typeDef.type protocol methodImplementation method :=
      fun hs => by
        have := hiff.2 hs
        cases this
    have hstep : finalizeProtocolMethod collaborators protocol reached method
        = some (buildBoxingLayer collaborators protocol method methodImplementation
            (reached.1,
              SemanticAnalyser.withErrors
                { reached.2 with
                  reifications := reached.2.reifications ++ [methodImplementation] }
                more)) := by
      unfold finalizeProtocolMethod
      rw [hfound]
      simp only
      rw [htype, henf]
    refine ⟨_, hstep, by rw [hsplit2, hstep], fun hs => absurd hs hnot, ?_⟩
    intro _
    have hext : (boxingLayerOf collaborators protocol method methodImplementation).external
        = false := rfl
    refine ⟨rfl, ?_, rfl, heir_appointHeir _ _ _, ?_, ?_⟩
    · simp only [buildBoxingLayer, SemanticAnalyser.appointHeir,
        SemanticAnalyser.enqueueFunction, hext]
      rfl
    · simp only [buildBoxingLayer, TypeDefinition.addMethod]
      exact List.mem_append_left _ hmem
    · simp only [buildBoxingLayer, TypeDefinition.addMethod]
      exact List.mem_append_right _ (List.mem_singleton_self _)

theorem finalizeProtocolMethod_found_example :
    exampleProtocol.methodList
        = [] ++ exampleFunction [102] [0] 1 1 :: [exampleFunction [103] [] 1 2]
    ∧ finalizeProtocolLoop exampleCollaborators exampleProtocol []
        (exampleClass, emptyAnalyser) = some (exampleClass, emptyAnalyser)
    ∧ exampleClass.lookupMethod (exampleFunction [102] [0] 1 1).name
        (exampleFunction [102] [0] 1 1).imperative = some (exampleFunction [102] [1] 1 11)
    ∧ (exampleCollaborators.storageType
          (exampleCollaborators.resolveOn (exampleFunction [102] [1] 1 11).returnType
            (some exampleClass.type))
        = exampleCollaborators.storageType
            (exampleCollaborators.resolveOn (exampleFunction [102] [0] 1 1).returnType
              (some exampleProtocol.type)) →
      (exampleFunction [102] [0] 1 1).arguments.length
        ≤ (exampleFunction [102] [1] 1 11).arguments.length)
    ∧ finalizeProtocolMethod exampleCollaborators exampleProtocol (exampleClass, emptyAnalyser)
        (exampleFunction [102] [0] 1 1) = some exampleReached
    ∧ exampleFunction [102] [1] 1 11 ∈ exampleClass.methodList :=
  ⟨by decide, by decide, by decide, by decide, by decide,
    (finalizeProtocolMethod_found exampleCollaborators exampleProtocol exampleClass
      emptyAnalyser [] [exampleFunction [103] [] 1 2] (exampleFunction [102] [0] 1 1)
      (exampleClass, emptyAnalyser) (exampleFunction [102] [1] 1 11)
      (by decide) (by decide) (by decide) (by decide)).1⟩

/-- C14 (as the claim states it, not met by the code): the class `C` with the
one method `f(x: 1) -> 1` implements the method `f(x: 0) -> 1` of the protocol
`P`, the storage types of the parameter differ (boxed and unboxed), and
`finalizeProtocol` builds one boxing layer, adds it to the methods of `C`
behind the implementation and enqueues it; the one call of `appointHeir` on
the method is `appointHeir(bl.get())` after `addMethod(move(bl))`, so the
heir of the method is the null pointer and not the layer. -/
theorem boxing_layer_heir_is_null :
    exampleClass.lookupMethod [102] true = some (exampleFunction [102] [1] 1 11)
    ∧ exampleCollaborators.storageType 1 ≠ exampleCollaborators.storageType 0
    ∧ ∃ next, finalizeProtocolMethod exampleCollaborators exampleProtocol
          (exampleClass, emptyAnalyser) (exampleFunction [102] [0] 1 1) = some next
      ∧ next.1.methodList
          = [exampleFunction [102] [1] 1 11,
              boxingLayerOf exampleCollaborators exampleProtocol
                (exampleFunction [102] [0] 1 1) (exampleFunction [102] [1] 1 11)]
      ∧ next.2.queue_
          = [boxingLayerOf exampleCollaborators exampleProtocol
              (exampleFunction [102] [0] 1 1) (exampleFunction [102] [1] 1 11)]
      ∧ next.2.appointments = [(exampleFunction [102] [0] 1 1, none)]
      ∧ next.2.heir (exampleFunction [102] [0] 1 1) = some none
      ∧ next.2.heir (exampleFunction [102] [0] 1 1)
          ≠ some (some (boxingLayerOf exampleCollaborators exampleProtocol
              (exampleFunction [102] [0] 1 1) (exampleFunction [102] [1] 1 11))) :=
  ⟨by decide, by decide, exampleReached, by decide, by decide, by decide, by decide, by decide,
    by decide⟩

end EmojicodeCompiler

namespace Emojicode

/-! ## Claims on the placement and on the keys -/

theorem bucketChain_wellFormed (dict : EmojicodeDictionary) (h : Inv dict) (i : Nat)
    (e : EmojicodeDictionaryNode) (he : e ∈ bucketChain dict i) :
    ∃ bucko, dict.buckets = some bucko ∧ WellFormed bucko dict.bucketsCounter dict.size
      ∧ e ∈ bucko.getD i [] := by
  unfold bucketChain at he
  unfold Inv at h
  cases hb : dict.buckets with
  | none => rw [hb] at he; simp at he
  | some bucko =>
    rw [hb] at he h
    exact ⟨bucko, rfl, h, he⟩

/-- C22: in a reachable dictionary with `n = bucketsCounter`, every node in
the chain of the bucket `i` has `(hash & (n - 1)) == i` and carries the hash
of its key. -/
theorem nodes_placed_by_hash (maxThreshold : Nat) (dict : EmojicodeDictionary)
    (hreach : Reachable maxThreshold dict) (i : Nat) (e : EmojicodeDictionaryNode)
    (he : e ∈ bucketChain dict i) :
    e.hash &&& (dict.bucketsCounter - 1) = i ∧ e.hash = dictionaryHash e.key := by
  obtain ⟨bucko, _, hwf, hmem⟩ :=
    bucketChain_wellFormed dict (reachable_inv maxThreshold dict hreach) i e he
  have := hwf.placed i e hmem
  exact ⟨this.2, this.1⟩

theorem nodes_placed_by_hash_witness :
    ({ hash := dictionaryHash [113], key := [113], value := Something.integer 2 } :
        EmojicodeDictionaryNode) ∈ bucketChain twoCollidingKeys 4
    ∧ (dictionaryHash [113] &&& (twoCollidingKeys.bucketsCounter - 1) = 4
      ∧ dictionaryHash [113] = dictionaryHash [113]) :=
  ⟨by set_option maxRecDepth 100000 in decide,
    nodes_placed_by_hash 2147483647 twoCollidingKeys
      (Reachable.set _ _ (Reachable.set _ _ (Reachable.init zeroMemory))) 4
      { hash := dictionaryHash [113], key := [113], value := Something.integer 2 }
      (by set_option maxRecDepth 100000 in decide)⟩

theorem inv_keys_nodup (dict : EmojicodeDictionary) (h : Inv dict) :
    ((dictionaryNodes dict).map fun e => e.key).Nodup := by
  unfold dictionaryNodes
  unfold Inv at h
  cases hb : dict.buckets with
  | none => simp
  | some bucko =>
    rw [hb] at h
    simp only
    rw [List.map_flatten, List.nodup_flatten]
    constructor
    · intro l hl
      obtain ⟨chain, hc, hlc⟩ := List.mem_map.1 hl
      obtain ⟨i, hi, hget⟩ := List.getElem_of_mem hc
      have := h.nodup i
      rw [List.getD_eq_getElem bucko [] hi, hget] at this
      rw [← hlc]
      exact this
    · rw [List.pairwise_map, List.pairwise_iff_getElem]
      intro i j hi hj hij key h1 h2
      obtain ⟨e1, he1, hk1⟩ := List.mem_map.1 h1
      obtain ⟨e2, he2, hk2⟩ := List.mem_map.1 h2
      have hp1 := h.placed i e1 (by rw [List.getD_eq_getElem bucko [] hi]; exact he1)
      have hp2 := h.placed j e2 (by rw [List.getD_eq_getElem bucko [] hj]; exact he2)
      have hh : e1.hash = e2.hash := by
        rw [hp1.1, hp2.1, hk1, hk2]
      have : i = j := by rw [← hp1.2, ← hp2.2, hh]
      omega

/-- C23: in a reachable dictionary the keys of the nodes of all chains are
pairwise distinct: two nodes with equal keys (`stringEqual`), or with equal
hashes and keys, are one and the same node, so a lookup or a removal by key
meets at most one node. -/
theorem keys_unique (maxThreshold : Nat) (dict : EmojicodeDictionary)
    (hreach : Reachable maxThreshold dict) :
    ((dictionaryNodes dict).map fun e => e.key).Nodup
      ∧ (∀ e1 ∈ dictionaryNodes dict, ∀ e2 ∈ dictionaryNodes dict,
          stringEqual e1.key e2.key = true → e1 = e2)
      ∧ (∀ e1 ∈ dictionaryNodes dict, ∀ e2 ∈ dictionaryNodes dict,
          dictionaryKeyHashEqual e1.hash e2.hash e1.key e2.key = true → e1 = e2)
      ∧ (dictionaryNodes dict).Nodup := by
  have hnd := inv_keys_nodup dict (reachable_inv maxThreshold dict hreach)
  refine ⟨hnd, ?_, ?_, hnd.of_map _⟩
  · intro e1 h1 e2 h2 hk
    simp only [stringEqual, beq_iff_eq] at hk
    exact List.inj_on_of_nodup_map hnd h1 h2 hk
  · intro e1 h1 e2 h2 hk
    exact List.inj_on_of_nodup_map hnd h1 h2 ((keyHashEqual_iff _ _ _ _).1 hk).2

theorem keys_unique_witness :
    ((dictionaryNodes twoCollidingKeys).map fun e => e.key).Nodup
      ∧ (∀ e1 ∈ dictionaryNodes twoCollidingKeys, ∀ e2 ∈ dictionaryNodes twoCollidingKeys,
          stringEqual e1.key e2.key = true → e1 = e2)
      ∧ (∀ e1 ∈ dictionaryNodes twoCollidingKeys, ∀ e2 ∈ dictionaryNodes twoCollidingKeys,
          dictionaryKeyHashEqual e1.hash e2.hash e1.key e2.key = true → e1 = e2)
      ∧ (dictionaryNodes twoCollidingKeys).Nodup :=
  keys_unique 2147483647 twoCollidingKeys
    (Reachable.set _ _ (Reachable.set _ _ (Reachable.init zeroMemory)))

end Emojicode

namespace Emojicode

/-! ## Claim on the rehash -/

theorem resizeCall_inv (maxThreshold : Nat) (dict : EmojicodeDictionary)
    (h : ResizeCall maxThreshold dict) : Inv dict := by
  cases h with
  | first hreach _ => exact reachable_inv maxThreshold dict hreach
  | @grow dict0 key value hreach hexceeds =>
    have hinv := reachable_inv maxThreshold dict0 hreach
    obtain ⟨dict2, early, bucko2, heq, hb2, _, _, hsize, hwf, _⟩ :=
      putValInsert_spec maxThreshold dict0 key value hinv
    unfold putValExceeds at hexceeds
    simp only [heq, Bool.and_eq_true, Bool.not_eq_true', decide_eq_true_eq] at hexceeds
    obtain ⟨hearly, _⟩ := hexceeds
    subst hearly
    simp only [Bool.false_eq_true, if_false] at hwf
    rw [heq]
    exact inv_of_wellFormed _ bucko2 hb2 (by rw [hsize]; exact hwf)

/-- The second call of `dictionaryResize` in `dictionaryPutVal`: the result
of the set is the resize of the dictionary after the insertion. -/
theorem dictionarySet_eq_resize (maxThreshold : Nat) (dict : EmojicodeDictionary)
    (key : EmojicodeString) (value : Something)
    (hexceeds : putValExceeds maxThreshold dict key value = true) :
    dictionarySet maxThreshold dict key value
      = dictionaryResize maxThreshold
          { (putValInsert maxThreshold dict key value).1 with
            size := (putValInsert maxThreshold dict key value).1.size + 1 } := by
  unfold putValExceeds at hexceeds
  simp only [Bool.and_eq_true, Bool.not_eq_true', decide_eq_true_eq] at hexceeds
  unfold dictionarySet dictionaryPutVal
  simp only [hexceeds.1, Bool.false_eq_true, if_false]
  unfold putValGrow
  simp only
  rw [if_pos hexceeds.2]

theorem flatten_lo_hi_perm (oldCap : Nat) (bucko : List (List EmojicodeDictionaryNode)) :
    (bucko.map (loPart oldCap) ++ bucko.map (hiPart oldCap)).flatten.Perm bucko.flatten := by
  rw [List.perm_iff_count]
  intro a
  induction bucko with
  | nil => rfl
  | cons c rest ih =>
    have hc := (List.filter_append_perm (fun e => decide (e.hash &&& oldCap = 0)) c).count_eq a
    simp only [List.map_cons, List.flatten_append, List.flatten_cons, List.count_append,
      loPart, hiPart] at ih hc ⊢
    omega

/-- C21: on every call of `dictionaryResize` that finds an array of `oldCap`
buckets with `oldCap < 2^30` (at the call sites such an array has
`0 < oldCap`), the new array has `2 * oldCap` buckets; the new bucket
`j` holds the nodes of the old bucket `j` with `(hash & oldCap) == 0` and the
new bucket `j + oldCap` those with `(hash & oldCap) != 0`, each in the order
of the old chain and with nothing behind its last node; the nodes of the new
array are the nodes of the old array, none lost and none twice. -/
theorem resize_splits_chains (maxThreshold : Nat) (dict : EmojicodeDictionary)
    (hcall : ResizeCall maxThreshold dict) (hb : dict.buckets ≠ none)
    (hlt : dict.bucketsCounter < 2 ^ 30) :
    (dictionaryResize maxThreshold dict).bucketsCounter = 2 * dict.bucketsCounter
      ∧ (∀ j, j < dict.bucketsCounter →
          bucketChain (dictionaryResize maxThreshold dict) j
              = (bucketChain dict j).filter
                  (fun e => decide (e.hash &&& dict.bucketsCounter = 0))
            ∧ bucketChain (dictionaryResize maxThreshold dict) (j + dict.bucketsCounter)
              = (bucketChain dict j).filter
                  (fun e => !decide (e.hash &&& dict.bucketsCounter = 0)))
      ∧ (∀ j, j < dict.bucketsCounter → ∀ e ∈ bucketChain dict j,
          (e.hash &&& dict.bucketsCounter = 0 →
              e ∈ bucketChain (dictionaryResize maxThreshold dict) j)
            ∧ (e.hash &&& dict.bucketsCounter ≠ 0 →
              e ∈ bucketChain (dictionaryResize maxThreshold dict) (j + dict.bucketsCounter)))
      ∧ (∀ j, 2 * dict.bucketsCounter ≤ j →
          bucketChain (dictionaryResize maxThreshold dict) j = [])
      ∧ (∀ j, (bucketChain (dictionaryResize maxThreshold dict) j).Sublist
          (bucketChain dict (j % dict.bucketsCounter)))
      ∧ (dictionaryNodes (dictionaryResize maxThreshold dict)).Perm (dictionaryNodes dict) := by
  have hinv := resizeCall_inv maxThreshold dict hcall
  unfold Inv at hinv
  cases hbs : dict.buckets with
  | none => exact absurd hbs hb
  | some bucko =>
    rw [hbs] at hinv
    obtain ⟨m, _, _, hcap⟩ := hinv.pow
    have hm : m < 30 := by
      rw [hcap] at hlt
      exact (Nat.pow_lt_pow_iff_right (by norm_num : 1 < 2)).1 hlt
    obtain ⟨thr, hr⟩ := dictionaryResize_double maxThreshold dict bucko m hbs hcap hm
    have hre := rehashed_fold m bucko
      (by rw [hcap] at hinv; exact wellFormed_placed_mask bucko m dict.size hinv)
      (2 ^ m) (le_refl _)
    generalize (List.range (2 ^ m)).foldl (resizeBucket (2 ^ m) (2 ^ (m + 1)) bucko)
      (List.replicate (2 ^ (m + 1)) []) = newBucko at hr hre
    have hold : ∀ j, bucketChain dict j = bucko.getD j [] := by
      intro j
      unfold bucketChain
      rw [hbs]
    have hnew : ∀ j, bucketChain (dictionaryResize maxThreshold dict) j = newBucko.getD j [] := by
      intro j
      rw [hr]
      rfl
    have hnodes : dictionaryNodes (dictionaryResize maxThreshold dict) = newBucko.flatten := by
      rw [hr]
      rfl
    have hlo : ∀ j, j < 2 ^ m → newBucko.getD j [] = loPart (2 ^ m) (bucko.getD j []) := by
      intro j hj
      rw [hre.2 j, if_pos hj]
    have hhi : ∀ j, j < 2 ^ m → newBucko.getD (j + 2 ^ m) [] = hiPart (2 ^ m) (bucko.getD j []) := by
      intro j hj
      rw [hre.2 (j + 2 ^ m), if_neg (by omega), if_pos ⟨by omega, by omega⟩, Nat.add_sub_cancel]
    rw [hcap]
    refine ⟨?_, ?_, ?_, ?_, ?_, ?_⟩
    · rw [hr, Nat.pow_succ]
      show 2 ^ m * 2 = 2 * 2 ^ m
      omega
    · intro j hj
      rw [hnew, hnew, hold, hlo j hj, hhi j hj]
      exact ⟨rfl, rfl⟩
    · intro j hj e he
      rw [hnew, hnew, hlo j hj, hhi j hj]
      rw [hold] at he
      constructor
      · intro h0
        exact List.mem_filter.2 ⟨he, by simpa using h0⟩
      · intro h0
        exact List.mem_filter.2 ⟨he, by simpa using h0⟩
    · intro j hj
      rw [hnew, hre.2 j, if_neg (by omega), if_neg (by omega)]
    · intro j
      rw [hnew, hold, hre.2 j]
      have hmod : j % 2 ^ m < 2 ^ m := Nat.mod_lt _ (Nat.two_pow_pos m)
      by_cases h1 : j < 2 ^ m
      · rw [if_pos h1, Nat.mod_eq_of_lt h1]
        exact List.filter_sublist _
      · rw [if_neg h1]
        by_cases h2 : 2 ^ m ≤ j ∧ j < 2 ^ m + 2 ^ m
        · rw [if_pos h2]
          have hj : j % 2 ^ m = j - 2 ^ m := by
            rw [Nat.mod_eq_sub_mod h2.1, Nat.mod_eq_of_lt (by omega)]
          rw [hj]
          exact List.filter_sublist _
        · rw [if_neg h2]
          exact List.nil_sublist _
    · rw [hnodes]
      have hdn : dictionaryNodes dict = bucko.flatten := by
        unfold dictionaryNodes
        rw [hbs]
      rw [hdn, rehashed_eq (2 ^ m) bucko newBucko (by rw [← hcap]; exact hinv.length_eq) hre]
      exact flatten_lo_hi_perm (2 ^ m) bucko

theorem resize_splits_chains_witness :
    ResizeCall 2147483647 thirteenthInsert
      ∧ thirteenthInsert.buckets ≠ none
      ∧ thirteenthInsert.bucketsCounter < 2 ^ 30
      ∧ ((dictionaryResize 2147483647 thirteenthInsert).bucketsCounter
          = 2 * thirteenthInsert.bucketsCounter
        ∧ (∀ j, j < thirteenthInsert.bucketsCounter →
            bucketChain (dictionaryResize 2147483647 thirteenthInsert) j
                = (bucketChain thirteenthInsert j).filter
                    (fun e => decide (e.hash &&& thirteenthInsert.bucketsCounter = 0))
              ∧ bucketChain (dictionaryResize 2147483647 thirteenthInsert)
                  (j + thirteenthInsert.bucketsCounter)
                = (bucketChain thirteenthInsert j).filter
                    (fun e => !decide (e.hash &&& thirteenthInsert.bucketsCounter = 0)))
        ∧ (∀ j, j < thirteenthInsert.bucketsCounter → ∀ e ∈ bucketChain thirteenthInsert j,
            (e.hash &&& thirteenthInsert.bucketsCounter = 0 →
                e ∈ bucketChain (dictionaryResize 2147483647 thirteenthInsert) j)
              ∧ (e.hash &&& thirteenthInsert.bucketsCounter ≠ 0 →
                e ∈ bucketChain (dictionaryResize 2147483647 thirteenthInsert)
                  (j + thirteenthInsert.bucketsCounter)))
        ∧ (∀ j, 2 * thirteenthInsert.bucketsCounter ≤ j →
            bucketChain (dictionaryResize 2147483647 thirteenthInsert) j = [])
        ∧ (∀ j, (bucketChain (dictionaryResize 2147483647 thirteenthInsert) j).Sublist
            (bucketChain thirteenthInsert (j % thirteenthInsert.bucketsCounter)))
        ∧ (dictionaryNodes (dictionaryResize 2147483647 thirteenthInsert)).Perm
            (dictionaryNodes thirteenthInsert)) :=
  ⟨ResizeCall.grow [113] (Something.integer 13)
      (reachable_setAll 2147483647 _ (letterEntries 12) (Reachable.init zeroMemory))
      (by set_option maxRecDepth 1000000 in decide),
    by set_option maxRecDepth 1000000 in decide,
    by set_option maxRecDepth 1000000 in decide,
    resize_splits_chains 2147483647 thirteenthInsert
      (ResizeCall.grow [113] (Something.integer 13)
        (reachable_setAll 2147483647 _ (letterEntries 12) (Reachable.init zeroMemory))
        (by set_option maxRecDepth 1000000 in decide))
      (by set_option maxRecDepth 1000000 in decide)
      (by set_option maxRecDepth 1000000 in decide)⟩

/-- The set of `"q"` after `"a"`, …, `"l"`: the chain `"a"`, `"q"` of bucket 4
of 16 is split, `"a"` stays in bucket 4 and `"q"` moves to bucket 20 of 32. -/
theorem thirteenthInsert_split :
    (bucketChain thirteenthInsert 4).map (fun e => e.key) = [[97], [113]]
      ∧ (bucketChain (dictionaryResize 2147483647 thirteenthInsert) 4).map (fun e => e.key)
          = [[97]]
      ∧ (bucketChain (dictionaryResize 2147483647 thirteenthInsert) 20).map (fun e => e.key)
          = [[113]]
      ∧ dictionarySet 2147483647
          (setAll 2147483647 (dictionaryInit zeroMemory) (letterEntries 12))
          [113] (Something.integer 13)
        = dictionaryResize 2147483647 thirteenthInsert := by
  set_option maxRecDepth 1000000 in decide

end Emojicode

namespace EmojicodeCompiler

/-! ## Reads of the argument lists in `checkArgumentPromise` -/

theorem checkArgumentLoop_none (collaborators : Collaborators) (sub : Function)
    (subContext superContext : TypeContext) (rest : List Argument) (i : Nat) (compatible : Bool)
    (analyser : SemanticAnalyser) (hi : i ≤ sub.arguments.length)
    (hbound : sub.arguments.length < i + rest.length) :
    checkArgumentLoop collaborators sub subContext superContext rest i compatible analyser
      = none := by
  induction rest generalizing i compatible analyser with
  | nil =>
    rw [List.length_nil] at hbound
    omega
  | cons superArgument more ih =>
    rw [List.length_cons] at hbound
    unfold checkArgumentLoop
    simp only
    cases hget : sub.arguments[i]? with
    | none => rfl
    | some subArgument =>
      have hlt : i < sub.arguments.length := by
        by_contra hge
        rw [List.getElem?_eq_none (by omega)] at hget
        exact absurd hget (by simp)
      simp only
      exact ih (i + 1) _ _ (by omega) (by omega)

/-- The loop of `checkArgumentPromise` reads `sub->arguments()[i]` behind the
end of the vector exactly when `sub` has fewer arguments than `super`. -/
theorem checkArgumentPromise_none_iff (collaborators : Collaborators) (sub super : Function)
    (subContext superContext : TypeContext) (analyser : SemanticAnalyser) :
    checkArgumentPromise collaborators sub super subContext superContext analyser = none
      ↔ sub.arguments.length < super.arguments.length := by
  constructor
  · intro hnone
    by_contra hge
    obtain ⟨result, more, hsome, _⟩ := checkArgumentPromise_spec collaborators sub super
      subContext superContext analyser (by omega)
    rw [hnone] at hsome
    exact absurd hsome (by simp)
  · intro hlt
    unfold checkArgumentPromise
    exact checkArgumentLoop_none collaborators sub subContext superContext super.arguments 0 true
      _ (Nat.zero_le _) (by omega)

/-- C24 (as the claim states it, not met by the code): for `sub = f() -> 1`
and `super = f(x: 0) -> 1` the loop of `checkArgumentPromise`, which runs
while `i < super->arguments().size()`, is entered with `i = 0`, and the read
`sub->arguments()[0]` is behind the end of the empty argument list of `sub`:
the call has no defined result. -/
theorem checkArgumentPromise_reads_behind_end :
    (exampleFunction [102] [0] 1 1).arguments.length = 1
    ∧ (exampleFunction [102] [] 1 11).arguments.length = 0
    ∧ (exampleFunction [102] [] 1 11).arguments[0]? = none
    ∧ checkArgumentPromise exampleCollaborators (exampleFunction [102] [] 1 11)
        (exampleFunction [102] [0] 1 1) (some 8) (some 9) emptyAnalyser = none := by
  decide

end EmojicodeCompiler
